import Mathlib

/-!
Verification of the Urho3D Blender exporter core (`io_mesh_urho/export_urho.py`)
against its natural-language specification.

Modelling conventions for the shallow embedding:
* Python floats are modelled as exact rationals (ℚ).  All float operations the
  claims touch (comparison against the absolute epsilon 1e-6, sums of absolute
  differences, dot products, averaging) are exact arithmetic in the source as
  well, up to rounding, and no claim depends on rounding behaviour.
* `None` is modelled by `Option`; mathutils vectors / quaternions / UV pairs are
  lists of rationals, which matches the `zip`-based comparison helpers of the
  source (`FloatListAlmostEqual`, `FloatListEqualError`).
* The float value `INFINITY = float("+inf")`, used only as an error sentinel in
  the LOD matching code, is modelled by `none` in `Option ℚ`, with the IEEE
  comparison rules spelled out (`optLtErr`): `x < +inf` for finite `x`, and
  `¬ (+inf < +inf)`.
* Python's stable `sorted` / `list.sort` are modelled by a structurally
  recursive, stable insertion sort (`sortBy`): a stable sort with a fixed total
  comparator is extensionally unique, so this is faithful.
* Python dicts keyed by `hash(uVertex)` (a hash of the position floats only)
  are modelled as association lists keyed by the position value itself:
  vertices with equal positions always share a bucket, which is the behaviour
  the algorithm relies on (the spec's design note 9 prescribes exactly this
  reimplementation).
* Python's numeric `&`/`|` on element masks are `Nat` bitwise operations.
-/

namespace Urho

/- The Batteries rational-number operations are `@[irreducible]`, which blocks
`decide` on concrete rational arithmetic; re-allow unfolding locally.  This
changes nothing about provability (the kernel ignores reducibility hints). -/
attribute [local semireducible] Rat.add Rat.mul Rat.inv Rat.sub Rat.ofScientific

/-! ## Urho enums (source lines 25-51) -/

def ELEMENT_POSITION : ℕ := 0x0001
def ELEMENT_NORMAL : ℕ := 0x0002
def ELEMENT_COLOR : ℕ := 0x0004
def ELEMENT_UV1 : ℕ := 0x0008
def ELEMENT_UV2 : ℕ := 0x0010
def ELEMENT_TANGENT : ℕ := 0x0080
def ELEMENT_BWEIGHTS : ℕ := 0x0100
def ELEMENT_BINDICES : ℕ := 0x0200
def ELEMENT_BLEND : ℕ := 0x0300

def TRACK_POSITION : ℕ := 0x0001
def TRACK_ROTATION : ℕ := 0x0002
def TRACK_SCALE : ℕ := 0x0004

def TRIANGLE_LIST : ℕ := 0

def MAX_SKIN_MATRICES : ℕ := 64

/-- Source line 58: max difference between floats to be equal. -/
def EPSILON : ℚ := 1 / 1000000

/-- Rational stand-in for the double value of `cos(30 / 180 * pi)` computed at
source line 219.  The claims never depend on the exact value, only on its use
as a threshold; any fixed rational strictly between 0 and 1 near 0.866 models
the double faithfully. -/
def COS30 : ℚ := 866025403784438647 / 1000000000000000000

/-! ## Float comparison helpers (source lines 64-101) -/

/-- Source `FloatListAlmostEqual` (lines 64-72): both `None`, or corresponding
elements within `EPSILON`. -/
def floatListAlmostEqual : Option (List ℚ) → Option (List ℚ) → Bool
  | none, v2 => v2.isNone
  | some _, none => false
  | some v1, some v2 => (List.zip v1 v2).all (fun p => decide (|p.1 - p.2| ≤ EPSILON))

/-- Source `FloatListEqualError` (lines 82-91): sum of absolute element
differences; `none` models the `INFINITY` returned when exactly one side is
`None`. -/
def floatListEqualError : Option (List ℚ) → Option (List ℚ) → Option ℚ
  | none, none => some 0
  | none, some _ => none
  | some _, none => none
  | some v1, some v2 => some (((List.zip v1 v2).map (fun p => |p.1 - p.2|)).sum)

/-- Source `VectorDotProduct` (lines 93-101). -/
def vectorDotProduct : Option (List ℚ) → Option (List ℚ) → ℚ
  | none, none => 1
  | none, some _ => -1
  | some _, none => -1
  | some v1, some v2 => ((List.zip v1 v2).map (fun p => p.1 * p.2)).sum

/-- Python float `<` with `none` as `+inf`: a finite value is below `+inf`, and
`+inf < +inf` is false. -/
def optLtErr : Option ℚ → Option ℚ → Bool
  | some a, some b => decide (a < b)
  | some _, none => true
  | none, _ => false

/-- Python float `≤` with `none` as `+inf` (everything is `≤ +inf`). -/
def optLeErr : Option ℚ → Option ℚ → Bool
  | none, none => true
  | none, some _ => false
  | some _, none => true
  | some a, some b => decide (a ≤ b)

/-- Addition where `none` (`+inf`) is absorbing, as in IEEE float addition of
finite values and `+inf`. -/
def optAddErr : Option ℚ → Option ℚ → Option ℚ
  | some a, some b => some (a + b)
  | _, _ => none

/-! ## Stable sorting (model of Python's stable `sorted`/`list.sort`) -/

/-- Insert `a` after every element `b` with `le b a`; used to build a stable
insertion sort. -/
def insertSorted {α : Type} (le : α → α → Bool) (a : α) : List α → List α
  | [] => [a]
  | b :: bs => if le b a then b :: insertSorted le a bs else a :: b :: bs

/-- Stable sort by the comparator `le`; models Python's stable sorts. -/
def sortBy {α : Type} (le : α → α → Bool) (l : List α) : List α :=
  l.foldl (fun acc a => insertSorted le a acc) []

/-! ## Association-list helpers (model of Python dicts) -/

def alistLookup {α β : Type} [DecidableEq α] : List (α × β) → α → Option β
  | [], _ => none
  | p :: ps, k => if p.1 = k then some p.2 else alistLookup ps k

/-- Replace the binding of `k` (or append it), modelling in-place update of a
dict entry. -/
def alistSet {α β : Type} [DecidableEq α] : List (α × β) → α → β → List (α × β)
  | [], k, v => [(k, v)]
  | p :: ps, k, v => if p.1 = k then (k, v) :: ps else p :: alistSet ps k v

/-! ## Source vertex data (input intermediate representation) -/

/-- A `TVertex` of the intermediate representation, as consumed by
`UrhoVertex.__init__` (source lines 139-191).  Fields are `None` or a value;
color is a 4-byte tuple compared exactly. -/
structure TVertex where
  pos : Option (List ℚ)
  normal : Option (List ℚ)
  color : Option (List ℕ)
  uv : Option (List ℚ)
  uv2 : Option (List ℚ)
  tangent : Option (List ℚ)
  weights : Option (List (ℕ × ℚ))
  blenderIndex : Option ℕ
deriving DecidableEq, Inhabited

/-- Element mask computed from the present fields of a `TVertex`
(source lines 141-183). -/
def tVertexMask (t : TVertex) : ℕ :=
  (if t.pos.isSome then ELEMENT_POSITION else 0) |||
  (if t.normal.isSome then ELEMENT_NORMAL else 0) |||
  (if t.color.isSome then ELEMENT_COLOR else 0) |||
  (if t.uv.isSome then ELEMENT_UV1 else 0) |||
  (if t.uv2.isSome then ELEMENT_UV2 else 0) |||
  (if t.tangent.isSome then ELEMENT_TANGENT else 0) |||
  (if t.weights.isSome then ELEMENT_BLEND else 0)

/-! ## Urho vertex (source class `UrhoVertex`) -/

structure UrhoVertex where
  /-- Only used by morphs: original vertex index. -/
  index : Option ℕ
  pos : Option (List ℚ)
  normal : Option (List ℚ)
  color : Option (List ℕ)
  uv : Option (List ℚ)
  uv2 : Option (List ℚ)
  tangent : Option (List ℚ)
  /-- List of `(bone index, blend weight)` pairs. -/
  weights : List (ℕ × ℚ)
deriving DecidableEq, Inhabited

/-- Weight processing of `UrhoVertex.__init__` (source lines 170-183): sort the
`(index, weight)` pairs by decreasing weight (stably), keep the first 4,
normalize by the total of those 4, pad to exactly 4 tuples with `(0, 0.0)`;
if the total is zero every tuple is `(0, 0.0)`. -/
def mkWeights (ws : List (ℕ × ℚ)) : List (ℕ × ℚ) :=
  let sortedList := sortBy (fun a b => decide (b.2 ≤ a.2)) ws
  let totalWeight := ((sortedList.take 4).map (fun t => t.2)).sum
  (List.range 4).map (fun i =>
    if totalWeight ≠ 0 ∧ i < sortedList.length then
      let t := sortedList.getD i ((0 : ℕ), (0 : ℚ))
      (t.1, t.2 / totalWeight)
    else ((0 : ℕ), (0 : ℚ)))

/-- Field part of `UrhoVertex.__init__` (source lines 139-183): copy the
present channels and process the weights. -/
def mkUrhoVertex (t : TVertex) : UrhoVertex :=
  { index := none
    pos := t.pos
    normal := t.normal
    color := t.color
    uv := t.uv
    uv2 := t.uv2
    tangent := t.tangent
    weights := match t.weights with
      | none => []
      | some ws => mkWeights ws }

/-- The element mask a stored `UrhoVertex` carries through its present fields
(the source computes this mask in the constructor; the vertex itself keeps the
fields, so the mask is recomputed here from them). -/
def uVertexMask (v : UrhoVertex) : ℕ :=
  (if v.pos.isSome then ELEMENT_POSITION else 0) |||
  (if v.normal.isSome then ELEMENT_NORMAL else 0) |||
  (if v.color.isSome then ELEMENT_COLOR else 0) |||
  (if v.uv.isSome then ELEMENT_UV1 else 0) |||
  (if v.uv2.isSome then ELEMENT_UV2 else 0) |||
  (if v.tangent.isSome then ELEMENT_TANGENT else 0) |||
  (if !v.weights.isEmpty then ELEMENT_BLEND else 0)

/-- Buffer-mask update of `UrhoVertex.__init__` (source lines 186-191): first
vertex sets the buffer mask; a differing mask narrows the buffer mask to the
bitwise AND and raises `MaskError` (second component `true`). -/
def updateBufferMask : Option ℕ → ℕ → Option ℕ × Bool
  | none, m => (some m, false)
  | some bm, m => if bm = m then (some bm, false) else (some (bm &&& m), true)

/-- Source `UrhoVertex.AlmostEqual` (lines 199-210): position, normal, color
(exact), UV and UV2 equal within epsilon. -/
def almostEqual (self other : UrhoVertex) : Bool :=
  floatListAlmostEqual self.pos other.pos &&
  floatListAlmostEqual self.normal other.normal &&
  decide (self.color = other.color) &&
  floatListAlmostEqual self.uv other.uv &&
  floatListAlmostEqual self.uv2 other.uv2

/-- Source `UrhoVertex.LodError` (lines 213-222): infinite error (`none`) if
the positions are not almost equal or the normals are more than 30° apart,
otherwise `sum(|Δuv|) + (1 - cos θ)` (where the UV error is itself infinite if
exactly one side lacks UVs). -/
def lodError (self other : UrhoVertex) : Option ℚ :=
  if floatListAlmostEqual self.pos other.pos = false then none
  else
    let ncos := vectorDotProduct self.normal other.normal
    if ncos < COS30 then none
    else optAddErr (floatListEqualError self.uv other.uv) (some (1 - ncos))

/-! ## Buffers, LODs, geometries, model (source classes, lines 243-335) -/

structure UrhoVertexBuffer where
  /-- Flags of the elements contained in every vertex of this buffer. -/
  elementMask : Option ℕ
  morphMinIndex : Option ℕ
  morphMaxIndex : Option ℕ
  vertices : List UrhoVertex
deriving DecidableEq, Inhabited

structure UrhoIndexBuffer where
  /-- Size of each index: 2 for 16 bits, 4 for 32 bits. -/
  indexSize : ℕ
  indexes : List ℕ
deriving DecidableEq, Inhabited

structure UrhoLodLevel where
  distance : ℚ
  primitiveType : ℕ
  /-- Index of the vertex buffer used by this LOD in the model list. -/
  vertexBuffer : ℕ
  /-- Index of the index buffer used by this LOD in the model list. -/
  indexBuffer : ℕ
  startIndex : ℕ
  countIndex : ℕ
deriving DecidableEq, Inhabited

structure UrhoGeometry where
  /-- Map from local (in-geometry) bone index to global skeleton bone index. -/
  boneMap : List ℕ
  lodLevels : List UrhoLodLevel
  /-- Geometry center based on the positions referenced by the triangles of
  the first LOD. -/
  center : List ℚ
deriving DecidableEq, Inhabited

structure UrhoModel where
  name : String
  vertexBuffers : List UrhoVertexBuffer
  indexBuffers : List UrhoIndexBuffer
  geometries : List UrhoGeometry
  /-- Model bounding box as `(min, max)`; `none` while nothing merged. -/
  boundingBox : Option (List ℚ × List ℚ)
deriving DecidableEq, Inhabited

def emptyVB : UrhoVertexBuffer := { elementMask := none, morphMinIndex := none, morphMaxIndex := none, vertices := [] }

def emptyIB : UrhoIndexBuffer := { indexSize := 0, indexes := [] }

/-- `BoundingBox.merge` (source lines 113-129), on `(min, max)` pairs of
coordinate lists. -/
def bboxMerge : Option (List ℚ × List ℚ) → List ℚ → Option (List ℚ × List ℚ)
  | none, p => some (p, p)
  | some (mn, mx), p => some (List.zipWith min mn p, List.zipWith max mx p)

/-! ## Vertex deduplication (source lines 953-1032) -/

/-- Strict candidate search (source lines 981-987): the first index in the
hash bucket whose vertex is `AlmostEqual` to the new vertex. -/
def findStrictMatch (vertices : List UrhoVertex) (bucket : List ℕ) (v : UrhoVertex) : Option ℕ :=
  bucket.find? (fun ivl => almostEqual (vertices.getD ivl default) v)

/-- One step of the relaxed search loop (source lines 991-996): strict
improvement of the running best error moves the best index. -/
def lodFoldStep (vertices : List UrhoVertex) (v : UrhoVertex)
    (best : Option ℚ × Option ℕ) (ivl : ℕ) : Option ℚ × Option ℕ :=
  let e := lodError (vertices.getD ivl default) v
  if optLtErr e best.1 then (e, some ivl) else best

/-- Relaxed candidate search for non-strict later LODs (source lines 988-996):
start from `bestLodError = INFINITY`, keep the first index attaining the
minimum finite `LodError`; `none` when every candidate stays at infinity. -/
def findLodMatch (vertices : List UrhoVertex) (bucket : List ℕ) (v : UrhoVertex) : Option ℕ :=
  (bucket.foldl (lodFoldStep vertices v) (none, none)).2

/-- Accumulator for the per-LOD vertex loop (source lines 954-1032). -/
structure DedupAcc where
  /-- The vertex buffer currently filled (the last one of the model list). -/
  vb : UrhoVertexBuffer
  /-- `uVerticesMap`: position-hash bucket map for the current buffer. -/
  vmap : List (Option (List ℚ) × List ℕ)
  /-- The value last successfully bound to the Python variable `uVertex`; on a
  `MaskError` the source's `uVertex = UrhoVertex(...)` assignment does not
  happen and the previous binding is reused. -/
  lastVertex : Option UrhoVertex
  /-- `indexMap`: old vertex index → new vertex index in the current buffer. -/
  indexMap : List (ℕ × ℕ)
  bbox : Option (List ℚ × List ℚ)
  /-- Instrumentation: how many `MaskError`s were raised (the source logs each
  and records the blender index in `errorsDict`). -/
  maskErrors : ℕ
  /-- The `errorsDict["incompatible element mask"]` set of blender indices. -/
  maskErrorIndices : List ℕ
deriving DecidableEq, Inhabited

/-- Membership-tested append, modelling `set.add`. -/
def insertOnce {α : Type} [DecidableEq α] (l : List α) (a : α) : List α :=
  if a ∈ l then l else l ++ [a]

/-- Processing of one source vertex index (source lines 954-1032): construct
the `UrhoVertex` (catching `MaskError` and falling back to the stale `uVertex`
binding), look it up in its position bucket with the strict or relaxed policy,
append it when not found, update the local index map and the model bounding
box. -/
def dedupStep (strict : Bool) (verts : List TVertex) (acc : DedupAcc) (tIdx : ℕ) : DedupAcc :=
  let t := verts.getD tIdx default
  let v0 := mkUrhoVertex t
  let mu := updateBufferMask acc.vb.elementMask (tVertexMask t)
  let uVertex := if mu.2 then acc.lastVertex.getD v0 else v0
  let lastV := if mu.2 then acc.lastVertex else some v0
  let errIdxs := if mu.2 then
      (match t.blenderIndex with
        | some b => insertOnce acc.maskErrorIndices b
        | none => acc.maskErrorIndices)
    else acc.maskErrorIndices
  let bucket := (alistLookup acc.vmap uVertex.pos).getD []
  let found := if strict then findStrictMatch acc.vb.vertices bucket uVertex
      else findLodMatch acc.vb.vertices bucket uVertex
  let vertices2 := match found with
    | some _ => acc.vb.vertices
    | none => acc.vb.vertices ++ [uVertex]
  let vmap2 := match found with
    | some _ => acc.vmap
    | none => alistSet acc.vmap uVertex.pos (bucket ++ [acc.vb.vertices.length])
  let uVertexIndex := match found with
    | some ivl => ivl
    | none => acc.vb.vertices.length
  let indexMap2 := if (alistLookup acc.indexMap tIdx).isSome then acc.indexMap
      else acc.indexMap ++ [(tIdx, uVertexIndex)]
  let bbox2 := if (mu.1.getD 0) &&& ELEMENT_POSITION ≠ 0 then
      (match uVertex.pos with
        | some p => bboxMerge acc.bbox p
        | none => acc.bbox)
    else acc.bbox
  { vb := { acc.vb with elementMask := mu.1, vertices := vertices2 }
    vmap := vmap2
    lastVertex := lastV
    indexMap := indexMap2
    bbox := bbox2
    maskErrors := acc.maskErrors + (if mu.2 then 1 else 0)
    maskErrorIndices := errIdxs }

/-! ## Bone remapping (source lines 1066-1088) -/

/-- Remap one `(boneIndex, weight)` pair: look the global index up in the
geometry's bone map (first occurrence); if absent, append it when the map has
room (< `MAX_SKIN_MATRICES`), otherwise fall back to local index 0 with the
weight zeroed. -/
def remapPair (boneMap : List ℕ) (p : ℕ × ℚ) : List ℕ × (ℕ × ℚ) :=
  match boneMap.findIdx? (fun b => b = p.1) with
  | some j => (boneMap, (j, p.2))
  | none =>
    let j := boneMap.length
    if j < MAX_SKIN_MATRICES then (boneMap ++ [p.1], (j, p.2))
    else (boneMap, (0, 0))

/-- Remap every weight pair of one vertex, threading the bone map. -/
def remapVertex (boneMap : List ℕ) (v : UrhoVertex) : List ℕ × UrhoVertex :=
  let r := v.weights.foldl (fun (acc : List ℕ × List (ℕ × ℚ)) p =>
      ((remapPair acc.1 p).1, acc.2 ++ [(remapPair acc.1 p).2])) (boneMap, [])
  (r.1, { v with weights := r.2 })

/-- The whole remapping pass over a vertex buffer (source lines 1072-1088). -/
def boneRemapPass (boneMap : List ℕ) (vs : List UrhoVertex) : List ℕ × List UrhoVertex :=
  vs.foldl (fun (acc : List ℕ × List UrhoVertex) v =>
      ((remapVertex acc.1 v).1, acc.2 ++ [(remapVertex acc.1 v).2])) (boneMap, [])

/-! ## Export options and intermediate scene input (source lines 432-444) -/

structure UrhoExportOptions where
  splitSubMeshes : Bool
  useStrictLods : Bool
deriving DecidableEq, Inhabited

/-- A `TLodLevel` of the intermediate representation.  `indexSet` is a Python
set of source-vertex indices; its (arbitrary but fixed) iteration order is
captured as a list. -/
structure TLodLevel where
  distance : ℚ
  indexSet : List ℕ
  triangleList : List (ℕ × ℕ × ℕ)
deriving DecidableEq, Inhabited

structure TGeometry where
  lodLevels : List TLodLevel
deriving DecidableEq, Inhabited

/-- The slice of `tData` consumed by the model-building part of `UrhoExport`.
Only the skeleton's bone count feeds the claims (it gates the bone remap), so
the bone records themselves (transforms, bind poses) are reduced to a count. -/
structure TData where
  objectName : String
  verticesList : List TVertex
  geometriesList : List TGeometry
  bonesCount : ℕ
deriving DecidableEq, Inhabited

/-! ## Buffer-splitting policy (source lines 877-891) -/

def totalVertices (d : TData) : ℕ := d.verticesList.length

/-- Largest per-LOD vertex-set size across all geometries
(source lines 880-885). -/
def maxLodVertices (d : TData) : ℕ :=
  d.geometriesList.foldl
    (fun acc g => g.lodLevels.foldl (fun a l => max a l.indexSet.length) acc) 0

/-- Source lines 889-891: one shared buffer unless submesh splitting is
requested or a 32-bit index would be needed globally but not per LOD. -/
def useOneBuffer (opts : UrhoExportOptions) (d : TData) : Bool :=
  !(opts.splitSubMeshes ||
    (decide (totalVertices d > 65535) && decide (maxLodVertices d ≤ 65535)))

/-! ## The per-geometry / per-LOD export loop (source lines 893-1093) -/

/-- Triangle-index emission of one LOD (source lines 1052-1056): for each
triangle corner, look the source index up in the LOD's local index map. -/
def lodEmit (indexMap : List (ℕ × ℕ)) (tris : List (ℕ × ℕ × ℕ)) : List ℕ :=
  tris.flatMap (fun tri =>
      [(alistLookup indexMap tri.1).getD 0,
       (alistLookup indexMap tri.2.1).getD 0,
       (alistLookup indexMap tri.2.2).getD 0])

/-- Center accumulation of the first LOD (source lines 1057-1060): sum of the
positions referenced by the emitted indices. -/
def lodCenterSum (vertices : List UrhoVertex) (emitted : List ℕ) : List ℚ :=
  emitted.foldl (fun c ix =>
      List.zipWith (· + ·) c ((vertices.getD ix default).pos.getD [0, 0, 0]))
    [0, 0, 0]

/-- State threaded through the geometry loop: the function-scoped Python
variables of `UrhoExport` plus the growing model lists.  The "current" vertex
(index) buffer of the source is the last element of `vbs` (`ibs`); the Python
variable is `None` exactly while the list is empty. -/
structure BufState where
  vbs : List UrhoVertexBuffer
  ibs : List UrhoIndexBuffer
  /-- `uVerticesMap`, reset whenever a new vertex buffer is opened. -/
  vmap : List (Option (List ℚ) × List ℕ)
  lastVertex : Option UrhoVertex
  /-- `modelIndexMap`: old index → set of (buffer index, vertex index). -/
  modelIndexMap : List (ℕ × List (ℕ × ℕ))
  bbox : Option (List ℚ × List ℚ)
  maskErrors : ℕ
  maskErrorIndices : List ℕ
deriving DecidableEq, Inhabited

def initialBufState : BufState :=
  { vbs := [], ibs := [], vmap := [], lastVertex := none, modelIndexMap := [],
    bbox := none, maskErrors := 0, maskErrorIndices := [] }

/-- Processing of one LOD level of one geometry (source lines 914-1088):
open buffers if required, deduplicate the LOD's vertices into the current
buffer, merge the local index map into the model map, emit the triangle
indices, accumulate the geometry center on the first LOD, and run the bone
remap when the skeleton exceeds the skinning limit. -/
def processLod (opts : UrhoExportOptions) (nbones : ℕ) (verts : List TVertex)
    (useOne : Bool) (i : ℕ) (st : BufState) (geom : UrhoGeometry)
    (lod : TLodLevel) : BufState × UrhoGeometry :=
  -- source line 928: new vertex buffer only when none is open yet, or at the
  -- first LOD of a geometry when buffers are split
  let openVB := st.vbs.isEmpty || (decide (i = 0) && !useOne)
  let vbs1 := if openVB then st.vbs ++ [emptyVB] else st.vbs
  let vmap1 := if openVB then [] else st.vmap
  -- source line 934: same policy for the index buffer
  let openIB := st.ibs.isEmpty || (decide (i = 0) && !useOne)
  let ibs1 := if openIB then st.ibs ++ [emptyIB] else st.ibs
  let startIdx := if openIB then 0 else (st.ibs.getLast?.getD emptyIB).indexes.length
  let vbIdx := vbs1.length - 1
  let ibIdx := ibs1.length - 1
  -- source lines 954-1032: the vertex deduplication loop
  let strict := decide (i = 0) || opts.useStrictLods
  let acc0 : DedupAcc :=
    { vb := vbs1.getLast?.getD emptyVB, vmap := vmap1, lastVertex := st.lastVertex,
      indexMap := [], bbox := st.bbox, maskErrors := st.maskErrors,
      maskErrorIndices := st.maskErrorIndices }
  let acc := lod.indexSet.foldl (dedupStep strict verts) acc0
  -- source lines 1038-1049: merge the local map into the model index map
  let mim := acc.indexMap.foldl (fun mm (p : ℕ × ℕ) =>
      alistSet mm p.1 (insertOnce ((alistLookup mm p.1).getD []) (vbIdx, p.2)))
    st.modelIndexMap
  -- source lines 1052-1060: append the triangle indices (batched per LOD; the
  -- source appends one index at a time with the same net effect)
  let emitted := lodEmit acc.indexMap lod.triangleList
  let lastIB := ibs1.getLast?.getD emptyIB
  let ibs2 := ibs1.dropLast ++ [{ lastIB with indexes := lastIB.indexes ++ emitted }]
  -- source lines 1057-1064: geometry center from the first LOD's triangles
  let hasPos := decide ((acc.vb.elementMask.getD 0) &&& ELEMENT_POSITION ≠ 0)
  let centerCount := if decide (i = 0) && hasPos then emitted.length else 0
  let centerSum := if decide (i = 0) && hasPos then
      lodCenterSum acc.vb.vertices emitted
    else [0, 0, 0]
  let center2 := if decide (i = 0) && decide (centerCount ≠ 0) then
      centerSum.map (fun q => q / (centerCount : ℚ))
    else geom.center
  let ulod : UrhoLodLevel :=
    { distance := lod.distance, primitiveType := TRIANGLE_LIST,
      vertexBuffer := vbIdx, indexBuffer := ibIdx,
      startIndex := startIdx, countIndex := 3 * lod.triangleList.length }
  -- source lines 1070-1088: bone remap of the current buffer
  let needRemap := decide (nbones > MAX_SKIN_MATRICES) &&
      decide ((acc.vb.elementMask.getD 0) &&& ELEMENT_BLEND = ELEMENT_BLEND)
  let rp := if needRemap then boneRemapPass geom.boneMap acc.vb.vertices
      else (geom.boneMap, acc.vb.vertices)
  let vbFinal := { acc.vb with vertices := rp.2 }
  let st2 : BufState :=
    { vbs := vbs1.dropLast ++ [vbFinal], ibs := ibs2, vmap := acc.vmap,
      lastVertex := acc.lastVertex, modelIndexMap := mim, bbox := acc.bbox,
      maskErrors := acc.maskErrors, maskErrorIndices := acc.maskErrorIndices }
  (st2, { boneMap := rp.1, lodLevels := geom.lodLevels ++ [ulod], center := center2 })

/-- The LOD loop of one geometry (source lines 904-1088), starting from a
fresh `UrhoGeometry` with center `Vector((0,0,0))`. -/
def processGeometry (opts : UrhoExportOptions) (nbones : ℕ) (verts : List TVertex)
    (useOne : Bool) (st : BufState) (g : TGeometry) : BufState × UrhoGeometry :=
  let r := g.lodLevels.foldl
    (fun (p : (BufState × UrhoGeometry) × ℕ) lod =>
      (processLod opts nbones verts useOne p.2 p.1.1 p.1.2 lod, p.2 + 1))
    ((st, { boneMap := [], lodLevels := [], center := [0, 0, 0] }), 0)
  r.1

/-- Index-size pass (source lines 1095-1102): 32-bit indices when the buffer
holds more than 65535 indices, 16-bit otherwise. -/
def setIndexSize (ib : UrhoIndexBuffer) : UrhoIndexBuffer :=
  if ib.indexes.length > 65535 then { ib with indexSize := 4 }
  else { ib with indexSize := 2 }

/-- Morph-range defaulting (source lines 1181-1184): buffers never touched by
a morph get the range `[0, 0]`.  (The morph diff engine itself is outside the
claims; with no morphs in the input every buffer takes this default.) -/
def setMorphDefault (vb : UrhoVertexBuffer) : UrhoVertexBuffer :=
  if vb.morphMinIndex.isNone then
    { vb with morphMinIndex := some 0, morphMaxIndex := some 0 }
  else vb

/-- Result of the model-building part of `UrhoExport`, with the mask-error
instrumentation exposed (the source aggregates the errors into
`errorsDict["incompatible element mask"]`). -/
structure ExportResult where
  model : UrhoModel
  maskErrors : ℕ
  maskErrorIndices : List ℕ
deriving DecidableEq, Inhabited

/-- The model-building part of `UrhoExport` (source lines 836-1184): the
buffer-splitting decision, the geometry loop, the default bounding box for
position-less models, the index-size pass and the morph-range defaulting. -/
def urhoExport (opts : UrhoExportOptions) (d : TData) : ExportResult :=
  let useOne := useOneBuffer opts d
  let r := d.geometriesList.foldl
    (fun (p : BufState × List UrhoGeometry) g =>
      let q := processGeometry opts d.bonesCount d.verticesList useOne p.1 g
      (q.1, p.2 ++ [q.2]))
    (initialBufState, [])
  let bboxFinal := if !d.geometriesList.isEmpty && r.1.bbox.isNone then
      some ([0, 0, 0], [0, 0, 0])
    else r.1.bbox
  { model :=
      { name := d.objectName
        vertexBuffers := r.1.vbs.map setMorphDefault
        indexBuffers := r.1.ibs.map setIndexSize
        geometries := r.2
        boundingBox := bboxFinal }
    maskErrors := r.1.maskErrors
    maskErrorIndices := r.1.maskErrorIndices }

/-! ## Morph range serialization (source lines 528-534 and 1171-1184) -/

/-- Morph min/max update for a morph touching vertex `i` of a buffer
(source lines 1172-1178). -/
def updateMorphRange : Option (ℕ × ℕ) → ℕ → Option (ℕ × ℕ)
  | none, i => some (i, i)
  | some (mn, mx), i =>
    if i < mn then some (i, mx)
    else if i > mx then some (mn, i)
    else some (mn, mx)

/-- Defaulting of untouched buffers (source lines 1181-1184). -/
def finalizeMorphRange : Option (ℕ × ℕ) → ℕ × ℕ
  | none => (0, 0)
  | some r => r

/-- The morph-range count field the binary writer emits for a vertex buffer
(source lines 531-534): 0 when `morphMaxIndex` is 0, else `max - min + 1`. -/
def morphRangeCount (mn mx : ℕ) : ℕ :=
  if mx ≠ 0 then mx - mn + 1 else 0

/-! ## Animation consolidation (source lines 339-381 and 1187-1218) -/

structure TKeyframe where
  time : ℚ
  position : Option (List ℚ)
  rotation : Option (List ℚ)
  scale : Option (List ℚ)
deriving DecidableEq, Inhabited

structure TTrack where
  name : String
  frames : List TKeyframe
deriving DecidableEq, Inhabited

structure TAnimation where
  name : String
  tracks : List TTrack
deriving DecidableEq, Inhabited

structure UrhoKeyframe where
  time : ℚ
  position : Option (List ℚ)
  rotation : Option (List ℚ)
  scale : Option (List ℚ)
deriving DecidableEq, Inhabited

structure UrhoTrack where
  name : String
  mask : Option ℕ
  keyframes : List UrhoKeyframe
deriving DecidableEq, Inhabited

structure UrhoAnimation where
  name : String
  length : Option ℚ
  tracks : List UrhoTrack
deriving DecidableEq, Inhabited

/-- Track element mask of a source keyframe (source lines 344-356). -/
def kfMask (t : TKeyframe) : ℕ :=
  (if t.position.isSome then TRACK_POSITION else 0) |||
  (if t.rotation.isSome then TRACK_ROTATION else 0) |||
  (if t.scale.isSome then TRACK_SCALE else 0)

def mkKeyframe (t : TKeyframe) : UrhoKeyframe :=
  { time := t.time, position := t.position, rotation := t.rotation, scale := t.scale }

/-- The failure mode of the keyframe loop.  `UrhoKeyframe.__init__` (source
lines 357-363) intends to narrow the track mask and raise `MaskError` on a
mismatch, but its line 361 reads `uTrack.elementMask`, an attribute `UrhoTrack`
does not have, so Python raises `AttributeError` there — before the mask is
narrowed — and the `except MaskError` handler at line 1201 does not catch it. -/
inductive AnimFailure where
  | attributeError
deriving DecidableEq, Inhabited

/-- The keyframe loop of one track (source lines 1198-1206): convert each
frame, then sort by time.  A keyframe whose channel mask differs from the
track's established mask aborts the whole export with `AttributeError`
(see `AnimFailure`). -/
def processFrames : Option ℕ → List UrhoKeyframe → List TKeyframe →
    Except AnimFailure (Option ℕ × List UrhoKeyframe)
  | m, acc, [] => Except.ok (m, acc)
  | m, acc, f :: fs =>
    match m with
    | none => processFrames (some (kfMask f)) (acc ++ [mkKeyframe f]) fs
    | some cur =>
      if cur = kfMask f then processFrames (some cur) (acc ++ [mkKeyframe f]) fs
      else Except.error AnimFailure.attributeError

/-- One track (source lines 1193-1206): convert the frames and sort its
keyframes ascending by time (Python's stable `list.sort`). -/
def processTrack (t : TTrack) : Except AnimFailure UrhoTrack := do
  let r ← processFrames none [] t.frames
  pure { name := t.name, mask := r.1,
         keyframes := sortBy (fun a b => decide (a.time ≤ b.time)) r.2 }

/-- Truthiness of `uTrack.mask` (source line 1209): `None` and `0` are falsy. -/
def maskTruthy : Option ℕ → Bool
  | none => false
  | some m => decide (m ≠ 0)

/-- One track of one animation inside the track loop (source lines
1193-1214): keep the track only if it has keyframes and a truthy mask, and
update the running animation length with its final keyframe time. -/
def animTrackStep (acc : List UrhoTrack × Option ℚ) (tt : TTrack) :
    Except AnimFailure (List UrhoTrack × Option ℚ) := do
  let tr ← processTrack tt
  if !tr.keyframes.isEmpty && maskTruthy tr.mask then
    pure (acc.1 ++ [tr],
      match acc.2 with
      | none => some ((tr.keyframes.getLast?.map (fun k => k.time)).getD 0)
      | some l =>
        if l < (tr.keyframes.getLast?.map (fun k => k.time)).getD 0 then
          some ((tr.keyframes.getLast?.map (fun k => k.time)).getD 0)
        else some l)
  else
    pure acc

/-- One animation (source lines 1188-1218): keep only tracks with keyframes
and a truthy mask, track the running maximum of the final keyframe times as
the length, and drop the animation if no track survives (`none`). -/
def processAnimation (a : TAnimation) : Except AnimFailure (Option UrhoAnimation) := do
  let r ← a.tracks.foldlM animTrackStep ([], none)
  if r.1.isEmpty then pure none
  else pure (some { name := a.name, length := r.2, tracks := r.1 })

/-- Collection step of the animation loop (source lines 1216-1218). -/
def animCollectStep (acc : List UrhoAnimation) (a : TAnimation) :
    Except AnimFailure (List UrhoAnimation) := do
  let r ← processAnimation a
  match r with
  | none => pure acc
  | some anim => pure (acc ++ [anim])

/-- The animation loop (source lines 1187-1218): animations with zero
surviving tracks are not appended to `uExportData.animations`. -/
def processAnimations (l : List TAnimation) : Except AnimFailure (List UrhoAnimation) :=
  l.foldlM animCollectStep []

/-! ## Named projections of the per-LOD step (definitionally equal to the
corresponding pieces of `processLod`; used only to state lemmas) -/

/-- The vertex the dedup step works with: the freshly constructed vertex, or —
after a `MaskError` — the stale previous binding. -/
def dedupUV (verts : List TVertex) (acc : DedupAcc) (tIdx : ℕ) : UrhoVertex :=
  if (updateBufferMask acc.vb.elementMask (tVertexMask (verts.getD tIdx default))).2 then
    acc.lastVertex.getD (mkUrhoVertex (verts.getD tIdx default))
  else mkUrhoVertex (verts.getD tIdx default)

/-- The model vertex-buffer list after the open-buffer decision of a LOD. -/
def lodVbs1 (useOne : Bool) (i : ℕ) (st : BufState) : List UrhoVertexBuffer :=
  if st.vbs.isEmpty || (decide (i = 0) && !useOne) then st.vbs ++ [emptyVB] else st.vbs

/-- The model index-buffer list after the open-buffer decision of a LOD. -/
def lodIbs1 (useOne : Bool) (i : ℕ) (st : BufState) : List UrhoIndexBuffer :=
  if st.ibs.isEmpty || (decide (i = 0) && !useOne) then st.ibs ++ [emptyIB] else st.ibs

/-- The dedup accumulator a LOD's vertex loop ends with. -/
def lodAcc (opts : UrhoExportOptions) (verts : List TVertex) (useOne : Bool) (i : ℕ)
    (st : BufState) (lod : TLodLevel) : DedupAcc :=
  lod.indexSet.foldl (dedupStep (decide (i = 0) || opts.useStrictLods) verts)
    { vb := (lodVbs1 useOne i st).getLast?.getD emptyVB
      vmap := if st.vbs.isEmpty || (decide (i = 0) && !useOne) then [] else st.vmap
      lastVertex := st.lastVertex
      indexMap := []
      bbox := st.bbox
      maskErrors := st.maskErrors
      maskErrorIndices := st.maskErrorIndices }

/-- The vertex buffer a LOD leaves behind (after the optional bone remap). -/
def lodFinalVB (opts : UrhoExportOptions) (nbones : ℕ) (verts : List TVertex)
    (useOne : Bool) (i : ℕ) (st : BufState) (geom : UrhoGeometry) (lod : TLodLevel) :
    UrhoVertexBuffer :=
  { (lodAcc opts verts useOne i st lod).vb with
    vertices :=
      (if decide (nbones > MAX_SKIN_MATRICES) &&
          decide (((lodAcc opts verts useOne i st lod).vb.elementMask.getD 0) &&&
            ELEMENT_BLEND = ELEMENT_BLEND) then
        boneRemapPass geom.boneMap (lodAcc opts verts useOne i st lod).vb.vertices
      else (geom.boneMap, (lodAcc opts verts useOne i st lod).vb.vertices)).2 }

/-- The candidate the dedup step finds for its vertex (strict or relaxed
search over the position bucket). -/
def dedupFound (strict : Bool) (verts : List TVertex) (acc : DedupAcc) (tIdx : ℕ) :
    Option ℕ :=
  if strict then
    findStrictMatch acc.vb.vertices
      ((alistLookup acc.vmap (dedupUV verts acc tIdx).pos).getD [])
      (dedupUV verts acc tIdx)
  else
    findLodMatch acc.vb.vertices
      ((alistLookup acc.vmap (dedupUV verts acc tIdx).pos).getD [])
      (dedupUV verts acc tIdx)

/-- The geometry center a LOD leaves behind (source lines 1057-1064): on the
first LOD with a position channel and at least one emitted corner, the
accumulated corner sum divided by the corner count; otherwise the incoming
center. -/
def lodCenter (opts : UrhoExportOptions) (verts : List TVertex) (useOne : Bool)
    (i : ℕ) (st : BufState) (geom : UrhoGeometry) (lod : TLodLevel) : List ℚ :=
  if decide (i = 0) && decide ((if decide (i = 0) &&
      decide (((lodAcc opts verts useOne i st lod).vb.elementMask.getD 0) &&&
        ELEMENT_POSITION ≠ 0) then
      (lodEmit (lodAcc opts verts useOne i st lod).indexMap lod.triangleList).length
    else 0) ≠ 0) then
    (if decide (i = 0) &&
        decide (((lodAcc opts verts useOne i st lod).vb.elementMask.getD 0) &&&
          ELEMENT_POSITION ≠ 0) then
        lodCenterSum (lodAcc opts verts useOne i st lod).vb.vertices
          (lodEmit (lodAcc opts verts useOne i st lod).indexMap lod.triangleList)
      else [0, 0, 0]).map
      (fun q => q / (((if decide (i = 0) &&
        decide (((lodAcc opts verts useOne i st lod).vb.elementMask.getD 0) &&&
          ELEMENT_POSITION ≠ 0) then
        (lodEmit (lodAcc opts verts useOne i st lod).indexMap lod.triangleList).length
      else 0) : ℕ) : ℚ))
  else geom.center

/-! ## Spec-side formulations (used to state the claims, never by the
embedding itself) -/

/-- One step of first-use-order collection: record an unseen bone index while
there is room for it. -/
def fuStep (acc : List ℕ) (x : ℕ) : List ℕ :=
  if x ∈ acc ∨ MAX_SKIN_MATRICES ≤ acc.length then acc else acc ++ [x]

/-- First-use-order collection of a stream of bone indices, capped at
`MAX_SKIN_MATRICES` entries: the spec's description of the local bone map. -/
def firstUse64 (seen : List ℕ) (stream : List ℕ) : List ℕ :=
  stream.foldl fuStep seen

/-- The time of a track's final keyframe, if any. -/
def lastTime (tr : UrhoTrack) : Option ℚ :=
  tr.keyframes.getLast?.map (fun k => k.time)

/-- The C7 per-track property: a surviving track has keyframes, a truthy mask
and time-sorted keyframes. -/
def TrackGood (tr : UrhoTrack) : Prop :=
  tr.keyframes ≠ [] ∧ maskTruthy tr.mask = true ∧
  tr.keyframes.Pairwise (fun a b => a.time ≤ b.time)

/-- Invariant of the `processAnimation` track fold: all collected tracks are
good, the running length is the maximum of their final keyframe times, and it
is `none` only while nothing was collected. -/
def AnimAccInv (acc : List UrhoTrack × Option ℚ) : Prop :=
  (∀ tr ∈ acc.1, TrackGood tr) ∧
  (acc.2 = none → acc.1 = []) ∧
  (∀ L, acc.2 = some L → (∃ tr ∈ acc.1, lastTime tr = some L) ∧
    ∀ tr ∈ acc.1, ∀ tl, lastTime tr = some tl → tl ≤ L)

/-- The C7 per-animation property: the animation kept at least one track, all
its tracks are good, and its length is the maximum final keyframe time. -/
def GoodAnim (anim : UrhoAnimation) : Prop :=
  anim.tracks ≠ [] ∧ (∀ tr ∈ anim.tracks, TrackGood tr) ∧
  (∃ L, anim.length = some L ∧ (∃ tr ∈ anim.tracks, lastTime tr = some L) ∧
    ∀ tr ∈ anim.tracks, ∀ tl, lastTime tr = some tl → tl ≤ L)

/-- The expected output of the C7 scenario: keyframes reordered to
[0, 0.5, 1.2], animation length 1.2, mask = position only. -/
def c7Expected : UrhoAnimation :=
  { name := "anim", length := some (6/5),
    tracks := [{ name := "bone", mask := some TRACK_POSITION,
                 keyframes := [⟨0, some [1, 2, 3], none, none⟩,
                               ⟨1/2, some [1, 2, 3], none, none⟩,
                               ⟨6/5, some [1, 2, 3], none, none⟩] }] }

/-- The stream of global bone indices of a buffer's vertices, in traversal
order. -/
def boneStream (vs : List UrhoVertex) : List ℕ :=
  vs.flatMap (fun v => v.weights.map (fun p => p.1))

/-- Component-wise average of a list of 3-component points. -/
def vecAverage (ps : List (List ℚ)) : List ℚ :=
  (ps.foldl (fun c p => List.zipWith (· + ·) c p) [0, 0, 0]).map
    (fun q => q / (ps.length : ℚ))

/-- The C3 invariant: every vertex stored in a buffer carries exactly the
buffer's element mask (and a buffer with no mask yet holds no vertex). -/
def MaskInv (vb : UrhoVertexBuffer) : Prop :=
  (vb.elementMask = none → vb.vertices = []) ∧
  ∀ v ∈ vb.vertices, vb.elementMask = some (uVertexMask v)

/-- All buffers of a state satisfy the C3 invariant. -/
def StMaskInv (st : BufState) : Prop :=
  ∀ vb ∈ st.vbs, MaskInv vb

/-- The triangle-corner index stream of a triangle list, in emission order
(source lines 1053-1054). -/
def cornersOf (tris : List (ℕ × ℕ × ℕ)) : List ℕ :=
  tris.flatMap (fun t => [t.1, t.2.1, t.2.2])

/-- The position stored at index `ix` of a vertex buffer (the value the
center accumulation reads at source line 1060). -/
def posAt (vb : UrhoVertexBuffer) (ix : ℕ) : List ℚ :=
  (vb.vertices.getD ix default).pos.getD [0, 0, 0]

/-- The index-buffer slice a LOD level owns: `countIndex` indices starting at
`startIndex` of buffer `indexBuffer`. -/
def sliceOf (st : BufState) (l0 : UrhoLodLevel) : List ℕ :=
  ((st.ibs.getD l0.indexBuffer emptyIB).indexes.drop l0.startIndex).take l0.countIndex

/-- How a vertex buffer can evolve during the export: vertices are only
appended (stored positions never change), a set element mask stays set and
only loses bits. -/
def VbExt (vb vb' : UrhoVertexBuffer) : Prop :=
  vb.vertices.length ≤ vb'.vertices.length ∧
  (∀ ix, ix < vb.vertices.length →
    (vb'.vertices.getD ix default).pos = (vb.vertices.getD ix default).pos) ∧
  (vb.elementMask ≠ none → vb'.elementMask ≠ none) ∧
  (vb.elementMask ≠ none →
    ∀ b, vb'.elementMask.getD 0 &&& b ≠ 0 → vb.elementMask.getD 0 &&& b ≠ 0)

/-- How the buffer state evolves during the export: buffer lists only grow,
existing vertex buffers evolve by `VbExt`, existing index buffers only get
indices appended. -/
def StExt (st st' : BufState) : Prop :=
  st.vbs.length ≤ st'.vbs.length ∧
  (∀ k, k < st.vbs.length → VbExt (st.vbs.getD k emptyVB) (st'.vbs.getD k emptyVB)) ∧
  st.ibs.length ≤ st'.ibs.length ∧
  (∀ k, k < st.ibs.length →
    (st.ibs.getD k emptyIB).indexes <+: (st'.ibs.getD k emptyIB).indexes)

/-- The C9 property of one exported geometry against a buffer state: its first
LOD's buffer references are in range, its index slice is in range and hits
stored vertices, and — when the slice is non-empty and the buffer has a
position channel — its center is the average, with multiplicity, of the
positions its slice references. -/
def GeomCenterOK (st : BufState) (geom : UrhoGeometry) : Prop :=
  ∀ l0, geom.lodLevels.head? = some l0 →
    l0.vertexBuffer < st.vbs.length ∧
    l0.indexBuffer < st.ibs.length ∧
    l0.startIndex + l0.countIndex ≤ (st.ibs.getD l0.indexBuffer emptyIB).indexes.length ∧
    (∀ ix ∈ sliceOf st l0, ix < (st.vbs.getD l0.vertexBuffer emptyVB).vertices.length) ∧
    (l0.countIndex ≠ 0 →
      (st.vbs.getD l0.vertexBuffer emptyVB).elementMask ≠ none ∧
      ((st.vbs.getD l0.vertexBuffer emptyVB).elementMask.getD 0 &&& ELEMENT_POSITION ≠ 0 →
        geom.center = vecAverage ((sliceOf st l0).map
          (posAt (st.vbs.getD l0.vertexBuffer emptyVB)))))

/-- In-bounds invariant of the dedup accumulator: index-map values and bucket
entries name stored vertices of the current buffer. -/
def DedupInv (acc : DedupAcc) : Prop :=
  (∀ p ∈ acc.indexMap, p.2 < acc.vb.vertices.length) ∧
  (∀ p ∈ acc.vmap, ∀ j ∈ p.2, j < acc.vb.vertices.length)

/-- In-bounds invariant of the buffer state: the carried bucket map names
stored vertices of the current (last) vertex buffer. -/
def StVmapInv (st : BufState) : Prop :=
  ∀ p ∈ st.vmap, ∀ j ∈ p.2, j < (st.vbs.getLast?.getD emptyVB).vertices.length

/-- The C2 per-geometry property in the split case: every LOD of the geometry
references buffer `k`, and its first LOD starts at index 0 of the fresh index
buffer. -/
def GeomRefs (k : ℕ) (g : UrhoGeometry) : Prop :=
  (∀ l ∈ g.lodLevels, l.vertexBuffer = k ∧ l.indexBuffer = k) ∧
  (∀ l0, g.lodLevels.head? = some l0 → l0.startIndex = 0)

/-- Invariant of the relaxed-matching fold (source lines 991-996): the running
best is an already-seen candidate with finite error, minimal among everything
seen. -/
def LodBestInv (errOf : ℕ → Option ℚ) (processed : List ℕ)
    (best : Option ℚ × Option ℕ) : Prop :=
  (∀ j, best.2 = some j → j ∈ processed ∧ best.1 = errOf j ∧ errOf j ≠ none) ∧
  (best.2 = none → best.1 = none) ∧
  (∀ j ∈ processed, optLeErr best.1 (errOf j) = true)

/-! ## Concrete sample inputs for witnesses and counterexamples -/

/-- A source vertex carrying only a position. -/
def posVertex (p : List ℚ) : TVertex :=
  { pos := some p, normal := none, color := none, uv := none, uv2 := none,
    tangent := none, weights := none, blenderIndex := none }

/-- A source vertex carrying position, normal and UV. -/
def pnuVertex (p n u : List ℚ) : TVertex :=
  { pos := some p, normal := some n, color := none, uv := some u, uv2 := none,
    tangent := none, weights := none, blenderIndex := none }

def optsDefault : UrhoExportOptions := { splitSubMeshes := false, useStrictLods := true }

def optsSplit : UrhoExportOptions := { splitSubMeshes := true, useStrictLods := true }

/-- The accumulator state after deduplicating the single LOD of a
single-geometry model (LOD index 0 is always matched strictly). -/
def singleAcc (d : TData) (lod : TLodLevel) : DedupAcc :=
  lod.indexSet.foldl (dedupStep true d.verticesList)
    { vb := emptyVB, vmap := [], lastVertex := none, indexMap := [], bbox := none,
      maskErrors := 0, maskErrorIndices := [] }

/-- The emitted index list of that single LOD. -/
def singleEmit (d : TData) (lod : TLodLevel) : List ℕ :=
  lodEmit (singleAcc d lod).indexMap lod.triangleList

/-- The geometry center produced for that single LOD. -/
def singleCenter (d : TData) (lod : TLodLevel) : List ℚ :=
  if decide ((singleAcc d lod).vb.elementMask.getD 0 &&& ELEMENT_POSITION ≠ 0) &&
      decide ((singleEmit d lod).length ≠ 0) then
    (lodCenterSum (singleAcc d lod).vb.vertices (singleEmit d lod)).map
      (fun q => q / (((singleEmit d lod).length : ℕ) : ℚ))
  else [0, 0, 0]

/-- The LOD of the C9 counterexample: two triangles sharing the edge (0,1). -/
def c9Lod : TLodLevel := ⟨0, [0, 1, 2, 3], [(0, 1, 2), (0, 1, 3)]⟩

/-- One geometry, one LOD, four position-only vertices, two triangles sharing
the edge (0,1): the input of the C9 counterexample. -/
def c9Data : TData :=
  { objectName := "c9"
    verticesList := [posVertex [0, 0, 0], posVertex [6, 0, 0],
                     posVertex [0, 6, 0], posVertex [0, 0, 6]]
    geometriesList := [⟨[c9Lod]⟩]
    bonesCount := 0 }

/-- The LOD of the C4 counterexample: 21846 (degenerate but well-formed)
triangles over three vertices, hence 65538 emitted indices. -/
def c4Lod : TLodLevel := ⟨0, [0, 1, 2], List.replicate 21846 (0, 1, 2)⟩

/-- One geometry, one LOD, three distinct vertices, more than 65535 triangle
corners: the input of the C4 counterexample. -/
def c4Data : TData :=
  { objectName := "c4"
    verticesList := [posVertex [0, 0, 0], posVertex [1, 0, 0], posVertex [0, 1, 0]]
    geometriesList := [⟨[c4Lod]⟩]
    bonesCount := 0 }

/-- Two single-LOD geometries over four vertices: witness input for C2. -/
def c2Data : TData :=
  { objectName := "c2"
    verticesList := [posVertex [0, 0, 0], posVertex [1, 0, 0],
                     posVertex [0, 1, 0], posVertex [0, 0, 1]]
    geometriesList := [⟨[⟨0, [0, 1, 2], [(0, 1, 2)]⟩]⟩, ⟨[⟨0, [1, 2, 3], [(1, 2, 3)]⟩]⟩]
    bonesCount := 0 }

/-- A source vertex with six weighted bone influences: witness input for C5. -/
def c5SixWeights : List (ℕ × ℚ) :=
  [(1, 1/10), (2, 3/10), (3, 1/5), (4, 1/10), (5, 1/4), (6, 1/20)]

def c5Vertex : TVertex :=
  { pos := none, normal := none, color := none, uv := none, uv2 := none,
    tangent := none, weights := some c5SixWeights, blenderIndex := none }

/-- A blend-enabled source vertex whose only influence has weight 0: the C5
counterexample input (`totalWeight` is 0, so nothing can be normalized). -/
def c5ZeroVertex : TVertex :=
  { pos := none, normal := none, color := none, uv := none, uv2 := none,
    tangent := none, weights := some [(0, 0)], blenderIndex := none }

/-- A blend-weighted vertex for the C6 witness. -/
def c6Vertex (ws : List (ℕ × ℚ)) : UrhoVertex :=
  { index := none, pos := some [0, 0, 0], normal := none, color := none,
    uv := none, uv2 := none, tangent := none, weights := ws }

/-- A keyframe with only a position channel, at time `t`. -/
def posKeyframe (t : ℚ) : TKeyframe :=
  { time := t, position := some [1, 2, 3], rotation := none, scale := none }

/-- The C7 scenario: one animation, one track, keyframes at 0.5, 0.0, 1.2. -/
def c7Input : List TAnimation :=
  [{ name := "anim", tracks := [{ name := "bone", frames := [posKeyframe (1/2), posKeyframe 0, posKeyframe (6/5)] }] }]

/-- The C8 failing input: a track whose first keyframe has only a position and
whose second has only a rotation, so the second keyframe's mask differs from
the track's established mask. -/
def c8Track : TTrack :=
  { name := "bone"
    frames := [{ time := 0, position := some [1, 2, 3], rotation := none, scale := none },
               { time := 1, position := none, rotation := some [1, 0, 0, 0], scale := none }] }

/-- Candidate vertices for the C1 witness: `c1Cand0` matches `c1New` in
position with a close normal, `c1Cand1` differs in position, `c1CandFar` has a
normal more than 30° away. -/
def c1Cand0 : UrhoVertex := mkUrhoVertex (pnuVertex [0, 0, 0] [1, 0, 0] [0, 0])
def c1Cand1 : UrhoVertex := mkUrhoVertex (pnuVertex [5, 5, 5] [1, 0, 0] [0, 0])
def c1CandFar : UrhoVertex := mkUrhoVertex (pnuVertex [0, 0, 0] [0, 1, 0] [0, 0])
def c1New : UrhoVertex := mkUrhoVertex (pnuVertex [0, 0, 0] [9/10, 0, 0] [1/4, 0])

/-- The new-vertex source list for the C1 append witness. -/
def c1Verts : List TVertex := [pnuVertex [0, 0, 0] [9/10, 0, 0] [1/4, 0]]

/-- A dedup accumulator whose buffer holds only `c1CandFar` (same element
mask as `c1New`'s source, so no mask error), with its position bucket mapped:
every bucket candidate has infinite LOD error against `c1New`. -/
def c1Acc : DedupAcc :=
  { vb := { elementMask := some (ELEMENT_POSITION ||| ELEMENT_NORMAL ||| ELEMENT_UV1),
            morphMinIndex := none, morphMaxIndex := none, vertices := [c1CandFar] }
    vmap := [(some [0, 0, 0], [0])]
    lastVertex := some c1CandFar
    indexMap := []
    bbox := none
    maskErrors := 0
    maskErrorIndices := [] }

/-! ## General lemmas -/

theorem setIndexSize_indexes (ib : UrhoIndexBuffer) :
    (setIndexSize ib).indexes = ib.indexes := by
  unfold setIndexSize
  split <;> rfl

theorem setIndexSize_size (ib : UrhoIndexBuffer) :
    (setIndexSize ib).indexSize = if ib.indexes.length > 65535 then 4 else 2 := by
  unfold setIndexSize
  split <;> simp_all

theorem setMorphDefault_vertices (vb : UrhoVertexBuffer) :
    (setMorphDefault vb).vertices = vb.vertices := by
  unfold setMorphDefault
  split <;> rfl

theorem setMorphDefault_mask (vb : UrhoVertexBuffer) :
    (setMorphDefault vb).elementMask = vb.elementMask := by
  unfold setMorphDefault
  split <;> rfl

theorem lodEmit_length (m : List (ℕ × ℕ)) (tris : List (ℕ × ℕ × ℕ)) :
    (lodEmit m tris).length = 3 * tris.length := by
  induction tris with
  | nil => rfl
  | cons t ts ih =>
    rw [lodEmit, List.flatMap_cons, List.length_append]
    rw [lodEmit] at ih
    rw [ih]
    simp only [List.length_cons, List.length_nil]
    omega


theorem processLod_single (opts : UrhoExportOptions) (d : TData) (lod : TLodLevel)
    (hb : ¬ d.bonesCount > MAX_SKIN_MATRICES) :
    processLod opts d.bonesCount d.verticesList (useOneBuffer opts d) 0
      initialBufState { boneMap := [], lodLevels := [], center := [0, 0, 0] } lod =
    ({ vbs := [(singleAcc d lod).vb],
       ibs := [{ indexSize := 0, indexes := singleEmit d lod }],
       vmap := (singleAcc d lod).vmap,
       lastVertex := (singleAcc d lod).lastVertex,
       modelIndexMap := (singleAcc d lod).indexMap.foldl (fun mm p =>
         alistSet mm p.1 (insertOnce ((alistLookup mm p.1).getD []) (0, p.2))) [],
       bbox := (singleAcc d lod).bbox,
       maskErrors := (singleAcc d lod).maskErrors,
       maskErrorIndices := (singleAcc d lod).maskErrorIndices },
     { boneMap := [],
       lodLevels := [{ distance := lod.distance, primitiveType := TRIANGLE_LIST,
                       vertexBuffer := 0, indexBuffer := 0, startIndex := 0,
                       countIndex := 3 * lod.triangleList.length }],
       center := singleCenter d lod }) := by
  have hb2 : decide (d.bonesCount > MAX_SKIN_MATRICES) = false := by simpa using hb
  have hacc : List.foldl (dedupStep true d.verticesList)
      { vb := emptyVB, vmap := [], lastVertex := none, indexMap := [], bbox := none,
        maskErrors := 0, maskErrorIndices := [] } lod.indexSet = singleAcc d lod := rfl
  unfold processLod
  simp only [initialBufState, List.isEmpty_nil, Bool.true_or, if_true,
    List.getLast?_singleton, Option.getD_some, List.dropLast_single,
    List.nil_append, hb2, Bool.false_and, Bool.false_eq_true, if_false,
    decide_True, decide_eq_true_eq, Bool.true_and, emptyIB,
    List.length_singleton, Nat.sub_self, hacc, singleEmit]
  simp only [singleCenter, singleEmit]
  by_cases hp : (singleAcc d lod).vb.elementMask.getD 0 &&& ELEMENT_POSITION ≠ 0 <;>
    by_cases he : (lodEmit (singleAcc d lod).indexMap lod.triangleList).length = 0 <;>
      simp [hp, he]



theorem export_single (opts : UrhoExportOptions) (d : TData) (g : TGeometry)
    (lod : TLodLevel) (hg : d.geometriesList = [g]) (hl : g.lodLevels = [lod])
    (hb : ¬ d.bonesCount > MAX_SKIN_MATRICES) :
    (urhoExport opts d).model.vertexBuffers = [setMorphDefault (singleAcc d lod).vb] ∧
    (urhoExport opts d).model.indexBuffers =
      [setIndexSize { indexSize := 0, indexes := singleEmit d lod }] ∧
    (urhoExport opts d).model.geometries =
      [{ boneMap := [],
         lodLevels := [{ distance := lod.distance, primitiveType := TRIANGLE_LIST,
                         vertexBuffer := 0, indexBuffer := 0, startIndex := 0,
                         countIndex := 3 * lod.triangleList.length }],
         center := singleCenter d lod }] := by
  unfold urhoExport
  rw [hg]
  simp only [List.foldl_cons, List.foldl_nil]
  unfold processGeometry
  rw [hl]
  simp only [List.foldl_cons, List.foldl_nil]
  rw [processLod_single opts d lod hb]
  simp

theorem sum_map_snd_div (l : List (ℕ × ℚ)) (T : ℚ) :
    (l.map (fun t => t.2 / T)).sum = (l.map (fun t => t.2)).sum / T := by
  induction l with
  | nil => simp
  | cons a l ih => simp [ih, add_div]

theorem mkWeights_eq (ws : List (ℕ × ℚ))
    (hT : (((sortBy (fun a b => decide (b.2 ≤ a.2)) ws).take 4).map (fun t => t.2)).sum ≠ 0) :
    mkWeights ws =
      ((sortBy (fun a b => decide (b.2 ≤ a.2)) ws).take 4).map
        (fun t => (t.1,
          t.2 / (((sortBy (fun a b => decide (b.2 ≤ a.2)) ws).take 4).map (fun q => q.2)).sum)) ++
      List.replicate (4 - (sortBy (fun a b => decide (b.2 ≤ a.2)) ws).length)
        ((0 : ℕ), (0 : ℚ)) := by
  unfold mkWeights
  have hr4 : List.range 4 = [0, 1, 2, 3] := by decide
  rw [hr4]
  generalize hs : sortBy (fun a b => decide (b.2 ≤ a.2)) ws = s at hT ⊢
  rcases s with _ | ⟨a, _ | ⟨b, _ | ⟨c, _ | ⟨e, rest⟩⟩⟩⟩
  · simp at hT
  · simp only [List.map_cons, List.map_nil, List.take, List.length_cons, List.length_nil]
    simp at hT
    norm_num [hT]
    decide
  · simp only [List.map_cons, List.map_nil, List.take, List.length_cons, List.length_nil]
    simp at hT
    norm_num [hT]
    decide
  · simp only [List.map_cons, List.map_nil, List.take, List.length_cons, List.length_nil]
    simp at hT
    norm_num [hT]
  · simp only [List.map_cons, List.map_nil, List.take, List.length_cons, List.length_nil]
    simp at hT
    have h0 : 0 < rest.length + 1 + 1 + 1 + 1 := by omega
    have h1 : 1 < rest.length + 1 + 1 + 1 + 1 := by omega
    have h2 : 2 < rest.length + 1 + 1 + 1 + 1 := by omega
    have h3 : 3 < rest.length + 1 + 1 + 1 + 1 := by omega
    norm_num [hT, h0, h1, h2, h3]

theorem findIdx?_beq_none_iff (l : List ℕ) (a : ℕ) :
    (l.findIdx? (fun b => decide (b = a))) = none ↔ a ∉ l := by
  rw [List.findIdx?_eq_none_iff]
  simp only [decide_eq_false_iff_not]
  exact ⟨fun h hx => h a hx rfl, fun h x hx he => h (he ▸ hx)⟩

theorem remapPair_fst (bm : List ℕ) (p : ℕ × ℚ) :
    (remapPair bm p).1 = fuStep bm p.1 := by
  unfold remapPair fuStep
  cases hf : bm.findIdx? (fun b => decide (b = p.1)) with
  | some j =>
    have hmem : p.1 ∈ bm := by
      by_contra hn
      rw [← findIdx?_beq_none_iff bm p.1] at hn
      rw [hf] at hn
      exact Option.noConfusion hn
    simp [hmem]
  | none =>
    have hnm : p.1 ∉ bm := (findIdx?_beq_none_iff bm p.1).mp hf
    by_cases hlen : bm.length < MAX_SKIN_MATRICES
    · have : ¬ (p.1 ∈ bm ∨ MAX_SKIN_MATRICES ≤ bm.length) := by
        push_neg
        exact ⟨hnm, hlen⟩
      simp [hlen, this]
    · have : p.1 ∈ bm ∨ MAX_SKIN_MATRICES ≤ bm.length := Or.inr (by omega)
      simp [hlen, this]

theorem foldl_pair_fst {α β γ : Type} (f : γ → α → γ) (g : γ → α → β) :
    ∀ (l : List α) (c : γ) (out : List β),
      (l.foldl (fun (acc : γ × List β) p => (f acc.1 p, acc.2 ++ [g acc.1 p])) (c, out)).1 =
        l.foldl f c := by
  intro l
  induction l with
  | nil => intro c out; rfl
  | cons x xs ih => intro c out; exact ih (f c x) (out ++ [g c x])

theorem foldl_remapPair_fst (ps : List (ℕ × ℚ)) : ∀ (bm : List ℕ),
    ps.foldl (fun c p => (remapPair c p).1) bm = (ps.map (fun p => p.1)).foldl fuStep bm := by
  induction ps with
  | nil => intro bm; rfl
  | cons p ps ih =>
    intro bm
    rw [List.foldl_cons, List.map_cons, List.foldl_cons, remapPair_fst, ih]

theorem remapVertex_fst (bm : List ℕ) (v : UrhoVertex) :
    (remapVertex bm v).1 = firstUse64 bm (v.weights.map (fun p => p.1)) := by
  unfold remapVertex firstUse64
  rw [foldl_pair_fst (fun c (p : ℕ × ℚ) => (remapPair c p).1)
    (fun c (p : ℕ × ℚ) => (remapPair c p).2) v.weights bm []]
  exact foldl_remapPair_fst v.weights bm

theorem foldl_remapVertex_fst (vs : List UrhoVertex) : ∀ (bm : List ℕ),
    vs.foldl (fun c w => (remapVertex c w).1) bm = firstUse64 bm (boneStream vs) := by
  induction vs with
  | nil => intro bm; rfl
  | cons v vs ih =>
    intro bm
    rw [List.foldl_cons, ih, remapVertex_fst]
    unfold boneStream firstUse64
    rw [List.flatMap_cons, List.foldl_append]

theorem boneRemapPass_fst (bm : List ℕ) (vs : List UrhoVertex) :
    (boneRemapPass bm vs).1 = firstUse64 bm (boneStream vs) := by
  unfold boneRemapPass
  rw [foldl_pair_fst (fun c (w : UrhoVertex) => (remapVertex c w).1)
    (fun c (w : UrhoVertex) => (remapVertex c w).2) vs bm []]
  exact foldl_remapVertex_fst vs bm

theorem firstUse64_length (stream : List ℕ) : ∀ (seen : List ℕ),
    seen.length ≤ MAX_SKIN_MATRICES →
    (firstUse64 seen stream).length ≤ MAX_SKIN_MATRICES := by
  induction stream with
  | nil => intro seen h; exact h
  | cons x xs ih =>
    intro seen h
    unfold firstUse64 at ih ⊢
    rw [List.foldl_cons]
    apply ih
    unfold fuStep
    split
    · exact h
    · rename_i hcond
      push_neg at hcond
      rw [List.length_append, List.length_singleton]
      omega

theorem firstUse64_mem (stream : List ℕ) : ∀ (seen : List ℕ) (x : ℕ),
    x ∈ firstUse64 seen stream → x ∈ seen ∨ x ∈ stream := by
  induction stream with
  | nil => intro seen x h; exact Or.inl h
  | cons y ys ih =>
    intro seen x h
    unfold firstUse64 at ih h
    rw [List.foldl_cons] at h
    rcases ih (fuStep seen y) x h with h2 | h2
    · unfold fuStep at h2
      split at h2
      · exact Or.inl h2
      · rw [List.mem_append, List.mem_singleton] at h2
        rcases h2 with h3 | h3
        · exact Or.inl h3
        · exact Or.inr (h3 ▸ List.mem_cons_self y ys)
    · exact Or.inr (List.mem_cons_of_mem y h2)

theorem optLeErr_refl (a : Option ℚ) : optLeErr a a = true := by
  cases a with
  | none => rfl
  | some x => simp [optLeErr]

theorem optLtErr_ne_none {e b : Option ℚ} (h : optLtErr e b = true) : e ≠ none := by
  cases e with
  | none => exact Bool.noConfusion h
  | some x => exact Option.noConfusion

theorem optLeErr_of_not_lt {a b : Option ℚ} (h : optLtErr a b = false) :
    optLeErr b a = true := by
  cases a with
  | none => cases b <;> rfl
  | some x =>
    cases b with
    | none => exact Bool.noConfusion h
    | some y =>
      simp only [optLtErr, decide_eq_false_iff_not, not_lt] at h
      simp [optLeErr, h]

theorem optLeErr_trans_lt {e b c : Option ℚ} (h1 : optLtErr e b = true)
    (h2 : optLeErr b c = true) : optLeErr e c = true := by
  cases e with
  | none => exact Bool.noConfusion h1
  | some x =>
    cases c with
    | none => rfl
    | some z =>
      cases b with
      | none => exact Bool.noConfusion h2
      | some y =>
        simp only [optLtErr, decide_eq_true_eq] at h1
        simp only [optLeErr, decide_eq_true_eq] at h2
        simp only [optLeErr, decide_eq_true_eq]
        exact le_of_lt (lt_of_lt_of_le h1 h2)

theorem lodBestInv_step (vertices : List UrhoVertex) (v : UrhoVertex)
    (processed : List ℕ) (best : Option ℚ × Option ℕ) (x : ℕ)
    (h : LodBestInv (fun j => lodError (vertices.getD j default) v) processed best) :
    LodBestInv (fun j => lodError (vertices.getD j default) v) (processed ++ [x])
      (lodFoldStep vertices v best x) := by
  obtain ⟨h1, h2, h3⟩ := h
  unfold lodFoldStep
  by_cases hlt : optLtErr (lodError (vertices.getD x default) v) best.1 = true
  · rw [if_pos hlt]
    refine ⟨?_, ?_, ?_⟩
    · intro j hj
      injection hj with hj
      subst hj
      exact ⟨List.mem_append_right _ (List.mem_singleton.mpr rfl), rfl,
        optLtErr_ne_none hlt⟩
    · intro hn
      exact Option.noConfusion hn
    · intro j hj
      rcases List.mem_append.mp hj with hj | hj
      · exact optLeErr_trans_lt hlt (h3 j hj)
      · rw [List.mem_singleton.mp hj]
        exact optLeErr_refl _
  · rw [if_neg hlt]
    refine ⟨?_, h2, ?_⟩
    · intro j hj
      obtain ⟨hm, he, hn⟩ := h1 j hj
      exact ⟨List.mem_append_left _ hm, he, hn⟩
    · intro j hj
      rcases List.mem_append.mp hj with hj | hj
      · exact h3 j hj
      · rw [List.mem_singleton.mp hj]
        exact optLeErr_of_not_lt (Bool.not_eq_true _ ▸ hlt)

theorem lodBestInv_foldl (vertices : List UrhoVertex) (v : UrhoVertex) :
    ∀ (bucket : List ℕ) (processed : List ℕ) (best : Option ℚ × Option ℕ),
      LodBestInv (fun j => lodError (vertices.getD j default) v) processed best →
      LodBestInv (fun j => lodError (vertices.getD j default) v) (processed ++ bucket)
        (bucket.foldl (lodFoldStep vertices v) best) := by
  intro bucket
  induction bucket with
  | nil =>
    intro processed best h
    simpa using h
  | cons x xs ih =>
    intro processed best h
    rw [List.foldl_cons]
    have h2 := ih (processed ++ [x]) _ (lodBestInv_step vertices v processed best x h)
    rw [List.append_assoc] at h2
    simpa using h2

theorem findLodMatch_inv (vertices : List UrhoVertex) (bucket : List ℕ) (v : UrhoVertex) :
    LodBestInv (fun j => lodError (vertices.getD j default) v) bucket
      (bucket.foldl (lodFoldStep vertices v) (none, none)) := by
  have h0 : LodBestInv (fun j => lodError (vertices.getD j default) v) [] (none, none) := by
    refine ⟨fun j hj => Option.noConfusion hj, fun _ => rfl, fun j hj => absurd hj (List.not_mem_nil j)⟩
  have h := lodBestInv_foldl vertices v bucket [] (none, none) h0
  simpa using h

theorem dedupStep_append (verts : List TVertex) (tIdx : ℕ) (acc : DedupAcc)
    (hmask : (updateBufferMask acc.vb.elementMask (tVertexMask (verts.getD tIdx default))).2 = false)
    (hfind : findLodMatch acc.vb.vertices
      ((alistLookup acc.vmap (mkUrhoVertex (verts.getD tIdx default)).pos).getD [])
      (mkUrhoVertex (verts.getD tIdx default)) = none) :
    (dedupStep false verts acc tIdx).vb.vertices =
      acc.vb.vertices ++ [mkUrhoVertex (verts.getD tIdx default)] := by
  unfold dedupStep
  simp only [hmask, Bool.false_eq_true, if_false, hfind]

theorem insertSorted_mem {α : Type} (le : α → α → Bool) (a x : α) :
    ∀ (l : List α), x ∈ insertSorted le a l ↔ x = a ∨ x ∈ l := by
  intro l
  induction l with
  | nil => simp [insertSorted]
  | cons b bs ih =>
    unfold insertSorted
    split
    · rw [List.mem_cons, ih, List.mem_cons]
      tauto
    · simp [List.mem_cons]

theorem insertSorted_pairwise {α : Type} (le : α → α → Bool)
    (htot : ∀ x y, le x y = true ∨ le y x = true)
    (htr : ∀ x y z, le x y = true → le y z = true → le x z = true)
    (a : α) : ∀ (l : List α), l.Pairwise (fun x y => le x y = true) →
    (insertSorted le a l).Pairwise (fun x y => le x y = true) := by
  intro l
  induction l with
  | nil => intro _; exact List.pairwise_singleton _ a
  | cons b bs ih =>
    intro h
    rw [List.pairwise_cons] at h
    obtain ⟨hb, hbs⟩ := h
    unfold insertSorted
    split
    · rename_i hba
      rw [List.pairwise_cons]
      refine ⟨fun x hx => ?_, ih hbs⟩
      rcases (insertSorted_mem le a x bs).mp hx with rfl | hxb
      · exact hba
      · exact hb x hxb
    · rename_i hba
      have hab : le a b = true := by
        rcases htot a b with h | h
        · exact h
        · exact absurd h hba
      rw [List.pairwise_cons]
      refine ⟨fun x hx => ?_, List.pairwise_cons.mpr ⟨hb, hbs⟩⟩
      rcases List.mem_cons.mp hx with rfl | hxbs
      · exact hab
      · exact htr a b x hab (hb x hxbs)

theorem sortBy_foldl_pairwise {α : Type} (le : α → α → Bool)
    (htot : ∀ x y, le x y = true ∨ le y x = true)
    (htr : ∀ x y z, le x y = true → le y z = true → le x z = true) :
    ∀ (l acc : List α), acc.Pairwise (fun x y => le x y = true) →
      (l.foldl (fun acc a => insertSorted le a acc) acc).Pairwise
        (fun x y => le x y = true) := by
  intro l
  induction l with
  | nil => intro acc h; exact h
  | cons x xs ih =>
    intro acc h
    rw [List.foldl_cons]
    exact ih _ (insertSorted_pairwise le htot htr x acc h)

theorem sortBy_pairwise {α : Type} (le : α → α → Bool)
    (htot : ∀ x y, le x y = true ∨ le y x = true)
    (htr : ∀ x y z, le x y = true → le y z = true → le x z = true)
    (l : List α) : (sortBy le l).Pairwise (fun x y => le x y = true) :=
  sortBy_foldl_pairwise le htot htr l [] (List.Pairwise.nil)

theorem processTrack_sorted {t : TTrack} {tr : UrhoTrack}
    (h : processTrack t = Except.ok tr) :
    tr.keyframes.Pairwise (fun a b => a.time ≤ b.time) := by
  unfold processTrack at h
  cases hf : processFrames none [] t.frames with
  | error e =>
    rw [hf] at h
    exact Except.noConfusion h
  | ok r =>
    rw [hf] at h
    have h2 : (Except.ok ⟨t.name, r.1, sortBy (fun a b => decide (a.time ≤ b.time)) r.2⟩
        : Except AnimFailure UrhoTrack) = Except.ok tr := h
    have h3 := Except.ok.inj h2
    rw [← h3]
    have hs := sortBy_pairwise (fun a b : UrhoKeyframe => decide (a.time ≤ b.time))
      (fun x y => by
        rcases le_total x.time y.time with h | h
        · exact Or.inl (decide_eq_true h)
        · exact Or.inr (decide_eq_true h))
      (fun x y z h1 h2 => decide_eq_true
        (le_trans (of_decide_eq_true h1) (of_decide_eq_true h2)))
      r.2
    exact hs.imp (fun hab => of_decide_eq_true hab)

theorem lastTime_of_ne_nil {tr : UrhoTrack} (h : tr.keyframes ≠ []) :
    lastTime tr = some ((tr.keyframes.getLast?.map (fun k => k.time)).getD 0) := by
  unfold lastTime
  cases hg : tr.keyframes.getLast? with
  | none => exact absurd (List.getLast?_eq_none_iff.mp hg) h
  | some k => rfl

theorem animTrackStep_inv {acc acc1 : List UrhoTrack × Option ℚ} {tt : TTrack}
    (h : animTrackStep acc tt = Except.ok acc1) (hinv : AnimAccInv acc) :
    AnimAccInv acc1 := by
  unfold animTrackStep at h
  cases hf : processTrack tt with
  | error e =>
    rw [hf] at h
    exact Except.noConfusion h
  | ok tr =>
    rw [hf] at h
    have hb : (if (!tr.keyframes.isEmpty && maskTruthy tr.mask) = true then
        (Except.ok (acc.1 ++ [tr],
          match acc.2 with
          | none => some ((Option.map (fun k => k.time) tr.keyframes.getLast?).getD 0)
          | some l =>
            if l < (Option.map (fun k => k.time) tr.keyframes.getLast?).getD 0 then
              some ((Option.map (fun k => k.time) tr.keyframes.getLast?).getD 0)
            else some l) : Except AnimFailure (List UrhoTrack × Option ℚ))
      else Except.ok acc) = Except.ok acc1 := h
    clear h
    obtain ⟨hgood, hnone, hmax⟩ := hinv
    by_cases hc : (!tr.keyframes.isEmpty && maskTruthy tr.mask) = true
    · rw [if_pos hc] at hb
      rw [Bool.and_eq_true, Bool.not_eq_true'] at hc
      have hkf : tr.keyframes ≠ [] := by
        intro hnil
        rw [hnil] at hc
        exact Bool.noConfusion hc.1
      have hTG : TrackGood tr := ⟨hkf, hc.2, processTrack_sorted hf⟩
      have h2 := Except.ok.inj hb
      rw [← h2]
      set lastT := (tr.keyframes.getLast?.map (fun k => k.time)).getD 0 with hLT
      have hlast : lastTime tr = some lastT := lastTime_of_ne_nil hkf
      refine ⟨?_, ?_, ?_⟩
      · intro tr2 hm2
        rcases List.mem_append.mp hm2 with hm2 | hm2
        · exact hgood tr2 hm2
        · rw [List.mem_singleton.mp hm2]
          exact hTG
      · intro hn
        cases ha : acc.2 with
        | none => simp only [ha] at hn; exact Option.noConfusion hn
        | some l =>
          simp only [ha] at hn
          split at hn <;> exact Option.noConfusion hn
      · intro L hL
        cases ha : acc.2 with
        | none =>
          simp only [ha] at hL
          have hLe : L = lastT := (Option.some.inj hL).symm
          have hacc1 : acc.1 = [] := hnone ha
          subst hLe
          rw [hacc1]
          refine ⟨⟨tr, by simp, hlast⟩, ?_⟩
          intro tr2 hm2 tl htl
          rw [List.nil_append, List.mem_singleton] at hm2
          rw [hm2] at htl
          rw [hlast] at htl
          rw [Option.some.inj htl]
        | some l =>
          simp only [ha] at hL
          obtain ⟨⟨trw, htrwm, htrwl⟩, hall⟩ := hmax l ha
          by_cases hlt : l < lastT
          · rw [if_pos hlt] at hL
            have hLe : L = lastT := (Option.some.inj hL).symm
            subst hLe
            refine ⟨⟨tr, List.mem_append_right _ (List.mem_singleton.mpr rfl), hlast⟩, ?_⟩
            intro tr2 hm2 tl htl
            rcases List.mem_append.mp hm2 with hm2 | hm2
            · exact le_of_lt (lt_of_le_of_lt (hall tr2 hm2 tl htl) hlt)
            · rw [List.mem_singleton.mp hm2] at htl
              rw [hlast] at htl
              rw [Option.some.inj htl]
          · rw [if_neg hlt] at hL
            have hLe : L = l := (Option.some.inj hL).symm
            subst hLe
            refine ⟨⟨trw, List.mem_append_left _ htrwm, htrwl⟩, ?_⟩
            intro tr2 hm2 tl htl
            rcases List.mem_append.mp hm2 with hm2 | hm2
            · exact hall tr2 hm2 tl htl
            · rw [List.mem_singleton.mp hm2] at htl
              rw [hlast] at htl
              rw [← Option.some.inj htl]
              exact le_of_not_lt hlt
    · rw [if_neg hc] at hb
      have h2 := Except.ok.inj hb
      rw [← h2]
      exact ⟨hgood, hnone, hmax⟩

theorem animFold_inv : ∀ (ts : List TTrack) (acc r : List UrhoTrack × Option ℚ),
    List.foldlM animTrackStep acc ts = Except.ok r → AnimAccInv acc → AnimAccInv r := by
  intro ts
  induction ts with
  | nil =>
    intro acc r h hi
    rw [List.foldlM_nil] at h
    have h2 := Except.ok.inj h
    rw [← h2]
    exact hi
  | cons t ts ih =>
    intro acc r h hi
    rw [List.foldlM_cons] at h
    cases hs : animTrackStep acc t with
    | error e =>
      rw [hs] at h
      exact Except.noConfusion h
    | ok acc1 =>
      rw [hs] at h
      exact ih acc1 r h (animTrackStep_inv hs hi)

theorem processAnimation_good {a : TAnimation} {anim : UrhoAnimation}
    (h : processAnimation a = Except.ok (some anim)) : GoodAnim anim := by
  unfold processAnimation at h
  cases hf : List.foldlM animTrackStep ([], none) a.tracks with
  | error e =>
    rw [hf] at h
    exact Except.noConfusion h
  | ok r =>
    rw [hf] at h
    have hb : (if r.1.isEmpty = true then
        (Except.ok none : Except AnimFailure (Option UrhoAnimation))
      else Except.ok (some { name := a.name, length := r.2, tracks := r.1 }))
        = Except.ok (some anim) := h
    clear h
    have hinv : AnimAccInv r := by
      refine animFold_inv a.tracks ([], none) r hf ⟨?_, fun _ => rfl, ?_⟩
      · intro tr hm
        exact absurd hm (List.not_mem_nil tr)
      · intro L hL
        exact Option.noConfusion hL
    obtain ⟨hgood, hnone, hmax⟩ := hinv
    by_cases hre : r.1.isEmpty = true
    · rw [if_pos hre] at hb
      exact Option.noConfusion (Except.ok.inj hb)
    · rw [if_neg hre] at hb
      have h2 := Option.some.inj (Except.ok.inj hb)
      rw [← h2]
      have hne : r.1 ≠ [] := by
        intro hnil
        rw [hnil] at hre
        exact hre rfl
      cases hr2 : r.2 with
      | none => exact absurd (hnone hr2) hne
      | some L =>
        obtain ⟨hex, hall⟩ := hmax L hr2
        exact ⟨hne, hgood, L, rfl, hex, hall⟩

theorem processAnimations_good : ∀ (l : List TAnimation) (acc out : List UrhoAnimation),
    List.foldlM animCollectStep acc l = Except.ok out →
    (∀ x ∈ acc, GoodAnim x) → ∀ x ∈ out, GoodAnim x := by
  intro l
  induction l with
  | nil =>
    intro acc out h hacc
    rw [List.foldlM_nil] at h
    have h2 := Except.ok.inj h
    rw [← h2]
    exact hacc
  | cons a l ih =>
    intro acc out h hacc
    rw [List.foldlM_cons] at h
    unfold animCollectStep at h
    cases hp : processAnimation a with
    | error e =>
      rw [hp] at h
      exact Except.noConfusion h
    | ok r =>
      rw [hp] at h
      cases r with
      | none => exact ih acc out h hacc
      | some anim =>
        refine ih (acc ++ [anim]) out h ?_
        intro x hx
        rcases List.mem_append.mp hx with hx | hx
        · exact hacc x hx
        · rw [List.mem_singleton.mp hx]
          exact processAnimation_good hp

/-! ## Shape lemmas for the per-LOD step (all definitional) -/

theorem dedupStep_vb_eq (strict : Bool) (verts : List TVertex) (acc : DedupAcc) (tIdx : ℕ) :
    (dedupStep strict verts acc tIdx).vb =
      { acc.vb with
        elementMask := (updateBufferMask acc.vb.elementMask
          (tVertexMask (verts.getD tIdx default))).1
        vertices :=
          match (if strict then
              findStrictMatch acc.vb.vertices
                ((alistLookup acc.vmap (dedupUV verts acc tIdx).pos).getD [])
                (dedupUV verts acc tIdx)
            else
              findLodMatch acc.vb.vertices
                ((alistLookup acc.vmap (dedupUV verts acc tIdx).pos).getD [])
                (dedupUV verts acc tIdx)) with
          | some _ => acc.vb.vertices
          | none => acc.vb.vertices ++ [dedupUV verts acc tIdx] } := rfl

theorem dedupStep_maskErrors_eq (strict : Bool) (verts : List TVertex) (acc : DedupAcc)
    (tIdx : ℕ) :
    (dedupStep strict verts acc tIdx).maskErrors = acc.maskErrors +
      (if (updateBufferMask acc.vb.elementMask (tVertexMask (verts.getD tIdx default))).2
       then 1 else 0) := rfl

theorem processLod_vbs_eq (opts : UrhoExportOptions) (nbones : ℕ) (verts : List TVertex)
    (useOne : Bool) (i : ℕ) (st : BufState) (geom : UrhoGeometry) (lod : TLodLevel) :
    (processLod opts nbones verts useOne i st geom lod).1.vbs =
      (lodVbs1 useOne i st).dropLast ++
        [lodFinalVB opts nbones verts useOne i st geom lod] := rfl

theorem processLod_maskErrors_eq (opts : UrhoExportOptions) (nbones : ℕ)
    (verts : List TVertex) (useOne : Bool) (i : ℕ) (st : BufState) (geom : UrhoGeometry)
    (lod : TLodLevel) :
    (processLod opts nbones verts useOne i st geom lod).1.maskErrors =
      (lodAcc opts verts useOne i st lod).maskErrors := rfl

theorem processLod_ibs_shape (opts : UrhoExportOptions) (nbones : ℕ) (verts : List TVertex)
    (useOne : Bool) (i : ℕ) (st : BufState) (geom : UrhoGeometry) (lod : TLodLevel) :
    ∃ ib, (processLod opts nbones verts useOne i st geom lod).1.ibs =
      (lodIbs1 useOne i st).dropLast ++ [ib] := ⟨_, rfl⟩

theorem processLod_geom_shape (opts : UrhoExportOptions) (nbones : ℕ) (verts : List TVertex)
    (useOne : Bool) (i : ℕ) (st : BufState) (geom : UrhoGeometry) (lod : TLodLevel) :
    ∃ (bm : List ℕ) (c : List ℚ),
      (processLod opts nbones verts useOne i st geom lod).2 =
        { boneMap := bm
          lodLevels := geom.lodLevels ++
            [{ distance := lod.distance, primitiveType := TRIANGLE_LIST,
               vertexBuffer := (lodVbs1 useOne i st).length - 1,
               indexBuffer := (lodIbs1 useOne i st).length - 1,
               startIndex := if st.ibs.isEmpty || (decide (i = 0) && !useOne) then 0
                 else (st.ibs.getLast?.getD emptyIB).indexes.length,
               countIndex := 3 * lod.triangleList.length }]
          center := c } := ⟨_, _, rfl⟩

/-! ## Mask-invariant lemmas (claim C3) -/

theorem mkWeights_length (ws : List (ℕ × ℚ)) : (mkWeights ws).length = 4 := by
  unfold mkWeights
  rw [List.length_map, List.length_range]

theorem uVertexMask_mk (t : TVertex) : uVertexMask (mkUrhoVertex t) = tVertexMask t := by
  unfold uVertexMask mkUrhoVertex tVertexMask
  cases hw : t.weights with
  | none => simp [hw]
  | some ws =>
    have h4 : (mkWeights ws).length = 4 := mkWeights_length ws
    have hne : mkWeights ws ≠ [] := by
      intro h
      rw [h] at h4
      exact absurd h4 (by decide)
    simp [hw, List.isEmpty_eq_false.mpr hne]

theorem foldl_pair_snd_length {α β γ : Type} (f : γ → α → γ) (g : γ → α → β) :
    ∀ (l : List α) (c : γ) (out : List β),
      (l.foldl (fun (acc : γ × List β) p => (f acc.1 p, acc.2 ++ [g acc.1 p])) (c, out)).2.length
        = out.length + l.length := by
  intro l
  induction l with
  | nil => intro c out; rfl
  | cons x xs ih =>
    intro c out
    rw [List.foldl_cons]
    rw [ih (f c x) (out ++ [g c x])]
    rw [List.length_append, List.length_singleton, List.length_cons]
    omega

theorem foldl_pair_snd_mem {α β γ : Type} (f : γ → α → γ) (g : γ → α → β) :
    ∀ (l : List α) (c : γ) (out : List β) (x : β),
      x ∈ (l.foldl (fun (acc : γ × List β) p => (f acc.1 p, acc.2 ++ [g acc.1 p])) (c, out)).2 →
      x ∈ out ∨ ∃ a ∈ l, ∃ c2, x = g c2 a := by
  intro l
  induction l with
  | nil => intro c out x h; exact Or.inl h
  | cons a l ih =>
    intro c out x h
    rw [List.foldl_cons] at h
    rcases ih (f c a) (out ++ [g c a]) x h with h2 | h2
    · rcases List.mem_append.mp h2 with h3 | h3
      · exact Or.inl h3
      · exact Or.inr ⟨a, List.mem_cons_self a l, c, List.mem_singleton.mp h3⟩
    · obtain ⟨b, hb, c2, hx⟩ := h2
      exact Or.inr ⟨b, List.mem_cons_of_mem a hb, c2, hx⟩

theorem remapVertex_weights_length (bm : List ℕ) (v : UrhoVertex) :
    (remapVertex bm v).2.weights.length = v.weights.length := by
  unfold remapVertex
  have h := foldl_pair_snd_length (fun c (p : ℕ × ℚ) => (remapPair c p).1)
    (fun c (p : ℕ × ℚ) => (remapPair c p).2) v.weights bm []
  simpa using h

theorem remapVertex_mask (bm : List ℕ) (v : UrhoVertex) :
    uVertexMask (remapVertex bm v).2 = uVertexMask v := by
  have hlen := remapVertex_weights_length bm v
  have hp : (remapVertex bm v).2.pos = v.pos := rfl
  have hn : (remapVertex bm v).2.normal = v.normal := rfl
  have hco : (remapVertex bm v).2.color = v.color := rfl
  have hu : (remapVertex bm v).2.uv = v.uv := rfl
  have hu2 : (remapVertex bm v).2.uv2 = v.uv2 := rfl
  have ht : (remapVertex bm v).2.tangent = v.tangent := rfl
  have hie : (remapVertex bm v).2.weights.isEmpty = v.weights.isEmpty := by
    rw [Bool.eq_iff_iff, List.isEmpty_iff_length_eq_zero, List.isEmpty_iff_length_eq_zero, hlen]
  unfold uVertexMask
  rw [hp, hn, hco, hu, hu2, ht, hie]

theorem remapVertex_mask_of_eq {bm : List ℕ} {v w : UrhoVertex}
    (h : w = (remapVertex bm v).2) : uVertexMask w = uVertexMask v := by
  rw [h]
  exact remapVertex_mask bm v

theorem boneRemapPass_masks {bm : List ℕ} {vs : List UrhoVertex} {w : UrhoVertex}
    (h : w ∈ (boneRemapPass bm vs).2) : ∃ v ∈ vs, uVertexMask w = uVertexMask v := by
  unfold boneRemapPass at h
  rcases foldl_pair_snd_mem (fun c (v : UrhoVertex) => (remapVertex c v).1)
    (fun c (v : UrhoVertex) => (remapVertex c v).2) vs bm [] w h with h2 | h2
  · exact absurd h2 (List.not_mem_nil w)
  · obtain ⟨v, hv, c2, hw⟩ := h2
    exact ⟨v, hv, remapVertex_mask_of_eq hw⟩

theorem boneRemapPass_nil (bm : List ℕ) : (boneRemapPass bm []).2 = [] := rfl

theorem setMorphDefault_mask_inv {vb : UrhoVertexBuffer} (h : MaskInv vb) :
    MaskInv (setMorphDefault vb) := by
  obtain ⟨h1, h2⟩ := h
  refine ⟨?_, ?_⟩
  · rw [setMorphDefault_mask, setMorphDefault_vertices]
    exact h1
  · rw [setMorphDefault_mask, setMorphDefault_vertices]
    exact h2

theorem emptyVB_mask_inv : MaskInv emptyVB :=
  ⟨fun _ => rfl, fun v hv => absurd hv (List.not_mem_nil v)⟩

theorem dedupStep_mask_mono (strict : Bool) (verts : List TVertex) (acc : DedupAcc)
    (tIdx : ℕ) : acc.maskErrors ≤ (dedupStep strict verts acc tIdx).maskErrors := by
  rw [dedupStep_maskErrors_eq]
  exact Nat.le_add_right _ _

theorem dedupStep_mask_inv {strict : Bool} {verts : List TVertex} {acc : DedupAcc}
    {tIdx : ℕ} (hsame : (dedupStep strict verts acc tIdx).maskErrors = acc.maskErrors)
    (hinv : MaskInv acc.vb) : MaskInv (dedupStep strict verts acc tIdx).vb := by
  have hmu : (updateBufferMask acc.vb.elementMask
      (tVertexMask (verts.getD tIdx default))).2 = false := by
    rw [dedupStep_maskErrors_eq] at hsame
    by_contra hb
    rw [Bool.not_eq_false] at hb
    rw [hb] at hsame
    simp at hsame
  have huv : dedupUV verts acc tIdx = mkUrhoVertex (verts.getD tIdx default) := by
    unfold dedupUV
    rw [hmu]
    exact if_neg (by simp)
  have hmask2 : (dedupStep strict verts acc tIdx).vb.elementMask
      = (updateBufferMask acc.vb.elementMask (tVertexMask (verts.getD tIdx default))).1 := rfl
  have hverts2 : (dedupStep strict verts acc tIdx).vb.vertices = acc.vb.vertices ∨
      (dedupStep strict verts acc tIdx).vb.vertices
        = acc.vb.vertices ++ [mkUrhoVertex (verts.getD tIdx default)] := by
    rw [dedupStep_vb_eq]
    cases hfound : (if strict then
        findStrictMatch acc.vb.vertices
          ((alistLookup acc.vmap (dedupUV verts acc tIdx).pos).getD [])
          (dedupUV verts acc tIdx)
      else
        findLodMatch acc.vb.vertices
          ((alistLookup acc.vmap (dedupUV verts acc tIdx).pos).getD [])
          (dedupUV verts acc tIdx)) with
    | some ivl =>
      left
      simp [hfound]
    | none =>
      right
      simp [hfound, huv]
  obtain ⟨h1, h2⟩ := hinv
  have hupval : ∀ bm0, acc.vb.elementMask = some bm0 →
      bm0 = tVertexMask (verts.getD tIdx default) := by
    intro bm0 hbm
    by_contra hne
    have hx : (updateBufferMask acc.vb.elementMask
        (tVertexMask (verts.getD tIdx default))).2 = true := by
      rw [hbm]
      simp only [updateBufferMask]
      rw [if_neg hne]
    rw [hx] at hmu
    exact Bool.noConfusion hmu
  have hmaskval : (dedupStep strict verts acc tIdx).vb.elementMask
      = some (tVertexMask (verts.getD tIdx default)) := by
    rw [hmask2]
    cases hbm : acc.vb.elementMask with
    | none => rfl
    | some bm0 =>
      have hb0 := hupval bm0 hbm
      subst hb0
      simp only [updateBufferMask, if_pos]
  constructor
  · intro hcontra
    rw [hmaskval] at hcontra
    exact Option.noConfusion hcontra
  · intro v hv
    rw [hmaskval]
    rcases hverts2 with he | he
    · rw [he] at hv
      cases hbm : acc.vb.elementMask with
      | none =>
        rw [h1 hbm] at hv
        exact absurd hv (List.not_mem_nil v)
      | some bm0 =>
        have := h2 v hv
        rw [hbm] at this
        rw [← Option.some.inj this, hupval bm0 hbm]
    · rw [he] at hv
      rcases List.mem_append.mp hv with hv2 | hv2
      · cases hbm : acc.vb.elementMask with
        | none =>
          rw [h1 hbm] at hv2
          exact absurd hv2 (List.not_mem_nil v)
        | some bm0 =>
          have := h2 v hv2
          rw [hbm] at this
          rw [← Option.some.inj this, hupval bm0 hbm]
      · rw [List.mem_singleton.mp hv2, uVertexMask_mk]

theorem dedupFold_mask_mono (strict : Bool) (verts : List TVertex) :
    ∀ (l : List ℕ) (acc : DedupAcc),
      acc.maskErrors ≤ (l.foldl (dedupStep strict verts) acc).maskErrors := by
  intro l
  induction l with
  | nil => intro acc; exact le_refl _
  | cons x xs ih =>
    intro acc
    rw [List.foldl_cons]
    exact le_trans (dedupStep_mask_mono strict verts acc x) (ih _)

theorem dedupFold_mask_inv (strict : Bool) (verts : List TVertex) :
    ∀ (l : List ℕ) (acc : DedupAcc),
      (l.foldl (dedupStep strict verts) acc).maskErrors = acc.maskErrors →
      MaskInv acc.vb → MaskInv (l.foldl (dedupStep strict verts) acc).vb := by
  intro l
  induction l with
  | nil => intro acc _ hi; exact hi
  | cons x xs ih =>
    intro acc h hi
    rw [List.foldl_cons] at h ⊢
    have hm1 := dedupStep_mask_mono strict verts acc x
    have hm2 := dedupFold_mask_mono strict verts xs (dedupStep strict verts acc x)
    have hstep : (dedupStep strict verts acc x).maskErrors = acc.maskErrors := by omega
    exact ih _ (by rw [h, hstep]) (dedupStep_mask_inv hstep hi)

theorem processLod_mask_mono (opts : UrhoExportOptions) (nbones : ℕ)
    (verts : List TVertex) (useOne : Bool) (i : ℕ) (st : BufState)
    (geom : UrhoGeometry) (lod : TLodLevel) :
    st.maskErrors ≤ (processLod opts nbones verts useOne i st geom lod).1.maskErrors := by
  rw [processLod_maskErrors_eq]
  unfold lodAcc
  refine le_trans ?_ (dedupFold_mask_mono _ _ _ _)
  exact le_refl _

theorem getLast_mask_inv {st : BufState} (hin : StMaskInv st) (useOne : Bool) (i : ℕ) :
    MaskInv ((lodVbs1 useOne i st).getLast?.getD emptyVB) := by
  unfold lodVbs1
  split
  · rw [List.getLast?_concat]
    exact emptyVB_mask_inv
  · cases hg : st.vbs.getLast? with
    | none => exact emptyVB_mask_inv
    | some vb => exact hin vb (List.mem_of_mem_getLast? hg)

theorem lodVbs1_mem {st : BufState} {vb : UrhoVertexBuffer} (useOne : Bool) (i : ℕ)
    (h : vb ∈ (lodVbs1 useOne i st).dropLast) (hin : StMaskInv st) : MaskInv vb := by
  have h2 : vb ∈ lodVbs1 useOne i st := (List.dropLast_sublist _).mem h
  unfold lodVbs1 at h2
  split at h2
  · rcases List.mem_append.mp h2 with h3 | h3
    · exact hin vb h3
    · rw [List.mem_singleton.mp h3]
      exact emptyVB_mask_inv
  · exact hin vb h2

theorem lodFinalVB_mask_inv (opts : UrhoExportOptions) (nbones : ℕ)
    (verts : List TVertex) (useOne : Bool) (i : ℕ) (st : BufState)
    (geom : UrhoGeometry) (lod : TLodLevel)
    (h : MaskInv (lodAcc opts verts useOne i st lod).vb) :
    MaskInv (lodFinalVB opts nbones verts useOne i st geom lod) := by
  obtain ⟨h1, h2⟩ := h
  unfold lodFinalVB
  split
  · constructor
    · intro hm
      show (boneRemapPass geom.boneMap (lodAcc opts verts useOne i st lod).vb.vertices).2 = []
      have hm2 : (lodAcc opts verts useOne i st lod).vb.elementMask = none := hm
      rw [h1 hm2]
      exact boneRemapPass_nil geom.boneMap
    · intro v hv
      have hv2 : v ∈ (boneRemapPass geom.boneMap
          (lodAcc opts verts useOne i st lod).vb.vertices).2 := hv
      obtain ⟨w, hw, hmask⟩ := boneRemapPass_masks hv2
      show (lodAcc opts verts useOne i st lod).vb.elementMask = some (uVertexMask v)
      rw [hmask]
      exact h2 w hw
  · exact ⟨h1, h2⟩

theorem processLod_mask_inv (opts : UrhoExportOptions) (nbones : ℕ)
    (verts : List TVertex) (useOne : Bool) (i : ℕ) (st : BufState)
    (geom : UrhoGeometry) (lod : TLodLevel)
    (hsame : (processLod opts nbones verts useOne i st geom lod).1.maskErrors = st.maskErrors)
    (hin : StMaskInv st) : StMaskInv (processLod opts nbones verts useOne i st geom lod).1 := by
  intro vb hvb
  rw [processLod_vbs_eq] at hvb
  rcases List.mem_append.mp hvb with h | h
  · exact lodVbs1_mem useOne i h hin
  · rw [List.mem_singleton.mp h]
    apply lodFinalVB_mask_inv
    apply dedupFold_mask_inv
    · rw [processLod_maskErrors_eq] at hsame
      exact hsame
    · exact getLast_mask_inv hin useOne i

theorem geomFold_mask_mono (opts : UrhoExportOptions) (nbones : ℕ)
    (verts : List TVertex) (useOne : Bool) :
    ∀ (lods : List TLodLevel) (p : (BufState × UrhoGeometry) × ℕ),
      p.1.1.maskErrors ≤
        (lods.foldl (fun (q : (BufState × UrhoGeometry) × ℕ) lod =>
          (processLod opts nbones verts useOne q.2 q.1.1 q.1.2 lod, q.2 + 1)) p).1.1.maskErrors := by
  intro lods
  induction lods with
  | nil => intro p; exact le_refl _
  | cons lod lods ih =>
    intro p
    rw [List.foldl_cons]
    exact le_trans (processLod_mask_mono opts nbones verts useOne p.2 p.1.1 p.1.2 lod)
      (ih (processLod opts nbones verts useOne p.2 p.1.1 p.1.2 lod, p.2 + 1))

theorem geomFold_mask_inv (opts : UrhoExportOptions) (nbones : ℕ)
    (verts : List TVertex) (useOne : Bool) :
    ∀ (lods : List TLodLevel) (p : (BufState × UrhoGeometry) × ℕ),
      (lods.foldl (fun (q : (BufState × UrhoGeometry) × ℕ) lod =>
          (processLod opts nbones verts useOne q.2 q.1.1 q.1.2 lod, q.2 + 1)) p).1.1.maskErrors
        = p.1.1.maskErrors →
      StMaskInv p.1.1 →
      StMaskInv (lods.foldl (fun (q : (BufState × UrhoGeometry) × ℕ) lod =>
          (processLod opts nbones verts useOne q.2 q.1.1 q.1.2 lod, q.2 + 1)) p).1.1 := by
  intro lods
  induction lods with
  | nil => intro p _ hi; exact hi
  | cons lod lods ih =>
    intro p h hi
    rw [List.foldl_cons] at h ⊢
    have hm1 := processLod_mask_mono opts nbones verts useOne p.2 p.1.1 p.1.2 lod
    have hm2 : (processLod opts nbones verts useOne p.2 p.1.1 p.1.2 lod).1.maskErrors ≤
        (lods.foldl (fun (q : (BufState × UrhoGeometry) × ℕ) lod =>
          (processLod opts nbones verts useOne q.2 q.1.1 q.1.2 lod, q.2 + 1))
          (processLod opts nbones verts useOne p.2 p.1.1 p.1.2 lod, p.2 + 1)).1.1.maskErrors :=
      geomFold_mask_mono opts nbones verts useOne lods
        (processLod opts nbones verts useOne p.2 p.1.1 p.1.2 lod, p.2 + 1)
    have hstep : (processLod opts nbones verts useOne p.2 p.1.1 p.1.2 lod).1.maskErrors
        = p.1.1.maskErrors := by omega
    exact ih _ (by rw [h]; exact hstep.symm) (processLod_mask_inv opts nbones verts useOne p.2
      p.1.1 p.1.2 lod hstep hi)

theorem processGeometry_mask_mono (opts : UrhoExportOptions) (nbones : ℕ)
    (verts : List TVertex) (useOne : Bool) (st : BufState) (g : TGeometry) :
    st.maskErrors ≤ (processGeometry opts nbones verts useOne st g).1.maskErrors := by
  unfold processGeometry
  exact geomFold_mask_mono opts nbones verts useOne g.lodLevels
    ((st, { boneMap := [], lodLevels := [], center := [0, 0, 0] }), 0)

theorem processGeometry_mask_inv (opts : UrhoExportOptions) (nbones : ℕ)
    (verts : List TVertex) (useOne : Bool) (st : BufState) (g : TGeometry)
    (hsame : (processGeometry opts nbones verts useOne st g).1.maskErrors = st.maskErrors)
    (hin : StMaskInv st) : StMaskInv (processGeometry opts nbones verts useOne st g).1 := by
  unfold processGeometry at hsame ⊢
  exact geomFold_mask_inv opts nbones verts useOne g.lodLevels
    ((st, { boneMap := [], lodLevels := [], center := [0, 0, 0] }), 0) hsame hin

theorem exportFold_mask_mono (opts : UrhoExportOptions) (nbones : ℕ)
    (verts : List TVertex) (useOne : Bool) :
    ∀ (gs : List TGeometry) (p : BufState × List UrhoGeometry),
      p.1.maskErrors ≤
        (gs.foldl (fun (q : BufState × List UrhoGeometry) g =>
          ((processGeometry opts nbones verts useOne q.1 g).1,
           q.2 ++ [(processGeometry opts nbones verts useOne q.1 g).2])) p).1.maskErrors := by
  intro gs
  induction gs with
  | nil => intro p; exact le_refl _
  | cons g gs ih =>
    intro p
    rw [List.foldl_cons]
    exact le_trans (processGeometry_mask_mono opts nbones verts useOne p.1 g)
      (ih ((processGeometry opts nbones verts useOne p.1 g).1,
           p.2 ++ [(processGeometry opts nbones verts useOne p.1 g).2]))

theorem exportFold_mask_inv (opts : UrhoExportOptions) (nbones : ℕ)
    (verts : List TVertex) (useOne : Bool) :
    ∀ (gs : List TGeometry) (p : BufState × List UrhoGeometry),
      (gs.foldl (fun (q : BufState × List UrhoGeometry) g =>
          ((processGeometry opts nbones verts useOne q.1 g).1,
           q.2 ++ [(processGeometry opts nbones verts useOne q.1 g).2])) p).1.maskErrors
        = p.1.maskErrors →
      StMaskInv p.1 →
      StMaskInv (gs.foldl (fun (q : BufState × List UrhoGeometry) g =>
          ((processGeometry opts nbones verts useOne q.1 g).1,
           q.2 ++ [(processGeometry opts nbones verts useOne q.1 g).2])) p).1 := by
  intro gs
  induction gs with
  | nil => intro p _ hi; exact hi
  | cons g gs ih =>
    intro p h hi
    rw [List.foldl_cons] at h ⊢
    have hm1 := processGeometry_mask_mono opts nbones verts useOne p.1 g
    have hm2 : (processGeometry opts nbones verts useOne p.1 g).1.maskErrors ≤
        (gs.foldl (fun (q : BufState × List UrhoGeometry) g =>
          ((processGeometry opts nbones verts useOne q.1 g).1,
           q.2 ++ [(processGeometry opts nbones verts useOne q.1 g).2]))
          ((processGeometry opts nbones verts useOne p.1 g).1,
           p.2 ++ [(processGeometry opts nbones verts useOne p.1 g).2])).1.maskErrors :=
      exportFold_mask_mono opts nbones verts useOne gs
        ((processGeometry opts nbones verts useOne p.1 g).1,
         p.2 ++ [(processGeometry opts nbones verts useOne p.1 g).2])
    have hstep : (processGeometry opts nbones verts useOne p.1 g).1.maskErrors
        = p.1.maskErrors := by omega
    exact ih _ (by rw [h]; exact hstep.symm) (processGeometry_mask_inv opts nbones verts useOne
      p.1 g hstep hi)

theorem lodVbs1_length (useOne : Bool) (i : ℕ) (st : BufState) :
    (lodVbs1 useOne i st).length =
      if st.vbs.isEmpty || (decide (i = 0) && !useOne) then st.vbs.length + 1
      else st.vbs.length := by
  unfold lodVbs1
  by_cases h : (st.vbs.isEmpty || (decide (i = 0) && !useOne)) = true
  · rw [if_pos h, if_pos h, List.length_append, List.length_singleton]
  · rw [if_neg h, if_neg h]

theorem lodIbs1_length (useOne : Bool) (i : ℕ) (st : BufState) :
    (lodIbs1 useOne i st).length =
      if st.ibs.isEmpty || (decide (i = 0) && !useOne) then st.ibs.length + 1
      else st.ibs.length := by
  unfold lodIbs1
  by_cases h : (st.ibs.isEmpty || (decide (i = 0) && !useOne)) = true
  · rw [if_pos h, if_pos h, List.length_append, List.length_singleton]
  · rw [if_neg h, if_neg h]

theorem lodVbs1_ne_nil (useOne : Bool) (i : ℕ) (st : BufState) :
    lodVbs1 useOne i st ≠ [] := by
  unfold lodVbs1
  by_cases h : (st.vbs.isEmpty || (decide (i = 0) && !useOne)) = true
  · rw [if_pos h]
    intro hc
    exact List.cons_ne_nil emptyVB [] (List.append_eq_nil.mp hc).2
  · rw [if_neg h]
    intro hc
    apply h
    rw [hc]
    rfl

theorem lodIbs1_ne_nil (useOne : Bool) (i : ℕ) (st : BufState) :
    lodIbs1 useOne i st ≠ [] := by
  unfold lodIbs1
  by_cases h : (st.ibs.isEmpty || (decide (i = 0) && !useOne)) = true
  · rw [if_pos h]
    intro hc
    exact List.cons_ne_nil emptyIB [] (List.append_eq_nil.mp hc).2
  · rw [if_neg h]
    intro hc
    apply h
    rw [hc]
    rfl

theorem processLod_vbs_length (opts : UrhoExportOptions) (nbones : ℕ)
    (verts : List TVertex) (useOne : Bool) (i : ℕ) (st : BufState)
    (geom : UrhoGeometry) (lod : TLodLevel) :
    (processLod opts nbones verts useOne i st geom lod).1.vbs.length
      = (lodVbs1 useOne i st).length := by
  rw [processLod_vbs_eq, List.length_append, List.length_dropLast, List.length_singleton]
  have h2 : 0 < (lodVbs1 useOne i st).length :=
    List.length_pos.mpr (lodVbs1_ne_nil useOne i st)
  omega

theorem processLod_ibs_length (opts : UrhoExportOptions) (nbones : ℕ)
    (verts : List TVertex) (useOne : Bool) (i : ℕ) (st : BufState)
    (geom : UrhoGeometry) (lod : TLodLevel) :
    (processLod opts nbones verts useOne i st geom lod).1.ibs.length
      = (lodIbs1 useOne i st).length := by
  obtain ⟨ib, hib⟩ := processLod_ibs_shape opts nbones verts useOne i st geom lod
  rw [hib, List.length_append, List.length_dropLast, List.length_singleton]
  have h2 : 0 < (lodIbs1 useOne i st).length :=
    List.length_pos.mpr (lodIbs1_ne_nil useOne i st)
  omega

theorem geomFoldRest_split (opts : UrhoExportOptions) (nbones : ℕ)
    (verts : List TVertex) (n : ℕ) :
    ∀ (lods : List TLodLevel) (p : (BufState × UrhoGeometry) × ℕ),
      1 ≤ p.2 →
      p.1.1.vbs.length = n + 1 →
      p.1.1.ibs.length = n + 1 →
      (∀ l ∈ p.1.2.lodLevels, l.vertexBuffer = n ∧ l.indexBuffer = n) →
      p.1.2.lodLevels ≠ [] →
      ((lods.foldl (fun (q : (BufState × UrhoGeometry) × ℕ) lod =>
          (processLod opts nbones verts false q.2 q.1.1 q.1.2 lod, q.2 + 1))
          p).1.1.vbs.length = n + 1 ∧
       (lods.foldl (fun (q : (BufState × UrhoGeometry) × ℕ) lod =>
          (processLod opts nbones verts false q.2 q.1.1 q.1.2 lod, q.2 + 1))
          p).1.1.ibs.length = n + 1 ∧
       (∀ l ∈ (lods.foldl (fun (q : (BufState × UrhoGeometry) × ℕ) lod =>
          (processLod opts nbones verts false q.2 q.1.1 q.1.2 lod, q.2 + 1))
          p).1.2.lodLevels, l.vertexBuffer = n ∧ l.indexBuffer = n) ∧
       (lods.foldl (fun (q : (BufState × UrhoGeometry) × ℕ) lod =>
          (processLod opts nbones verts false q.2 q.1.1 q.1.2 lod, q.2 + 1))
          p).1.2.lodLevels.head? = p.1.2.lodLevels.head?) := by
  intro lods
  induction lods with
  | nil => intro p _ hv hi hm _; exact ⟨hv, hi, hm, rfl⟩
  | cons lod lods ih =>
    intro p hp2 hv hi hm hne
    rw [List.foldl_cons]
    have h0 : decide (p.2 = 0) = false := decide_eq_false (by omega)
    have hiev : p.1.1.vbs.isEmpty = false := by
      cases hvb : p.1.1.vbs with
      | nil => rw [hvb, List.length_nil] at hv; exact absurd hv (by omega)
      | cons a t => rfl
    have hiei : p.1.1.ibs.isEmpty = false := by
      cases hvb : p.1.1.ibs with
      | nil => rw [hvb, List.length_nil] at hi; exact absurd hi (by omega)
      | cons a t => rfl
    have hcv : (p.1.1.vbs.isEmpty || (decide (p.2 = 0) && !false)) = false := by
      rw [h0, hiev]
      rfl
    have hci : (p.1.1.ibs.isEmpty || (decide (p.2 = 0) && !false)) = false := by
      rw [h0, hiei]
      rfl
    have hcvn : ¬ ((p.1.1.vbs.isEmpty || (decide (p.2 = 0) && !false)) = true) := by
      rw [hcv]
      exact Bool.false_ne_true
    have hcin : ¬ ((p.1.1.ibs.isEmpty || (decide (p.2 = 0) && !false)) = true) := by
      rw [hci]
      exact Bool.false_ne_true
    have hlv : (lodVbs1 false p.2 p.1.1).length = n + 1 := by
      rw [lodVbs1_length, if_neg hcvn]
      exact hv
    have hli : (lodIbs1 false p.2 p.1.1).length = n + 1 := by
      rw [lodIbs1_length, if_neg hcin]
      exact hi
    have hv1 : (processLod opts nbones verts false p.2 p.1.1 p.1.2 lod).1.vbs.length
        = n + 1 := by
      rw [processLod_vbs_length]
      exact hlv
    have hi1 : (processLod opts nbones verts false p.2 p.1.1 p.1.2 lod).1.ibs.length
        = n + 1 := by
      rw [processLod_ibs_length]
      exact hli
    obtain ⟨bm, c, hg⟩ := processLod_geom_shape opts nbones verts false p.2 p.1.1 p.1.2 lod
    have hll : (processLod opts nbones verts false p.2 p.1.1 p.1.2 lod).2.lodLevels
        = p.1.2.lodLevels ++
          [{ distance := lod.distance, primitiveType := TRIANGLE_LIST,
             vertexBuffer := (lodVbs1 false p.2 p.1.1).length - 1,
             indexBuffer := (lodIbs1 false p.2 p.1.1).length - 1,
             startIndex := if p.1.1.ibs.isEmpty || (decide (p.2 = 0) && !false) then 0
               else (p.1.1.ibs.getLast?.getD emptyIB).indexes.length,
             countIndex := 3 * lod.triangleList.length }] := by
      rw [hg]
    have hm1 : ∀ l ∈ (processLod opts nbones verts false p.2 p.1.1 p.1.2 lod).2.lodLevels,
        l.vertexBuffer = n ∧ l.indexBuffer = n := by
      intro l hl
      rw [hll] at hl
      rcases List.mem_append.mp hl with h | h
      · exact hm l h
      · rw [List.mem_singleton.mp h]
        constructor
        · show (lodVbs1 false p.2 p.1.1).length - 1 = n
          rw [hlv]
          omega
        · show (lodIbs1 false p.2 p.1.1).length - 1 = n
          rw [hli]
          omega
    have hne1 : (processLod opts nbones verts false p.2 p.1.1 p.1.2 lod).2.lodLevels
        ≠ [] := by
      rw [hll]
      intro hc
      exact List.cons_ne_nil _ [] (List.append_eq_nil.mp hc).2
    have hhd1 : (processLod opts nbones verts false p.2 p.1.1 p.1.2 lod).2.lodLevels.head?
        = p.1.2.lodLevels.head? := by
      rw [hll]
      cases hpl : p.1.2.lodLevels with
      | nil => exact absurd hpl hne
      | cons a t => rfl
    obtain ⟨q1, q2, q3, q4⟩ := ih
      (processLod opts nbones verts false p.2 p.1.1 p.1.2 lod, p.2 + 1)
      (by show 1 ≤ p.2 + 1; omega) hv1 hi1 hm1 hne1
    exact ⟨q1, q2, q3, q4.trans hhd1⟩

theorem processGeometry_split (opts : UrhoExportOptions) (nbones : ℕ)
    (verts : List TVertex) (st : BufState) (g : TGeometry)
    (hlen : st.ibs.length = st.vbs.length) (hne : g.lodLevels ≠ []) :
    (processGeometry opts nbones verts false st g).1.vbs.length = st.vbs.length + 1 ∧
    (processGeometry opts nbones verts false st g).1.ibs.length = st.vbs.length + 1 ∧
    GeomRefs st.vbs.length (processGeometry opts nbones verts false st g).2 := by
  obtain ⟨lod0, rest, hg0⟩ : ∃ a t, g.lodLevels = a :: t := by
    cases hl : g.lodLevels with
    | nil => exact absurd hl hne
    | cons a t => exact ⟨a, t, rfl⟩
  unfold processGeometry
  rw [hg0, List.foldl_cons]
  have hcv : (st.vbs.isEmpty || (decide ((0 : ℕ) = 0) && !false)) = true := by
    rw [Bool.not_false, decide_eq_true_eq.mpr rfl, Bool.true_and, Bool.or_true]
  have hci : (st.ibs.isEmpty || (decide ((0 : ℕ) = 0) && !false)) = true := by
    rw [Bool.not_false, decide_eq_true_eq.mpr rfl, Bool.true_and, Bool.or_true]
  have hlv : (lodVbs1 false 0 st).length = st.vbs.length + 1 := by
    rw [lodVbs1_length, if_pos hcv]
  have hli : (lodIbs1 false 0 st).length = st.vbs.length + 1 := by
    rw [lodIbs1_length, if_pos hci, hlen]
  have hv1 : (processLod opts nbones verts false 0 st
      { boneMap := [], lodLevels := [], center := [0, 0, 0] } lod0).1.vbs.length
      = st.vbs.length + 1 := by
    rw [processLod_vbs_length]
    exact hlv
  have hi1 : (processLod opts nbones verts false 0 st
      { boneMap := [], lodLevels := [], center := [0, 0, 0] } lod0).1.ibs.length
      = st.vbs.length + 1 := by
    rw [processLod_ibs_length]
    exact hli
  obtain ⟨bm, c, hg⟩ := processLod_geom_shape opts nbones verts false 0 st
    { boneMap := [], lodLevels := [], center := [0, 0, 0] } lod0
  have hll : (processLod opts nbones verts false 0 st
      { boneMap := [], lodLevels := [], center := [0, 0, 0] } lod0).2.lodLevels
      = [{ distance := lod0.distance, primitiveType := TRIANGLE_LIST,
           vertexBuffer := (lodVbs1 false 0 st).length - 1,
           indexBuffer := (lodIbs1 false 0 st).length - 1,
           startIndex := if st.ibs.isEmpty || (decide ((0 : ℕ) = 0) && !false) then 0
             else (st.ibs.getLast?.getD emptyIB).indexes.length,
           countIndex := 3 * lod0.triangleList.length }] := by
    rw [hg]
    rfl
  have hm1 : ∀ l ∈ (processLod opts nbones verts false 0 st
      { boneMap := [], lodLevels := [], center := [0, 0, 0] } lod0).2.lodLevels,
      l.vertexBuffer = st.vbs.length ∧ l.indexBuffer = st.vbs.length := by
    intro l hl
    rw [hll] at hl
    rw [List.mem_singleton.mp hl]
    constructor
    · show (lodVbs1 false 0 st).length - 1 = st.vbs.length
      rw [hlv]
      omega
    · show (lodIbs1 false 0 st).length - 1 = st.vbs.length
      rw [hli]
      omega
  have hne1 : (processLod opts nbones verts false 0 st
      { boneMap := [], lodLevels := [], center := [0, 0, 0] } lod0).2.lodLevels ≠ [] := by
    rw [hll]
    exact List.cons_ne_nil _ []
  obtain ⟨q1, q2, q3, q4⟩ := geomFoldRest_split opts nbones verts st.vbs.length rest
    (processLod opts nbones verts false 0 st
      { boneMap := [], lodLevels := [], center := [0, 0, 0] } lod0, 0 + 1)
    (by show 1 ≤ 0 + 1; omega) hv1 hi1 hm1 hne1
  refine ⟨q1, q2, q3, ?_⟩
  intro l0 h0
  have h0' : (processLod opts nbones verts false 0 st
      { boneMap := [], lodLevels := [], center := [0, 0, 0] } lod0).2.lodLevels.head?
      = some l0 := q4.symm.trans h0
  rw [hll, List.head?_cons] at h0'
  rw [← Option.some.inj h0']
  show (if st.ibs.isEmpty || (decide ((0 : ℕ) = 0) && !false) then 0
    else (st.ibs.getLast?.getD emptyIB).indexes.length) = 0
  rw [if_pos hci]

theorem exportFold_split (opts : UrhoExportOptions) (nbones : ℕ)
    (verts : List TVertex) :
    ∀ (gs : List TGeometry) (p : BufState × List UrhoGeometry),
      (∀ g ∈ gs, g.lodLevels ≠ []) →
      p.1.ibs.length = p.1.vbs.length →
      p.1.vbs.length = p.2.length →
      (∀ k, k < p.2.length → GeomRefs k (p.2.getD k default)) →
      ((gs.foldl (fun (q : BufState × List UrhoGeometry) g =>
          ((processGeometry opts nbones verts false q.1 g).1,
           q.2 ++ [(processGeometry opts nbones verts false q.1 g).2])) p).1.vbs.length
        = p.1.vbs.length + gs.length ∧
       (gs.foldl (fun (q : BufState × List UrhoGeometry) g =>
          ((processGeometry opts nbones verts false q.1 g).1,
           q.2 ++ [(processGeometry opts nbones verts false q.1 g).2])) p).1.ibs.length
        = p.1.vbs.length + gs.length ∧
       (gs.foldl (fun (q : BufState × List UrhoGeometry) g =>
          ((processGeometry opts nbones verts false q.1 g).1,
           q.2 ++ [(processGeometry opts nbones verts false q.1 g).2])) p).2.length
        = p.2.length + gs.length ∧
       (∀ k, k < (gs.foldl (fun (q : BufState × List UrhoGeometry) g =>
          ((processGeometry opts nbones verts false q.1 g).1,
           q.2 ++ [(processGeometry opts nbones verts false q.1 g).2])) p).2.length →
         GeomRefs k ((gs.foldl (fun (q : BufState × List UrhoGeometry) g =>
          ((processGeometry opts nbones verts false q.1 g).1,
           q.2 ++ [(processGeometry opts nbones verts false q.1 g).2])) p).2.getD
            k default))) := by
  intro gs
  induction gs with
  | nil =>
    intro p _ hlen _ hrefs
    refine ⟨?_, ?_, ?_, hrefs⟩
    · rw [List.foldl_nil, List.length_nil]
      omega
    · rw [List.foldl_nil, List.length_nil]
      omega
    · rw [List.foldl_nil, List.length_nil]
      omega
  | cons g gs ih =>
    intro p hall hlen hplen hrefs
    obtain ⟨hv, hi, hgr⟩ := processGeometry_split opts nbones verts p.1 g hlen
      (hall g (List.mem_cons_self g gs))
    have hv' : (processGeometry opts nbones verts false p.1 g).1.ibs.length
        = (processGeometry opts nbones verts false p.1 g).1.vbs.length := by
      rw [hv, hi]
    have hplen' : (processGeometry opts nbones verts false p.1 g).1.vbs.length
        = (p.2 ++ [(processGeometry opts nbones verts false p.1 g).2]).length := by
      rw [hv, List.length_append, List.length_singleton, hplen]
    have hrefs' : ∀ k, k < (p.2 ++ [(processGeometry opts nbones verts false p.1 g).2]).length →
        GeomRefs k ((p.2 ++ [(processGeometry opts nbones verts false p.1 g).2]).getD
          k default) := by
      intro k hk
      rw [List.length_append, List.length_singleton] at hk
      by_cases hlt : k < p.2.length
      · rw [List.getD_append _ _ _ _ hlt]
        exact hrefs k hlt
      · have hkeq : k = p.2.length := by omega
        rw [List.getD_append_right _ _ _ _ (by omega), hkeq, Nat.sub_self]
        rw [← hplen]
        exact hgr
    obtain ⟨q1, q2, q3, q4⟩ := ih
      ((processGeometry opts nbones verts false p.1 g).1,
       p.2 ++ [(processGeometry opts nbones verts false p.1 g).2])
      (fun g' h' => hall g' (List.mem_cons_of_mem g h')) hv' hplen' hrefs'
    refine ⟨?_, ?_, ?_, ?_⟩
    · rw [List.foldl_cons]
      refine q1.trans ?_
      show (processGeometry opts nbones verts false p.1 g).1.vbs.length + gs.length
        = p.1.vbs.length + (g :: gs).length
      rw [hv, List.length_cons]
      omega
    · rw [List.foldl_cons]
      refine q2.trans ?_
      show (processGeometry opts nbones verts false p.1 g).1.vbs.length + gs.length
        = p.1.vbs.length + (g :: gs).length
      rw [hv, List.length_cons]
      omega
    · rw [List.foldl_cons]
      refine q3.trans ?_
      show (p.2 ++ [(processGeometry opts nbones verts false p.1 g).2]).length + gs.length
        = p.2.length + (g :: gs).length
      rw [List.length_append, List.length_singleton, List.length_cons]
      omega
    · rw [List.foldl_cons]
      exact q4

theorem processLod_one (opts : UrhoExportOptions) (nbones : ℕ) (verts : List TVertex)
    (i : ℕ) (st : BufState) (geom : UrhoGeometry) (lod : TLodLevel)
    (h1 : st.vbs.length ≤ 1) (h2 : st.ibs.length = st.vbs.length) :
    (processLod opts nbones verts true i st geom lod).1.vbs.length = 1 ∧
    (processLod opts nbones verts true i st geom lod).1.ibs.length = 1 ∧
    ∃ ulod, (processLod opts nbones verts true i st geom lod).2.lodLevels
        = geom.lodLevels ++ [ulod] ∧ ulod.vertexBuffer = 0 ∧ ulod.indexBuffer = 0 := by
  have hcv : (st.vbs.isEmpty || (decide (i = 0) && !true)) = st.vbs.isEmpty := by
    rw [Bool.not_true, Bool.and_false, Bool.or_false]
  have hci : (st.ibs.isEmpty || (decide (i = 0) && !true)) = st.ibs.isEmpty := by
    rw [Bool.not_true, Bool.and_false, Bool.or_false]
  have hlv : (lodVbs1 true i st).length = 1 := by
    rw [lodVbs1_length, hcv]
    cases hvb : st.vbs with
    | nil => simp
    | cons a t =>
      rw [hvb] at h1
      have hne' : ¬ ((a :: t).isEmpty = true) := by simp
      rw [if_neg hne']
      rw [List.length_cons] at h1 ⊢
      omega
  have hli : (lodIbs1 true i st).length = 1 := by
    rw [lodIbs1_length, hci]
    cases hvb : st.ibs with
    | nil => simp
    | cons a t =>
      rw [hvb] at h2
      have hne' : ¬ ((a :: t).isEmpty = true) := by simp
      rw [if_neg hne']
      rw [List.length_cons] at h2 ⊢
      omega
  refine ⟨?_, ?_, ?_⟩
  · rw [processLod_vbs_length]
    exact hlv
  · rw [processLod_ibs_length]
    exact hli
  · obtain ⟨bm, c, hg⟩ := processLod_geom_shape opts nbones verts true i st geom lod
    refine ⟨_, by rw [hg], ?_, ?_⟩
    · show (lodVbs1 true i st).length - 1 = 0
      rw [hlv]
    · show (lodIbs1 true i st).length - 1 = 0
      rw [hli]

theorem geomFoldOne (opts : UrhoExportOptions) (nbones : ℕ) (verts : List TVertex) :
    ∀ (lods : List TLodLevel) (p : (BufState × UrhoGeometry) × ℕ),
      p.1.1.vbs.length = 1 →
      p.1.1.ibs.length = 1 →
      (∀ l ∈ p.1.2.lodLevels, l.vertexBuffer = 0 ∧ l.indexBuffer = 0) →
      ((lods.foldl (fun (q : (BufState × UrhoGeometry) × ℕ) lod =>
          (processLod opts nbones verts true q.2 q.1.1 q.1.2 lod, q.2 + 1))
          p).1.1.vbs.length = 1 ∧
       (lods.foldl (fun (q : (BufState × UrhoGeometry) × ℕ) lod =>
          (processLod opts nbones verts true q.2 q.1.1 q.1.2 lod, q.2 + 1))
          p).1.1.ibs.length = 1 ∧
       (∀ l ∈ (lods.foldl (fun (q : (BufState × UrhoGeometry) × ℕ) lod =>
          (processLod opts nbones verts true q.2 q.1.1 q.1.2 lod, q.2 + 1))
          p).1.2.lodLevels, l.vertexBuffer = 0 ∧ l.indexBuffer = 0)) := by
  intro lods
  induction lods with
  | nil => intro p hv hi hm; exact ⟨hv, hi, hm⟩
  | cons lod lods ih =>
    intro p hv hi hm
    rw [List.foldl_cons]
    obtain ⟨hv1, hi1, ulod, hll, hub, hib⟩ := processLod_one opts nbones verts p.2 p.1.1
      p.1.2 lod (by omega) (by omega)
    have hm1 : ∀ l ∈ (processLod opts nbones verts true p.2 p.1.1 p.1.2 lod).2.lodLevels,
        l.vertexBuffer = 0 ∧ l.indexBuffer = 0 := by
      intro l hl
      rw [hll] at hl
      rcases List.mem_append.mp hl with h | h
      · exact hm l h
      · rw [List.mem_singleton.mp h]
        exact ⟨hub, hib⟩
    exact ih (processLod opts nbones verts true p.2 p.1.1 p.1.2 lod, p.2 + 1) hv1 hi1 hm1

theorem processGeometry_one (opts : UrhoExportOptions) (nbones : ℕ)
    (verts : List TVertex) (st : BufState) (g : TGeometry)
    (h1 : st.vbs.length ≤ 1) (h2 : st.ibs.length = st.vbs.length) (hne : g.lodLevels ≠ []) :
    (processGeometry opts nbones verts true st g).1.vbs.length = 1 ∧
    (processGeometry opts nbones verts true st g).1.ibs.length = 1 ∧
    ∀ l ∈ (processGeometry opts nbones verts true st g).2.lodLevels,
      l.vertexBuffer = 0 ∧ l.indexBuffer = 0 := by
  obtain ⟨lod0, rest, hg0⟩ : ∃ a t, g.lodLevels = a :: t := by
    cases hl : g.lodLevels with
    | nil => exact absurd hl hne
    | cons a t => exact ⟨a, t, rfl⟩
  unfold processGeometry
  rw [hg0, List.foldl_cons]
  obtain ⟨hv1, hi1, ulod, hll, hub, hib⟩ := processLod_one opts nbones verts 0 st
    { boneMap := [], lodLevels := [], center := [0, 0, 0] } lod0 h1 h2
  have hm1 : ∀ l ∈ (processLod opts nbones verts true 0 st
      { boneMap := [], lodLevels := [], center := [0, 0, 0] } lod0).2.lodLevels,
      l.vertexBuffer = 0 ∧ l.indexBuffer = 0 := by
    intro l hl
    rw [hll] at hl
    rcases List.mem_append.mp hl with h | h
    · exact absurd h (List.not_mem_nil l)
    · rw [List.mem_singleton.mp h]
      exact ⟨hub, hib⟩
  exact geomFoldOne opts nbones verts rest
    (processLod opts nbones verts true 0 st
      { boneMap := [], lodLevels := [], center := [0, 0, 0] } lod0, 0 + 1) hv1 hi1 hm1

theorem exportFoldOne (opts : UrhoExportOptions) (nbones : ℕ) (verts : List TVertex) :
    ∀ (gs : List TGeometry) (p : BufState × List UrhoGeometry),
      (∀ g ∈ gs, g.lodLevels ≠ []) →
      p.1.vbs.length = 1 →
      p.1.ibs.length = 1 →
      (∀ geom ∈ p.2, ∀ l ∈ geom.lodLevels, l.vertexBuffer = 0 ∧ l.indexBuffer = 0) →
      ((gs.foldl (fun (q : BufState × List UrhoGeometry) g =>
          ((processGeometry opts nbones verts true q.1 g).1,
           q.2 ++ [(processGeometry opts nbones verts true q.1 g).2])) p).1.vbs.length
        = 1 ∧
       (gs.foldl (fun (q : BufState × List UrhoGeometry) g =>
          ((processGeometry opts nbones verts true q.1 g).1,
           q.2 ++ [(processGeometry opts nbones verts true q.1 g).2])) p).1.ibs.length
        = 1 ∧
       (∀ geom ∈ (gs.foldl (fun (q : BufState × List UrhoGeometry) g =>
          ((processGeometry opts nbones verts true q.1 g).1,
           q.2 ++ [(processGeometry opts nbones verts true q.1 g).2])) p).2,
         ∀ l ∈ geom.lodLevels, l.vertexBuffer = 0 ∧ l.indexBuffer = 0)) := by
  intro gs
  induction gs with
  | nil => intro p _ hv hi hm; exact ⟨hv, hi, hm⟩
  | cons g gs ih =>
    intro p hall hv hi hm
    rw [List.foldl_cons]
    obtain ⟨hv1, hi1, hm1⟩ := processGeometry_one opts nbones verts p.1 g (by omega)
      (by omega) (hall g (List.mem_cons_self g gs))
    have hm' : ∀ geom ∈ p.2 ++ [(processGeometry opts nbones verts true p.1 g).2],
        ∀ l ∈ geom.lodLevels, l.vertexBuffer = 0 ∧ l.indexBuffer = 0 := by
      intro geom hgeom
      rcases List.mem_append.mp hgeom with h | h
      · exact hm geom h
      · rw [List.mem_singleton.mp h]
        exact hm1
    exact ih ((processGeometry opts nbones verts true p.1 g).1,
        p.2 ++ [(processGeometry opts nbones verts true p.1 g).2])
      (fun g' h' => hall g' (List.mem_cons_of_mem g h')) hv1 hi1 hm'

theorem dedupStep_vertices_eq (strict : Bool) (verts : List TVertex) (acc : DedupAcc)
    (tIdx : ℕ) :
    (dedupStep strict verts acc tIdx).vb.vertices =
      match dedupFound strict verts acc tIdx with
      | some _ => acc.vb.vertices
      | none => acc.vb.vertices ++ [dedupUV verts acc tIdx] := rfl

theorem dedupStep_vmask_eq (strict : Bool) (verts : List TVertex) (acc : DedupAcc)
    (tIdx : ℕ) :
    (dedupStep strict verts acc tIdx).vb.elementMask =
      (updateBufferMask acc.vb.elementMask (tVertexMask (verts.getD tIdx default))).1 := rfl

theorem dedupStep_vmap_eq (strict : Bool) (verts : List TVertex) (acc : DedupAcc)
    (tIdx : ℕ) :
    (dedupStep strict verts acc tIdx).vmap =
      match dedupFound strict verts acc tIdx with
      | some _ => acc.vmap
      | none => alistSet acc.vmap (dedupUV verts acc tIdx).pos
          (((alistLookup acc.vmap (dedupUV verts acc tIdx).pos).getD []) ++
            [acc.vb.vertices.length]) := rfl

theorem dedupStep_indexMap_eq (strict : Bool) (verts : List TVertex) (acc : DedupAcc)
    (tIdx : ℕ) :
    (dedupStep strict verts acc tIdx).indexMap =
      if (alistLookup acc.indexMap tIdx).isSome then acc.indexMap
      else acc.indexMap ++
        [(tIdx, match dedupFound strict verts acc tIdx with
          | some ivl => ivl
          | none => acc.vb.vertices.length)] := rfl

theorem processLod_ibs_eq (opts : UrhoExportOptions) (nbones : ℕ) (verts : List TVertex)
    (useOne : Bool) (i : ℕ) (st : BufState) (geom : UrhoGeometry) (lod : TLodLevel) :
    (processLod opts nbones verts useOne i st geom lod).1.ibs =
      (lodIbs1 useOne i st).dropLast ++
        [{ (lodIbs1 useOne i st).getLast?.getD emptyIB with
           indexes := ((lodIbs1 useOne i st).getLast?.getD emptyIB).indexes ++
             lodEmit (lodAcc opts verts useOne i st lod).indexMap lod.triangleList }] := rfl

theorem processLod_vmap_eq (opts : UrhoExportOptions) (nbones : ℕ) (verts : List TVertex)
    (useOne : Bool) (i : ℕ) (st : BufState) (geom : UrhoGeometry) (lod : TLodLevel) :
    (processLod opts nbones verts useOne i st geom lod).1.vmap =
      (lodAcc opts verts useOne i st lod).vmap := rfl

theorem processLod_center_eq (opts : UrhoExportOptions) (nbones : ℕ) (verts : List TVertex)
    (useOne : Bool) (i : ℕ) (st : BufState) (geom : UrhoGeometry) (lod : TLodLevel) :
    (processLod opts nbones verts useOne i st geom lod).2.center =
      lodCenter opts verts useOne i st geom lod := rfl

theorem alistLookup_mem {α β : Type} [DecidableEq α] :
    ∀ {m : List (α × β)} {k : α} {v : β}, alistLookup m k = some v → (k, v) ∈ m := by
  intro m
  induction m with
  | nil => intro k v h; exact Option.noConfusion h
  | cons p ps ih =>
    intro k v h
    rw [alistLookup] at h
    by_cases h1 : p.1 = k
    · rw [if_pos h1] at h
      have h2 : p = (k, v) := by
        obtain ⟨a, b⟩ := p
        obtain ⟨rfl, rfl⟩ : a = k ∧ b = v := ⟨h1, Option.some.inj h⟩
        rfl
      rw [← h2]
      exact List.mem_cons_self p ps
    · rw [if_neg h1] at h
      exact List.mem_cons_of_mem p (ih h)

theorem alistLookup_append_some {α β : Type} [DecidableEq α] :
    ∀ {m : List (α × β)} {k : α} {v : β}, alistLookup m k = some v →
      ∀ (l : List (α × β)), alistLookup (m ++ l) k = some v := by
  intro m
  induction m with
  | nil => intro k v h; exact Option.noConfusion h
  | cons p ps ih =>
    intro k v h l
    rw [alistLookup] at h
    rw [List.cons_append, alistLookup]
    by_cases h1 : p.1 = k
    · rw [if_pos h1] at h ⊢
      exact h
    · rw [if_neg h1] at h ⊢
      exact ih h l

theorem alistLookup_append_none {α β : Type} [DecidableEq α] :
    ∀ {m : List (α × β)} {k : α}, alistLookup m k = none →
      ∀ (v : β), alistLookup (m ++ [(k, v)]) k = some v := by
  intro m
  induction m with
  | nil =>
    intro k _ v
    rw [List.nil_append, alistLookup]
    rw [if_pos rfl]
  | cons p ps ih =>
    intro k h v
    rw [alistLookup] at h
    rw [List.cons_append, alistLookup]
    by_cases h1 : p.1 = k
    · rw [if_pos h1] at h
      exact Option.noConfusion h
    · rw [if_neg h1] at h ⊢
      exact ih h v

theorem alistSet_mem {α β : Type} [DecidableEq α] :
    ∀ {m : List (α × β)} {k : α} {v : β} {q : α × β}, q ∈ alistSet m k v →
      q ∈ m ∨ q = (k, v) := by
  intro m
  induction m with
  | nil =>
    intro k v q h
    rw [alistSet] at h
    exact Or.inr (List.mem_singleton.mp h)
  | cons p ps ih =>
    intro k v q h
    rw [alistSet] at h
    by_cases h1 : p.1 = k
    · rw [if_pos h1] at h
      rcases List.mem_cons.mp h with h2 | h2
      · exact Or.inr h2
      · exact Or.inl (List.mem_cons_of_mem p h2)
    · rw [if_neg h1] at h
      rcases List.mem_cons.mp h with h2 | h2
      · rw [h2]
        exact Or.inl (List.mem_cons_self p ps)
      · rcases ih h2 with h3 | h3
        · exact Or.inl (List.mem_cons_of_mem p h3)
        · exact Or.inr h3

theorem land_mono (a m b : ℕ) (h : (a &&& m) &&& b ≠ 0) : a &&& b ≠ 0 := by
  intro hc
  apply h
  rw [Nat.land_assoc, Nat.land_comm m b, ← Nat.land_assoc, hc, Nat.zero_and]

theorem updateBufferMask_fst_isSome (om : Option ℕ) (m : ℕ) :
    (updateBufferMask om m).1.isSome = true := by
  cases om with
  | none => rfl
  | some bm =>
    simp only [updateBufferMask]
    by_cases h : bm = m
    · rw [if_pos h]
      rfl
    · rw [if_neg h]
      rfl

theorem updateBufferMask_imp (bm m : ℕ) :
    ∀ b, (updateBufferMask (some bm) m).1.getD 0 &&& b ≠ 0 → bm &&& b ≠ 0 := by
  intro b
  simp only [updateBufferMask]
  by_cases h : bm = m
  · rw [if_pos h]
    exact id
  · rw [if_neg h]
    exact land_mono bm m b

theorem vbExt_refl (vb : UrhoVertexBuffer) : VbExt vb vb :=
  ⟨le_refl _, fun _ _ => rfl, id, fun _ _ => id⟩

theorem vbExt_trans {a b c : UrhoVertexBuffer} (h1 : VbExt a b) (h2 : VbExt b c) :
    VbExt a c := by
  obtain ⟨l1, p1, s1, m1⟩ := h1
  obtain ⟨l2, p2, s2, m2⟩ := h2
  refine ⟨le_trans l1 l2, ?_, fun h => s2 (s1 h), ?_⟩
  · intro ix hix
    rw [p2 ix (lt_of_lt_of_le hix l1), p1 ix hix]
  · intro h x hx
    exact m1 h x (m2 (s1 h) x hx)

theorem stExt_refl (st : BufState) : StExt st st :=
  ⟨le_refl _, fun k _ => vbExt_refl _, le_refl _, fun k _ => List.prefix_refl _⟩

theorem stExt_trans {a b c : BufState} (h1 : StExt a b) (h2 : StExt b c) : StExt a c := by
  obtain ⟨l1, v1, i1, b1⟩ := h1
  obtain ⟨l2, v2, i2, b2⟩ := h2
  refine ⟨le_trans l1 l2, ?_, le_trans i1 i2, ?_⟩
  · intro k hk
    exact vbExt_trans (v1 k hk) (v2 k (lt_of_lt_of_le hk l1))
  · intro k hk
    exact List.IsPrefix.trans (b1 k hk) (b2 k (lt_of_lt_of_le hk i1))

theorem prefix_getD {α : Type} [Inhabited α] {l₁ l₂ : List α} (h : l₁ <+: l₂)
    {k : ℕ} (hk : k < l₁.length) (d : α) : l₂.getD k d = l₁.getD k d := by
  obtain ⟨t, rfl⟩ := h
  exact List.getD_append _ _ _ _ hk

theorem prefix_slice {α : Type} {l l' : List α} (h : l <+: l') {a c : ℕ}
    (hac : a + c ≤ l.length) : (l'.drop a).take c = (l.drop a).take c := by
  obtain ⟨t, rfl⟩ := h
  rw [List.drop_append_eq_append_drop, Nat.sub_eq_zero_of_le (by omega), List.drop_zero]
  rw [List.take_append_eq_append_take]
  have hc : c - (l.drop a).length = 0 := by
    rw [List.length_drop]
    omega
  rw [hc, List.take_zero, List.append_nil]

theorem getD_last_concat {α : Type} [Inhabited α] (l : List α) (x d : α) :
    (l ++ [x]).getD l.length d = x := by
  rw [List.getD_append_right _ _ _ _ (le_refl _), Nat.sub_self]
  rfl

theorem getLast_getD_eq {α : Type} [Inhabited α] (l : List α) (h : l ≠ []) (d : α) :
    l.getLast?.getD d = l.getD (l.length - 1) d := by
  obtain ⟨m, a, rfl⟩ : ∃ m a, l = m ++ [a] := by
    rcases List.eq_nil_or_concat l with h2 | ⟨m, a, h2⟩
    · exact absurd h2 h
    · rw [List.concat_eq_append] at h2
      exact ⟨m, a, h2⟩
  rw [List.getLast?_concat, List.length_append, List.length_singleton]
  have h2 : m.length + 1 - 1 = m.length := by omega
  rw [h2, getD_last_concat]
  rfl

theorem foldl_pair_snd_map {α β γ δ : Type} (f : γ → α → γ) (g : γ → α → β) (h : β → δ)
    (e : α → δ) (hc : ∀ c a, h (g c a) = e a) :
    ∀ (l : List α) (c : γ) (out : List β),
      ((l.foldl (fun (acc : γ × List β) p => (f acc.1 p, acc.2 ++ [g acc.1 p])) (c, out)).2).map h
        = out.map h ++ l.map e := by
  intro l
  induction l with
  | nil => intro c out; rw [List.foldl_nil, List.map_nil, List.append_nil]
  | cons a l ih =>
    intro c out
    rw [List.foldl_cons]
    rw [ih (f c a) (out ++ [g c a])]
    simp [hc]

theorem boneRemapPass_pos_map (bm : List ℕ) (vs : List UrhoVertex) :
    ((boneRemapPass bm vs).2).map (fun v => v.pos) = vs.map (fun v => v.pos) := by
  unfold boneRemapPass
  have h := foldl_pair_snd_map (fun c (v : UrhoVertex) => (remapVertex c v).1)
    (fun c (v : UrhoVertex) => (remapVertex c v).2) (fun v => v.pos) (fun v => v.pos)
    (fun c v => rfl) vs bm []
  simpa using h

theorem boneRemapPass_length (bm : List ℕ) (vs : List UrhoVertex) :
    (boneRemapPass bm vs).2.length = vs.length := by
  unfold boneRemapPass
  have h := foldl_pair_snd_length (fun c (v : UrhoVertex) => (remapVertex c v).1)
    (fun c (v : UrhoVertex) => (remapVertex c v).2) vs bm []
  simpa using h

theorem map_eq_getD_pos {l l' : List UrhoVertex}
    (hm : l'.map (fun v => v.pos) = l.map (fun v => v.pos)) (hl : l'.length = l.length)
    (ix : ℕ) : (l'.getD ix default).pos = (l.getD ix default).pos := by
  by_cases hix : ix < l.length
  · have hix2 : ix < l'.length := by rw [hl]; exact hix
    rw [List.getD_eq_getElem l' default hix2, List.getD_eq_getElem l default hix]
    have h1 : (l'.map (fun v => v.pos))[ix]? = (l.map (fun v => v.pos))[ix]? := by
      rw [hm]
    rw [List.getElem?_map, List.getElem?_map, List.getElem?_eq_getElem hix2,
      List.getElem?_eq_getElem hix] at h1
    simp only [Option.map_some'] at h1
    exact Option.some.inj h1
  · have h1 : l.length ≤ ix := by omega
    have h2 : l'.length ≤ ix := by omega
    rw [List.getD_eq_default l' default h2, List.getD_eq_default l default h1]

theorem boneRemapPass_getD_pos (bm : List ℕ) (vs : List UrhoVertex) (ix : ℕ) :
    ((boneRemapPass bm vs).2.getD ix default).pos = (vs.getD ix default).pos :=
  map_eq_getD_pos (boneRemapPass_pos_map bm vs) (boneRemapPass_length bm vs) ix

theorem dedupStep_vbExt (strict : Bool) (verts : List TVertex) (acc : DedupAcc)
    (tIdx : ℕ) : VbExt acc.vb (dedupStep strict verts acc tIdx).vb := by
  refine ⟨?_, ?_, ?_, ?_⟩
  · rw [dedupStep_vertices_eq]
    cases dedupFound strict verts acc tIdx with
    | some ivl => exact le_refl _
    | none =>
      show acc.vb.vertices.length ≤ (acc.vb.vertices ++ [dedupUV verts acc tIdx]).length
      rw [List.length_append, List.length_singleton]
      omega
  · intro ix hix
    rw [dedupStep_vertices_eq]
    cases dedupFound strict verts acc tIdx with
    | some ivl => rfl
    | none =>
      show ((acc.vb.vertices ++ [dedupUV verts acc tIdx]).getD ix default).pos = _
      rw [List.getD_append _ _ _ _ hix]
  · intro _ hc
    rw [dedupStep_vmask_eq] at hc
    have h2 := updateBufferMask_fst_isSome acc.vb.elementMask
      (tVertexMask (verts.getD tIdx default))
    rw [hc] at h2
    exact Bool.noConfusion h2
  · intro h b hb
    rw [dedupStep_vmask_eq] at hb
    obtain ⟨bm, hbm⟩ := Option.ne_none_iff_exists'.mp h
    rw [hbm] at hb ⊢
    exact updateBufferMask_imp bm _ b hb

theorem dedupFold_vbExt (strict : Bool) (verts : List TVertex) :
    ∀ (l : List ℕ) (acc : DedupAcc),
      VbExt acc.vb ((l.foldl (dedupStep strict verts) acc)).vb := by
  intro l
  induction l with
  | nil => intro acc; exact vbExt_refl _
  | cons x xs ih =>
    intro acc
    rw [List.foldl_cons]
    exact vbExt_trans (dedupStep_vbExt strict verts acc x) (ih _)

theorem lodFinalVB_vbExt (opts : UrhoExportOptions) (nbones : ℕ) (verts : List TVertex)
    (useOne : Bool) (i : ℕ) (st : BufState) (geom : UrhoGeometry) (lod : TLodLevel) :
    VbExt (lodAcc opts verts useOne i st lod).vb
      (lodFinalVB opts nbones verts useOne i st geom lod) := by
  unfold lodFinalVB
  split
  · refine ⟨?_, ?_, fun h => h, fun _ b => id⟩
    · show (lodAcc opts verts useOne i st lod).vb.vertices.length ≤
        (boneRemapPass geom.boneMap (lodAcc opts verts useOne i st lod).vb.vertices).2.length
      exact le_of_eq (boneRemapPass_length _ _).symm
    · intro ix _
      show ((boneRemapPass geom.boneMap
          (lodAcc opts verts useOne i st lod).vb.vertices).2.getD ix default).pos = _
      exact boneRemapPass_getD_pos _ _ _
  · exact vbExt_refl _

theorem processLod_stExt (opts : UrhoExportOptions) (nbones : ℕ) (verts : List TVertex)
    (useOne : Bool) (i : ℕ) (st : BufState) (geom : UrhoGeometry) (lod : TLodLevel) :
    StExt st (processLod opts nbones verts useOne i st geom lod).1 := by
  refine ⟨?_, ?_, ?_, ?_⟩
  · rw [processLod_vbs_length, lodVbs1_length]
    by_cases h : (st.vbs.isEmpty || (decide (i = 0) && !useOne)) = true
    · rw [if_pos h]
      omega
    · rw [if_neg h]
  · intro k hk
    rw [processLod_vbs_eq]
    unfold lodVbs1
    by_cases hco : (st.vbs.isEmpty || (decide (i = 0) && !useOne)) = true
    · rw [if_pos hco, List.dropLast_concat, List.getD_append _ _ _ _ hk]
      exact vbExt_refl _
    · rw [if_neg hco]
      have hne : st.vbs ≠ [] := fun hc => hco (by rw [hc]; rfl)
      have hlen1 : 0 < st.vbs.length := List.length_pos.mpr hne
      by_cases hk1 : k < st.vbs.length - 1
      · rw [List.getD_append _ _ _ _ (by rw [List.length_dropLast]; omega)]
        have he := prefix_getD (List.dropLast_prefix st.vbs)
          (show k < st.vbs.dropLast.length by rw [List.length_dropLast]; omega) emptyVB
        rw [he]
        exact vbExt_refl _
      · have hk2 : k = st.vbs.length - 1 := by omega
        have hdl : st.vbs.dropLast.length = st.vbs.length - 1 := List.length_dropLast _
        rw [List.getD_append_right _ _ _ _ (by rw [hdl]; omega)]
        have hksub : k - st.vbs.dropLast.length = 0 := by rw [hdl]; omega
        rw [hksub]
        have hlast : st.vbs.getD k emptyVB = st.vbs.getLast?.getD emptyVB := by
          rw [getLast_getD_eq st.vbs hne emptyVB, hk2]
        rw [hlast]
        show VbExt (st.vbs.getLast?.getD emptyVB)
          (lodFinalVB opts nbones verts useOne i st geom lod)
        have hacc0 : (lodVbs1 useOne i st).getLast?.getD emptyVB
            = st.vbs.getLast?.getD emptyVB := by
          unfold lodVbs1
          rw [if_neg hco]
        have h3 : VbExt ((lodVbs1 useOne i st).getLast?.getD emptyVB)
            (lodAcc opts verts useOne i st lod).vb := by
          unfold lodAcc
          exact dedupFold_vbExt (decide (i = 0) || opts.useStrictLods) verts lod.indexSet
            ⟨(lodVbs1 useOne i st).getLast?.getD emptyVB,
             if st.vbs.isEmpty || (decide (i = 0) && !useOne) then [] else st.vmap,
             st.lastVertex, [], st.bbox, st.maskErrors, st.maskErrorIndices⟩
        rw [← hacc0]
        exact vbExt_trans h3 (lodFinalVB_vbExt opts nbones verts useOne i st geom lod)
  · rw [processLod_ibs_length, lodIbs1_length]
    by_cases h : (st.ibs.isEmpty || (decide (i = 0) && !useOne)) = true
    · rw [if_pos h]
      omega
    · rw [if_neg h]
  · intro k hk
    rw [processLod_ibs_eq]
    unfold lodIbs1
    by_cases hco : (st.ibs.isEmpty || (decide (i = 0) && !useOne)) = true
    · rw [if_pos hco, List.dropLast_concat, List.getD_append _ _ _ _ hk]
    · rw [if_neg hco]
      have hne : st.ibs ≠ [] := fun hc => hco (by rw [hc]; rfl)
      have hlen1 : 0 < st.ibs.length := List.length_pos.mpr hne
      by_cases hk1 : k < st.ibs.length - 1
      · rw [List.getD_append _ _ _ _ (by rw [List.length_dropLast]; omega)]
        have he := prefix_getD (List.dropLast_prefix st.ibs)
          (show k < st.ibs.dropLast.length by rw [List.length_dropLast]; omega) emptyIB
        rw [he]
      · have hk2 : k = st.ibs.length - 1 := by omega
        have hdl : st.ibs.dropLast.length = st.ibs.length - 1 := List.length_dropLast _
        rw [List.getD_append_right _ _ _ _ (by rw [hdl]; omega)]
        have hksub : k - st.ibs.dropLast.length = 0 := by rw [hdl]; omega
        rw [hksub]
        have hlast : st.ibs.getD k emptyIB = st.ibs.getLast?.getD emptyIB := by
          rw [getLast_getD_eq st.ibs hne emptyIB, hk2]
        rw [hlast]
        show (st.ibs.getLast?.getD emptyIB).indexes <+:
          (st.ibs.getLast?.getD emptyIB).indexes ++
            lodEmit (lodAcc opts verts useOne i st lod).indexMap lod.triangleList
        exact List.prefix_append _ _

theorem geomFold_stExt (opts : UrhoExportOptions) (nbones : ℕ) (verts : List TVertex)
    (useOne : Bool) :
    ∀ (lods : List TLodLevel) (p : (BufState × UrhoGeometry) × ℕ),
      StExt p.1.1 ((lods.foldl (fun (q : (BufState × UrhoGeometry) × ℕ) lod =>
        (processLod opts nbones verts useOne q.2 q.1.1 q.1.2 lod, q.2 + 1)) p)).1.1 := by
  intro lods
  induction lods with
  | nil => intro p; exact stExt_refl _
  | cons lod lods ih =>
    intro p
    rw [List.foldl_cons]
    exact stExt_trans (processLod_stExt opts nbones verts useOne p.2 p.1.1 p.1.2 lod)
      (ih (processLod opts nbones verts useOne p.2 p.1.1 p.1.2 lod, p.2 + 1))

theorem processGeometry_stExt (opts : UrhoExportOptions) (nbones : ℕ)
    (verts : List TVertex) (useOne : Bool) (st : BufState) (g : TGeometry) :
    StExt st (processGeometry opts nbones verts useOne st g).1 := by
  unfold processGeometry
  exact geomFold_stExt opts nbones verts useOne g.lodLevels
    ((st, { boneMap := [], lodLevels := [], center := [0, 0, 0] }), 0)

theorem exportFold_stExt (opts : UrhoExportOptions) (nbones : ℕ) (verts : List TVertex)
    (useOne : Bool) :
    ∀ (gs : List TGeometry) (p : BufState × List UrhoGeometry),
      StExt p.1 ((gs.foldl (fun (q : BufState × List UrhoGeometry) g =>
        ((processGeometry opts nbones verts useOne q.1 g).1,
         q.2 ++ [(processGeometry opts nbones verts useOne q.1 g).2])) p)).1 := by
  intro gs
  induction gs with
  | nil => intro p; exact stExt_refl _
  | cons g gs ih =>
    intro p
    rw [List.foldl_cons]
    exact stExt_trans (processGeometry_stExt opts nbones verts useOne p.1 g)
      (ih ((processGeometry opts nbones verts useOne p.1 g).1,
        p.2 ++ [(processGeometry opts nbones verts useOne p.1 g).2]))

theorem stExt_geomCenterOK {st st' : BufState} {geom : UrhoGeometry}
    (hext : StExt st st') (hok : GeomCenterOK st geom) : GeomCenterOK st' geom := by
  intro l0 hl0
  obtain ⟨b1, b2, b3, b4, b5⟩ := hok l0 hl0
  obtain ⟨hvl, hvb, hil, hib⟩ := hext
  have hpre := hib l0.indexBuffer b2
  have hslice : sliceOf st' l0 = sliceOf st l0 := by
    unfold sliceOf
    exact prefix_slice hpre b3
  obtain ⟨hlen2, hpos2, hsome2, himp2⟩ := hvb l0.vertexBuffer b1
  refine ⟨lt_of_lt_of_le b1 hvl, lt_of_lt_of_le b2 hil, le_trans b3 hpre.length_le, ?_, ?_⟩
  · intro ix hix
    rw [hslice] at hix
    exact lt_of_lt_of_le (b4 ix hix) hlen2
  · intro hcnt
    obtain ⟨hsome, hcen⟩ := b5 hcnt
    refine ⟨hsome2 hsome, ?_⟩
    intro hposbit
    rw [hcen (himp2 hsome ELEMENT_POSITION hposbit), hslice]
    congr 1
    apply List.map_congr_left
    intro ix hix
    unfold posAt
    rw [hpos2 ix (b4 ix hix)]

theorem geomCenterOK_congr {st : BufState} {g g' : UrhoGeometry}
    (hh : g'.lodLevels.head? = g.lodLevels.head?) (hc : g'.center = g.center)
    (hok : GeomCenterOK st g) : GeomCenterOK st g' := by
  intro l0 hl0
  rw [hh] at hl0
  obtain ⟨b1, b2, b3, b4, b5⟩ := hok l0 hl0
  refine ⟨b1, b2, b3, b4, ?_⟩
  intro hcnt
  obtain ⟨hs, hcen⟩ := b5 hcnt
  exact ⟨hs, fun hp => by rw [hc, hcen hp]⟩

theorem bucket_bound {acc : DedupAcc}
    (h : ∀ p ∈ acc.vmap, ∀ j ∈ p.2, j < acc.vb.vertices.length) (key : Option (List ℚ)) :
    ∀ j ∈ (alistLookup acc.vmap key).getD [], j < acc.vb.vertices.length := by
  intro j hj
  cases hb : alistLookup acc.vmap key with
  | none =>
    rw [hb] at hj
    exact absurd hj (List.not_mem_nil j)
  | some b =>
    rw [hb] at hj
    exact h (key, b) (alistLookup_mem hb) j hj

theorem dedupFound_mem {strict : Bool} {verts : List TVertex} {acc : DedupAcc}
    {tIdx ivl : ℕ} (h : dedupFound strict verts acc tIdx = some ivl) :
    ivl ∈ (alistLookup acc.vmap (dedupUV verts acc tIdx).pos).getD [] := by
  unfold dedupFound at h
  split at h
  · unfold findStrictMatch at h
    exact List.mem_of_find?_eq_some h
  · unfold findLodMatch at h
    exact ((findLodMatch_inv acc.vb.vertices _ (dedupUV verts acc tIdx)).1 ivl h).1

theorem dedupStep_dedupInv {strict : Bool} {verts : List TVertex} {acc : DedupAcc}
    (h : DedupInv acc) (tIdx : ℕ) : DedupInv (dedupStep strict verts acc tIdx) := by
  obtain ⟨him, hvm⟩ := h
  have hnewlen : acc.vb.vertices.length ≤
      (dedupStep strict verts acc tIdx).vb.vertices.length :=
    (dedupStep_vbExt strict verts acc tIdx).1
  constructor
  · intro p hp
    rw [dedupStep_indexMap_eq] at hp
    by_cases hs : (alistLookup acc.indexMap tIdx).isSome
    · rw [if_pos hs] at hp
      exact lt_of_lt_of_le (him p hp) hnewlen
    · rw [if_neg hs] at hp
      rcases List.mem_append.mp hp with h2 | h2
      · exact lt_of_lt_of_le (him p h2) hnewlen
      · rw [List.mem_singleton.mp h2]
        show (match dedupFound strict verts acc tIdx with
          | some ivl => ivl
          | none => acc.vb.vertices.length) <
          (dedupStep strict verts acc tIdx).vb.vertices.length
        cases hf : dedupFound strict verts acc tIdx with
        | some ivl =>
          exact lt_of_lt_of_le (bucket_bound hvm _ ivl (dedupFound_mem hf)) hnewlen
        | none =>
          rw [dedupStep_vertices_eq, hf]
          show acc.vb.vertices.length <
            (acc.vb.vertices ++ [dedupUV verts acc tIdx]).length
          rw [List.length_append, List.length_singleton]
          omega
  · intro p hp j hj
    rw [dedupStep_vmap_eq] at hp
    cases hf : dedupFound strict verts acc tIdx with
    | some ivl =>
      rw [hf] at hp
      exact lt_of_lt_of_le (hvm p hp j hj) hnewlen
    | none =>
      rw [hf] at hp
      have hp2 : p ∈ alistSet acc.vmap (dedupUV verts acc tIdx).pos
          (((alistLookup acc.vmap (dedupUV verts acc tIdx).pos).getD []) ++
            [acc.vb.vertices.length]) := hp
      have hlen2 : (dedupStep strict verts acc tIdx).vb.vertices.length
          = acc.vb.vertices.length + 1 := by
        rw [dedupStep_vertices_eq, hf]
        show (acc.vb.vertices ++ [dedupUV verts acc tIdx]).length = _
        rw [List.length_append, List.length_singleton]
      rcases alistSet_mem hp2 with h2 | h2
      · exact lt_of_lt_of_le (hvm p h2 j hj) hnewlen
      · rw [hlen2]
        have hj2 : j ∈ ((alistLookup acc.vmap (dedupUV verts acc tIdx).pos).getD []) ++
            [acc.vb.vertices.length] := by
          rw [h2] at hj
          exact hj
        rcases List.mem_append.mp hj2 with h3 | h3
        · exact lt_trans (bucket_bound hvm _ j h3) (by omega)
        · rw [List.mem_singleton.mp h3]
          omega

theorem dedupFold_dedupInv (strict : Bool) (verts : List TVertex) :
    ∀ (l : List ℕ) (acc : DedupAcc), DedupInv acc →
      DedupInv ((l.foldl (dedupStep strict verts) acc)) := by
  intro l
  induction l with
  | nil => intro acc h; exact h
  | cons x xs ih =>
    intro acc h
    rw [List.foldl_cons]
    exact ih _ (dedupStep_dedupInv h x)

theorem dedupStep_lookup_mono {strict : Bool} {verts : List TVertex} {acc : DedupAcc}
    {tIdx t : ℕ} (h : (alistLookup acc.indexMap t).isSome) :
    (alistLookup (dedupStep strict verts acc tIdx).indexMap t).isSome := by
  rw [dedupStep_indexMap_eq]
  by_cases hs : (alistLookup acc.indexMap tIdx).isSome
  · rw [if_pos hs]
    exact h
  · rw [if_neg hs]
    obtain ⟨v, hv⟩ := Option.isSome_iff_exists.mp h
    rw [alistLookup_append_some hv]
    rfl

theorem dedupStep_lookup_self (strict : Bool) (verts : List TVertex) (acc : DedupAcc)
    (tIdx : ℕ) : (alistLookup (dedupStep strict verts acc tIdx).indexMap tIdx).isSome := by
  rw [dedupStep_indexMap_eq]
  by_cases hs : (alistLookup acc.indexMap tIdx).isSome
  · rw [if_pos hs]
    exact hs
  · rw [if_neg hs]
    have hnone : alistLookup acc.indexMap tIdx = none := by
      cases hx : alistLookup acc.indexMap tIdx with
      | none => rfl
      | some v => rw [hx] at hs; exact absurd rfl hs
    rw [alistLookup_append_none hnone _]
    rfl

theorem dedupFold_lookup_mono (strict : Bool) (verts : List TVertex) :
    ∀ (l : List ℕ) (acc : DedupAcc) {t : ℕ},
      (alistLookup acc.indexMap t).isSome →
      (alistLookup ((l.foldl (dedupStep strict verts) acc)).indexMap t).isSome := by
  intro l
  induction l with
  | nil => intro acc t h; exact h
  | cons x xs ih =>
    intro acc t h
    rw [List.foldl_cons]
    exact ih _ (dedupStep_lookup_mono h)

theorem dedupFold_cov (strict : Bool) (verts : List TVertex) :
    ∀ (l : List ℕ) (acc : DedupAcc) (t : ℕ), t ∈ l →
      (alistLookup ((l.foldl (dedupStep strict verts) acc)).indexMap t).isSome := by
  intro l
  induction l with
  | nil => intro acc t ht; exact absurd ht (List.not_mem_nil t)
  | cons x xs ih =>
    intro acc t ht
    rw [List.foldl_cons]
    rcases List.mem_cons.mp ht with h | h
    · rw [h]
      exact dedupFold_lookup_mono strict verts xs _
        (dedupStep_lookup_self strict verts acc x)
    · exact ih _ t h

theorem dedupFold_vmask_isSome (strict : Bool) (verts : List TVertex) (l : List ℕ)
    (acc : DedupAcc) (h : l ≠ []) :
    ((l.foldl (dedupStep strict verts) acc).vb.elementMask).isSome = true := by
  obtain ⟨m, a, hma⟩ : ∃ m a, l = m ++ [a] := by
    rcases List.eq_nil_or_concat l with h2 | ⟨m, a, h2⟩
    · exact absurd h2 h
    · rw [List.concat_eq_append] at h2
      exact ⟨m, a, h2⟩
  rw [hma, List.foldl_append, List.foldl_cons, List.foldl_nil, dedupStep_vmask_eq]
  exact updateBufferMask_fst_isSome _ _

theorem lodFinalVB_length (opts : UrhoExportOptions) (nbones : ℕ) (verts : List TVertex)
    (useOne : Bool) (i : ℕ) (st : BufState) (geom : UrhoGeometry) (lod : TLodLevel) :
    (lodFinalVB opts nbones verts useOne i st geom lod).vertices.length
      = (lodAcc opts verts useOne i st lod).vb.vertices.length := by
  unfold lodFinalVB
  split
  · show (boneRemapPass geom.boneMap
      (lodAcc opts verts useOne i st lod).vb.vertices).2.length = _
    exact boneRemapPass_length _ _
  · rfl

theorem lodFinalVB_getD_pos (opts : UrhoExportOptions) (nbones : ℕ) (verts : List TVertex)
    (useOne : Bool) (i : ℕ) (st : BufState) (geom : UrhoGeometry) (lod : TLodLevel)
    (ix : ℕ) :
    ((lodFinalVB opts nbones verts useOne i st geom lod).vertices.getD ix default).pos
      = ((lodAcc opts verts useOne i st lod).vb.vertices.getD ix default).pos := by
  unfold lodFinalVB
  split
  · show ((boneRemapPass geom.boneMap
      (lodAcc opts verts useOne i st lod).vb.vertices).2.getD ix default).pos = _
    exact boneRemapPass_getD_pos _ _ _
  · rfl

theorem lodEmit_eq_map (m : List (ℕ × ℕ)) (tris : List (ℕ × ℕ × ℕ)) :
    lodEmit m tris = (cornersOf tris).map (fun t => (alistLookup m t).getD 0) := by
  induction tris with
  | nil => rfl
  | cons t ts ih =>
    simp only [lodEmit, cornersOf, List.flatMap_cons, List.map_append, List.map_cons,
      List.map_nil] at ih ⊢
    rw [ih]

theorem lodAcc_dedupInv (opts : UrhoExportOptions) (verts : List TVertex) (useOne : Bool)
    (i : ℕ) (st : BufState) (lod : TLodLevel) (hvm : StVmapInv st) :
    DedupInv (lodAcc opts verts useOne i st lod) := by
  have hinit : DedupInv (⟨(lodVbs1 useOne i st).getLast?.getD emptyVB,
      if st.vbs.isEmpty || (decide (i = 0) && !useOne) then [] else st.vmap,
      st.lastVertex, [], st.bbox, st.maskErrors, st.maskErrorIndices⟩ : DedupAcc) := by
    constructor
    · intro p hp
      exact absurd hp (List.not_mem_nil p)
    · intro p hp j hj
      have hp2 : p ∈ (if st.vbs.isEmpty || (decide (i = 0) && !useOne) then []
          else st.vmap) := hp
      by_cases hco : (st.vbs.isEmpty || (decide (i = 0) && !useOne)) = true
      · rw [if_pos hco] at hp2
        exact absurd hp2 (List.not_mem_nil p)
      · rw [if_neg hco] at hp2
        show j < ((lodVbs1 useOne i st).getLast?.getD emptyVB).vertices.length
        have he : (lodVbs1 useOne i st).getLast?.getD emptyVB
            = st.vbs.getLast?.getD emptyVB := by
          unfold lodVbs1
          rw [if_neg hco]
        rw [he]
        exact hvm p hp2 j hj
  unfold lodAcc
  exact dedupFold_dedupInv _ verts lod.indexSet _ hinit

theorem processLod_stVmapInv (opts : UrhoExportOptions) (nbones : ℕ)
    (verts : List TVertex) (useOne : Bool) (i : ℕ) (st : BufState) (geom : UrhoGeometry)
    (lod : TLodLevel) (hvm : StVmapInv st) :
    StVmapInv (processLod opts nbones verts useOne i st geom lod).1 := by
  intro p hp j hj
  rw [processLod_vmap_eq] at hp
  have hinv := (lodAcc_dedupInv opts verts useOne i st lod hvm).2 p hp j hj
  have hlast : (processLod opts nbones verts useOne i st geom lod).1.vbs.getLast?.getD
      emptyVB = lodFinalVB opts nbones verts useOne i st geom lod := by
    rw [processLod_vbs_eq, List.getLast?_concat]
    rfl
  rw [hlast, lodFinalVB_length]
  exact hinv

theorem geomFold_stVmapInv (opts : UrhoExportOptions) (nbones : ℕ) (verts : List TVertex)
    (useOne : Bool) :
    ∀ (lods : List TLodLevel) (p : (BufState × UrhoGeometry) × ℕ), StVmapInv p.1.1 →
      StVmapInv ((lods.foldl (fun (q : (BufState × UrhoGeometry) × ℕ) lod =>
        (processLod opts nbones verts useOne q.2 q.1.1 q.1.2 lod, q.2 + 1)) p)).1.1 := by
  intro lods
  induction lods with
  | nil => intro p h; exact h
  | cons lod lods ih =>
    intro p h
    rw [List.foldl_cons]
    exact ih (processLod opts nbones verts useOne p.2 p.1.1 p.1.2 lod, p.2 + 1)
      (processLod_stVmapInv opts nbones verts useOne p.2 p.1.1 p.1.2 lod h)

theorem processGeometry_stVmapInv (opts : UrhoExportOptions) (nbones : ℕ)
    (verts : List TVertex) (useOne : Bool) (st : BufState) (g : TGeometry)
    (hvm : StVmapInv st) : StVmapInv (processGeometry opts nbones verts useOne st g).1 := by
  unfold processGeometry
  exact geomFold_stVmapInv opts nbones verts useOne g.lodLevels
    ((st, { boneMap := [], lodLevels := [], center := [0, 0, 0] }), 0) hvm

theorem exportFold_stVmapInv (opts : UrhoExportOptions) (nbones : ℕ)
    (verts : List TVertex) (useOne : Bool) :
    ∀ (gs : List TGeometry) (p : BufState × List UrhoGeometry), StVmapInv p.1 →
      StVmapInv ((gs.foldl (fun (q : BufState × List UrhoGeometry) g =>
        ((processGeometry opts nbones verts useOne q.1 g).1,
         q.2 ++ [(processGeometry opts nbones verts useOne q.1 g).2])) p)).1 := by
  intro gs
  induction gs with
  | nil => intro p h; exact h
  | cons g gs ih =>
    intro p h
    rw [List.foldl_cons]
    exact ih ((processGeometry opts nbones verts useOne p.1 g).1,
        p.2 ++ [(processGeometry opts nbones verts useOne p.1 g).2])
      (processGeometry_stVmapInv opts nbones verts useOne p.1 g h)

theorem processLod_center_est (opts : UrhoExportOptions) (nbones : ℕ) (verts : List TVertex)
    (useOne : Bool) (st : BufState) (geom : UrhoGeometry) (lod : TLodLevel)
    (hgl : geom.lodLevels = []) (hvm : StVmapInv st)
    (hwf : ∀ t ∈ cornersOf lod.triangleList, t ∈ lod.indexSet) :
    GeomCenterOK (processLod opts nbones verts useOne 0 st geom lod).1
      (processLod opts nbones verts useOne 0 st geom lod).2 := by
  obtain ⟨bm, c, hg⟩ := processLod_geom_shape opts nbones verts useOne 0 st geom lod
  intro l0 hl0
  have hll : (processLod opts nbones verts useOne 0 st geom lod).2.lodLevels
      = geom.lodLevels ++
        [{ distance := lod.distance, primitiveType := TRIANGLE_LIST,
           vertexBuffer := (lodVbs1 useOne 0 st).length - 1,
           indexBuffer := (lodIbs1 useOne 0 st).length - 1,
           startIndex := if st.ibs.isEmpty || (decide ((0 : ℕ) = 0) && !useOne) then 0
             else (st.ibs.getLast?.getD emptyIB).indexes.length,
           countIndex := 3 * lod.triangleList.length }] := by
    rw [hg]
  rw [hll, hgl] at hl0
  have hl0' : (
      [{ distance := lod.distance, primitiveType := TRIANGLE_LIST,
         vertexBuffer := (lodVbs1 useOne 0 st).length - 1,
         indexBuffer := (lodIbs1 useOne 0 st).length - 1,
         startIndex := if st.ibs.isEmpty || (decide ((0 : ℕ) = 0) && !useOne) then 0
           else (st.ibs.getLast?.getD emptyIB).indexes.length,
         countIndex := 3 * lod.triangleList.length }] : List UrhoLodLevel).head?
      = some l0 := hl0
  rw [List.head?_cons] at hl0'
  obtain rfl := (Option.some.inj hl0').symm
  have hvbp : 0 < (lodVbs1 useOne 0 st).length :=
    List.length_pos.mpr (lodVbs1_ne_nil useOne 0 st)
  have hibp : 0 < (lodIbs1 useOne 0 st).length :=
    List.length_pos.mpr (lodIbs1_ne_nil useOne 0 st)
  have hdl : ((lodIbs1 useOne 0 st).dropLast).length = (lodIbs1 useOne 0 st).length - 1 :=
    List.length_dropLast _
  have hdlv : ((lodVbs1 useOne 0 st).dropLast).length = (lodVbs1 useOne 0 st).length - 1 :=
    List.length_dropLast _
  have hib1 : (processLod opts nbones verts useOne 0 st geom lod).1.ibs.getD
      ((lodIbs1 useOne 0 st).length - 1) emptyIB
      = { (lodIbs1 useOne 0 st).getLast?.getD emptyIB with
          indexes := ((lodIbs1 useOne 0 st).getLast?.getD emptyIB).indexes ++
            lodEmit (lodAcc opts verts useOne 0 st lod).indexMap lod.triangleList } := by
    rw [processLod_ibs_eq]
    rw [List.getD_append_right _ _ _ _ (by rw [hdl])]
    have hz : (lodIbs1 useOne 0 st).length - 1 - ((lodIbs1 useOne 0 st).dropLast).length
        = 0 := by
      rw [hdl]
      omega
    rw [hz]
    rfl
  have hvb1 : (processLod opts nbones verts useOne 0 st geom lod).1.vbs.getD
      ((lodVbs1 useOne 0 st).length - 1) emptyVB
      = lodFinalVB opts nbones verts useOne 0 st geom lod := by
    rw [processLod_vbs_eq]
    rw [List.getD_append_right _ _ _ _ (by rw [hdlv])]
    have hz : (lodVbs1 useOne 0 st).length - 1 - ((lodVbs1 useOne 0 st).dropLast).length
        = 0 := by
      rw [hdlv]
      omega
    rw [hz]
    rfl
  have hstart : (if st.ibs.isEmpty || (decide ((0 : ℕ) = 0) && !useOne) then 0
      else (st.ibs.getLast?.getD emptyIB).indexes.length)
      = ((lodIbs1 useOne 0 st).getLast?.getD emptyIB).indexes.length := by
    by_cases hco : (st.ibs.isEmpty || (decide ((0 : ℕ) = 0) && !useOne)) = true
    · rw [if_pos hco]
      unfold lodIbs1
      rw [if_pos hco, List.getLast?_concat]
      rfl
    · rw [if_neg hco]
      unfold lodIbs1
      rw [if_neg hco]
  have hemlen : (lodEmit (lodAcc opts verts useOne 0 st lod).indexMap
      lod.triangleList).length = 3 * lod.triangleList.length := lodEmit_length _ _
  have hb3 : (if st.ibs.isEmpty || (decide ((0 : ℕ) = 0) && !useOne) then 0
      else (st.ibs.getLast?.getD emptyIB).indexes.length) + 3 * lod.triangleList.length
      ≤ ((processLod opts nbones verts useOne 0 st geom lod).1.ibs.getD
        ((lodIbs1 useOne 0 st).length - 1) emptyIB).indexes.length := by
    rw [hib1, hstart]
    show ((lodIbs1 useOne 0 st).getLast?.getD emptyIB).indexes.length +
      3 * lod.triangleList.length ≤
      (((lodIbs1 useOne 0 st).getLast?.getD emptyIB).indexes ++
        lodEmit (lodAcc opts verts useOne 0 st lod).indexMap lod.triangleList).length
    rw [List.length_append, hemlen]
  have hslice : sliceOf (processLod opts nbones verts useOne 0 st geom lod).1
      { distance := lod.distance, primitiveType := TRIANGLE_LIST,
        vertexBuffer := (lodVbs1 useOne 0 st).length - 1,
        indexBuffer := (lodIbs1 useOne 0 st).length - 1,
        startIndex := if st.ibs.isEmpty || (decide ((0 : ℕ) = 0) && !useOne) then 0
          else (st.ibs.getLast?.getD emptyIB).indexes.length,
        countIndex := 3 * lod.triangleList.length }
      = lodEmit (lodAcc opts verts useOne 0 st lod).indexMap lod.triangleList := by
    unfold sliceOf
    show ((((processLod opts nbones verts useOne 0 st geom lod).1.ibs.getD
        ((lodIbs1 useOne 0 st).length - 1) emptyIB).indexes.drop
        (if st.ibs.isEmpty || (decide ((0 : ℕ) = 0) && !useOne) then 0
          else (st.ibs.getLast?.getD emptyIB).indexes.length)).take
        (3 * lod.triangleList.length)) = _
    rw [hib1, hstart]
    show ((((lodIbs1 useOne 0 st).getLast?.getD emptyIB).indexes ++
        lodEmit (lodAcc opts verts useOne 0 st lod).indexMap lod.triangleList).drop
        ((lodIbs1 useOne 0 st).getLast?.getD emptyIB).indexes.length).take
        (3 * lod.triangleList.length) = _
    rw [List.drop_left, ← hemlen, List.take_length]
  have hinr : ∀ ix ∈ lodEmit (lodAcc opts verts useOne 0 st lod).indexMap
      lod.triangleList,
      ix < ((processLod opts nbones verts useOne 0 st geom lod).1.vbs.getD
        ((lodVbs1 useOne 0 st).length - 1) emptyVB).vertices.length := by
    intro ix hix
    rw [hvb1, lodFinalVB_length]
    rw [lodEmit_eq_map] at hix
    obtain ⟨t, ht, rfl⟩ := List.mem_map.mp hix
    have ht2 := hwf t ht
    have hcov : (alistLookup (lodAcc opts verts useOne 0 st lod).indexMap t).isSome := by
      unfold lodAcc
      exact dedupFold_cov _ verts lod.indexSet
        ⟨(lodVbs1 useOne 0 st).getLast?.getD emptyVB,
         if st.vbs.isEmpty || (decide ((0 : ℕ) = 0) && !useOne) then [] else st.vmap,
         st.lastVertex, [], st.bbox, st.maskErrors, st.maskErrorIndices⟩ t ht2
    obtain ⟨v, hv⟩ := Option.isSome_iff_exists.mp hcov
    rw [hv]
    exact (lodAcc_dedupInv opts verts useOne 0 st lod hvm).1 (t, v) (alistLookup_mem hv)
  have hcntimp : 3 * lod.triangleList.length ≠ 0 →
      ((lodAcc opts verts useOne 0 st lod).vb.elementMask).isSome = true := by
    intro hcnt
    have htne : lod.triangleList ≠ [] := by
      intro hc
      rw [hc] at hcnt
      exact hcnt rfl
    obtain ⟨tr, ts, htr⟩ : ∃ a t, lod.triangleList = a :: t := by
      cases hx : lod.triangleList with
      | nil => exact absurd hx htne
      | cons a t => exact ⟨a, t, rfl⟩
    have hc0 : tr.1 ∈ cornersOf lod.triangleList := by
      rw [htr]
      unfold cornersOf
      rw [List.flatMap_cons]
      exact List.mem_append_left _ (List.mem_cons_self _ _)
    have hisne : lod.indexSet ≠ [] := List.ne_nil_of_mem (hwf tr.1 hc0)
    unfold lodAcc
    exact dedupFold_vmask_isSome _ verts lod.indexSet
      ⟨(lodVbs1 useOne 0 st).getLast?.getD emptyVB,
       if st.vbs.isEmpty || (decide ((0 : ℕ) = 0) && !useOne) then [] else st.vmap,
       st.lastVertex, [], st.bbox, st.maskErrors, st.maskErrorIndices⟩ hisne
  refine ⟨?_, ?_, ?_, ?_, ?_⟩
  · show (lodVbs1 useOne 0 st).length - 1 <
      (processLod opts nbones verts useOne 0 st geom lod).1.vbs.length
    rw [processLod_vbs_length]
    omega
  · show (lodIbs1 useOne 0 st).length - 1 <
      (processLod opts nbones verts useOne 0 st geom lod).1.ibs.length
    rw [processLod_ibs_length]
    omega
  · exact hb3
  · intro ix hix
    have hix2 : ix ∈ lodEmit (lodAcc opts verts useOne 0 st lod).indexMap
        lod.triangleList := by
      rw [← hslice]
      exact hix
    exact hinr ix hix2
  · intro hcnt
    have hcnt' : 3 * lod.triangleList.length ≠ 0 := hcnt
    have hms := hcntimp hcnt'
    constructor
    · show ((processLod opts nbones verts useOne 0 st geom lod).1.vbs.getD
        ((lodVbs1 useOne 0 st).length - 1) emptyVB).elementMask ≠ none
      rw [hvb1]
      show (lodAcc opts verts useOne 0 st lod).vb.elementMask ≠ none
      exact Option.ne_none_iff_isSome.mpr hms
    · intro hposbit
      have hposbit2 : ((processLod opts nbones verts useOne 0 st geom lod).1.vbs.getD
          ((lodVbs1 useOne 0 st).length - 1) emptyVB).elementMask.getD 0 &&&
          ELEMENT_POSITION ≠ 0 := hposbit
      rw [hvb1] at hposbit2
      have hpos' : (lodAcc opts verts useOne 0 st lod).vb.elementMask.getD 0 &&&
          ELEMENT_POSITION ≠ 0 := hposbit2
      have hd0 : decide ((0 : ℕ) = 0) = true := rfl
      have hhp : decide ((lodAcc opts verts useOne 0 st lod).vb.elementMask.getD 0 &&&
          ELEMENT_POSITION ≠ 0) = true := decide_eq_true hpos'
      have hcntE : decide ((lodEmit (lodAcc opts verts useOne 0 st lod).indexMap
          lod.triangleList).length ≠ 0) = true := by
        apply decide_eq_true
        rw [hemlen]
        exact hcnt'
      have hc1 : (decide ((0 : ℕ) = 0) &&
          decide ((lodAcc opts verts useOne 0 st lod).vb.elementMask.getD 0 &&&
            ELEMENT_POSITION ≠ 0)) = true := by
        rw [hd0, hhp]
        rfl
      have hcen : lodCenter opts verts useOne 0 st geom lod
          = (lodCenterSum (lodAcc opts verts useOne 0 st lod).vb.vertices
              (lodEmit (lodAcc opts verts useOne 0 st lod).indexMap
                lod.triangleList)).map
            (fun q => q / (((lodEmit (lodAcc opts verts useOne 0 st lod).indexMap
              lod.triangleList).length : ℕ) : ℚ)) := by
        unfold lodCenter
        rw [if_pos hc1, if_pos hc1]
        have hc2 : (decide ((0 : ℕ) = 0) &&
            decide ((lodEmit (lodAcc opts verts useOne 0 st lod).indexMap
              lod.triangleList).length ≠ 0)) = true := by
          rw [hd0, hcntE]
          rfl
        rw [if_pos hc2]
      show (processLod opts nbones verts useOne 0 st geom lod).2.center = _
      rw [processLod_center_eq, hcen]
      show _ = vecAverage ((sliceOf (processLod opts nbones verts useOne 0 st geom lod).1
          { distance := lod.distance, primitiveType := TRIANGLE_LIST,
            vertexBuffer := (lodVbs1 useOne 0 st).length - 1,
            indexBuffer := (lodIbs1 useOne 0 st).length - 1,
            startIndex := if st.ibs.isEmpty || (decide ((0 : ℕ) = 0) && !useOne) then 0
              else (st.ibs.getLast?.getD emptyIB).indexes.length,
            countIndex := 3 * lod.triangleList.length }).map
        (posAt ((processLod opts nbones verts useOne 0 st geom lod).1.vbs.getD
          ((lodVbs1 useOne 0 st).length - 1) emptyVB)))
      rw [hslice, hvb1]
      have hmapc : (lodEmit (lodAcc opts verts useOne 0 st lod).indexMap
          lod.triangleList).map
            (posAt (lodFinalVB opts nbones verts useOne 0 st geom lod))
          = (lodEmit (lodAcc opts verts useOne 0 st lod).indexMap lod.triangleList).map
            (fun ix => ((lodAcc opts verts useOne 0 st lod).vb.vertices.getD
              ix default).pos.getD [0, 0, 0]) := by
        apply List.map_congr_left
        intro ix _
        unfold posAt
        rw [lodFinalVB_getD_pos]
      rw [hmapc]
      unfold vecAverage
      rw [List.foldl_map, List.length_map]
      rfl

theorem processLod_center_keep (opts : UrhoExportOptions) (nbones : ℕ)
    (verts : List TVertex) (useOne : Bool) (i : ℕ) (st : BufState) (geom : UrhoGeometry)
    (lod : TLodLevel) (hi : decide (i = 0) = false) :
    (processLod opts nbones verts useOne i st geom lod).2.center = geom.center := by
  rw [processLod_center_eq]
  unfold lodCenter
  rw [hi, Bool.false_and]
  rfl

theorem processLod_head_keep (opts : UrhoExportOptions) (nbones : ℕ)
    (verts : List TVertex) (useOne : Bool) (i : ℕ) (st : BufState) (geom : UrhoGeometry)
    (lod : TLodLevel) (hne : geom.lodLevels ≠ []) :
    (processLod opts nbones verts useOne i st geom lod).2.lodLevels.head?
      = geom.lodLevels.head? ∧
    (processLod opts nbones verts useOne i st geom lod).2.lodLevels ≠ [] := by
  obtain ⟨bm, c, hg⟩ := processLod_geom_shape opts nbones verts useOne i st geom lod
  obtain ⟨u, hu⟩ : ∃ u, (processLod opts nbones verts useOne i st geom lod).2.lodLevels
      = geom.lodLevels ++ [u] := ⟨_, by rw [hg]⟩
  constructor
  · rw [hu]
    cases hx : geom.lodLevels with
    | nil => exact absurd hx hne
    | cons a t => rfl
  · rw [hu]
    intro hc
    exact List.cons_ne_nil u [] (List.append_eq_nil.mp hc).2

theorem geomFoldRest_centerOK (opts : UrhoExportOptions) (nbones : ℕ)
    (verts : List TVertex) (useOne : Bool) :
    ∀ (lods : List TLodLevel) (p : (BufState × UrhoGeometry) × ℕ),
      1 ≤ p.2 → p.1.2.lodLevels ≠ [] →
      GeomCenterOK p.1.1 p.1.2 →
      (GeomCenterOK ((lods.foldl (fun (q : (BufState × UrhoGeometry) × ℕ) lod =>
          (processLod opts nbones verts useOne q.2 q.1.1 q.1.2 lod, q.2 + 1)) p)).1.1
        ((lods.foldl (fun (q : (BufState × UrhoGeometry) × ℕ) lod =>
          (processLod opts nbones verts useOne q.2 q.1.1 q.1.2 lod, q.2 + 1)) p)).1.2 ∧
       ((lods.foldl (fun (q : (BufState × UrhoGeometry) × ℕ) lod =>
          (processLod opts nbones verts useOne q.2 q.1.1 q.1.2 lod, q.2 + 1)) p)).1.2.lodLevels
         ≠ []) := by
  intro lods
  induction lods with
  | nil => intro p _ hne hok; exact ⟨hok, hne⟩
  | cons lod lods ih =>
    intro p hp2 hne hok
    rw [List.foldl_cons]
    have hi : decide (p.2 = 0) = false := decide_eq_false (by omega)
    have hkeep := processLod_center_keep opts nbones verts useOne p.2 p.1.1 p.1.2 lod hi
    have hhead := processLod_head_keep opts nbones verts useOne p.2 p.1.1 p.1.2 lod hne
    have hok1 : GeomCenterOK (processLod opts nbones verts useOne p.2 p.1.1 p.1.2 lod).1
        (processLod opts nbones verts useOne p.2 p.1.1 p.1.2 lod).2 :=
      geomCenterOK_congr hhead.1 hkeep
        (stExt_geomCenterOK (processLod_stExt opts nbones verts useOne p.2 p.1.1 p.1.2 lod)
          hok)
    exact ih (processLod opts nbones verts useOne p.2 p.1.1 p.1.2 lod, p.2 + 1)
      (by show 1 ≤ p.2 + 1; omega) hhead.2 hok1

theorem processGeometry_centerOK (opts : UrhoExportOptions) (nbones : ℕ)
    (verts : List TVertex) (useOne : Bool) (st : BufState) (g : TGeometry)
    (hvm : StVmapInv st)
    (hwf : ∀ lod ∈ g.lodLevels, ∀ t ∈ cornersOf lod.triangleList, t ∈ lod.indexSet) :
    GeomCenterOK (processGeometry opts nbones verts useOne st g).1
      (processGeometry opts nbones verts useOne st g).2 := by
  unfold processGeometry
  cases hx : g.lodLevels with
  | nil =>
    intro l0 hl0
    exact Option.noConfusion hl0
  | cons lod0 rest =>
    rw [List.foldl_cons]
    have hest := processLod_center_est opts nbones verts useOne st
      { boneMap := [], lodLevels := [], center := [0, 0, 0] } lod0 rfl hvm
      (hwf lod0 (by rw [hx]; exact List.mem_cons_self _ _))
    obtain ⟨bm, c, hg⟩ := processLod_geom_shape opts nbones verts useOne 0 st
      { boneMap := [], lodLevels := [], center := [0, 0, 0] } lod0
    obtain ⟨u, hu⟩ : ∃ u, (processLod opts nbones verts useOne 0 st
        { boneMap := [], lodLevels := [], center := [0, 0, 0] } lod0).2.lodLevels
        = [u] :=
      ⟨{ distance := lod0.distance, primitiveType := TRIANGLE_LIST,
         vertexBuffer := (lodVbs1 useOne 0 st).length - 1,
         indexBuffer := (lodIbs1 useOne 0 st).length - 1,
         startIndex := if st.ibs.isEmpty || (decide ((0 : ℕ) = 0) && !useOne) then 0
           else (st.ibs.getLast?.getD emptyIB).indexes.length,
         countIndex := 3 * lod0.triangleList.length }, by rw [hg]; rfl⟩
    have hgne : (processLod opts nbones verts useOne 0 st
        { boneMap := [], lodLevels := [], center := [0, 0, 0] } lod0).2.lodLevels ≠ [] := by
      rw [hu]
      exact List.cons_ne_nil u []
    exact (geomFoldRest_centerOK opts nbones verts useOne rest
      (processLod opts nbones verts useOne 0 st
        { boneMap := [], lodLevels := [], center := [0, 0, 0] } lod0, 0 + 1)
      (by show 1 ≤ 0 + 1; omega) hgne hest).1

theorem exportFold_centerOK (opts : UrhoExportOptions) (nbones : ℕ)
    (verts : List TVertex) (useOne : Bool) :
    ∀ (gs : List TGeometry) (p : BufState × List UrhoGeometry),
      StVmapInv p.1 →
      (∀ g ∈ gs, ∀ lod ∈ g.lodLevels, ∀ t ∈ cornersOf lod.triangleList,
        t ∈ lod.indexSet) →
      (∀ geom ∈ p.2, GeomCenterOK p.1 geom) →
      ∀ geom ∈ ((gs.foldl (fun (q : BufState × List UrhoGeometry) g =>
          ((processGeometry opts nbones verts useOne q.1 g).1,
           q.2 ++ [(processGeometry opts nbones verts useOne q.1 g).2])) p)).2,
        GeomCenterOK ((gs.foldl (fun (q : BufState × List UrhoGeometry) g =>
          ((processGeometry opts nbones verts useOne q.1 g).1,
           q.2 ++ [(processGeometry opts nbones verts useOne q.1 g).2])) p)).1 geom := by
  intro gs
  induction gs with
  | nil => intro p _ _ hprev; exact hprev
  | cons g gs ih =>
    intro p hvm hwf hprev
    rw [List.foldl_cons]
    have hvm1 : StVmapInv (processGeometry opts nbones verts useOne p.1 g).1 :=
      processGeometry_stVmapInv opts nbones verts useOne p.1 g hvm
    have hprev1 : ∀ geom ∈ p.2 ++ [(processGeometry opts nbones verts useOne p.1 g).2],
        GeomCenterOK (processGeometry opts nbones verts useOne p.1 g).1 geom := by
      intro geom hgeom
      rcases List.mem_append.mp hgeom with h | h
      · exact stExt_geomCenterOK (processGeometry_stExt opts nbones verts useOne p.1 g)
          (hprev geom h)
      · rw [List.mem_singleton.mp h]
        exact processGeometry_centerOK opts nbones verts useOne p.1 g hvm
          (hwf g (List.mem_cons_self g gs))
    exact ih ((processGeometry opts nbones verts useOne p.1 g).1,
        p.2 ++ [(processGeometry opts nbones verts useOne p.1 g).2]) hvm1
      (fun g' h' => hwf g' (List.mem_cons_of_mem g h')) hprev1

theorem getD_map_of_lt {α β : Type} [Inhabited α] [Inhabited β] (f : α → β) (l : List α)
    {k : ℕ} (hk : k < l.length) (d : α) (e : β) : (l.map f).getD k e = f (l.getD k d) := by
  rw [List.getD_eq_getElem (l.map f) e (by rw [List.length_map]; exact hk),
    List.getD_eq_getElem l d hk, List.getElem_map]

/-! ## Claim theorems -/

/-- C1: relaxed deduplication for non-strict later LODs.  Against the
candidates of the new vertex's position-hash bucket: a candidate whose
position is not within epsilon, or whose normal is more than 30° away
(`cos θ < cos 30°`), has infinite LOD error (`none`); a candidate passing both
gates has error `sum(|Δuv|) + (1 − cos θ)`; the search returns a bucket
candidate with finite error that minimizes the error over the bucket; and if
every candidate's error is infinite the search fails and the dedup step
appends the brand-new vertex to the buffer. -/
theorem claim_C1_relaxed_lod_matching :
    (∀ cand v : UrhoVertex, floatListAlmostEqual cand.pos v.pos = false →
      lodError cand v = none) ∧
    (∀ cand v : UrhoVertex, vectorDotProduct cand.normal v.normal < COS30 →
      lodError cand v = none) ∧
    (∀ cand v : UrhoVertex, floatListAlmostEqual cand.pos v.pos = true →
      ¬ vectorDotProduct cand.normal v.normal < COS30 →
      lodError cand v = optAddErr (floatListEqualError cand.uv v.uv)
        (some (1 - vectorDotProduct cand.normal v.normal))) ∧
    (∀ (vertices : List UrhoVertex) (bucket : List ℕ) (v : UrhoVertex) (ivl : ℕ),
      findLodMatch vertices bucket v = some ivl →
      ivl ∈ bucket ∧ lodError (vertices.getD ivl default) v ≠ none ∧
      ∀ j ∈ bucket, optLeErr (lodError (vertices.getD ivl default) v)
        (lodError (vertices.getD j default) v) = true) ∧
    (∀ (vertices : List UrhoVertex) (bucket : List ℕ) (v : UrhoVertex),
      (∀ j ∈ bucket, lodError (vertices.getD j default) v = none) →
      findLodMatch vertices bucket v = none) ∧
    (∀ (verts : List TVertex) (tIdx : ℕ) (acc : DedupAcc),
      (updateBufferMask acc.vb.elementMask (tVertexMask (verts.getD tIdx default))).2 = false →
      findLodMatch acc.vb.vertices
        ((alistLookup acc.vmap (mkUrhoVertex (verts.getD tIdx default)).pos).getD [])
        (mkUrhoVertex (verts.getD tIdx default)) = none →
      (dedupStep false verts acc tIdx).vb.vertices =
        acc.vb.vertices ++ [mkUrhoVertex (verts.getD tIdx default)]) := by
  refine ⟨?_, ?_, ?_, ?_, ?_, fun verts tIdx acc => dedupStep_append verts tIdx acc⟩
  · intro cand v h
    unfold lodError
    rw [if_pos h]
  · intro cand v h
    unfold lodError
    by_cases hp : floatListAlmostEqual cand.pos v.pos = false
    · rw [if_pos hp]
    · rw [if_neg hp, if_pos h]
  · intro cand v h1 h2
    unfold lodError
    rw [if_neg (by simp [h1]), if_neg h2]
  · intro vertices bucket v ivl hfind
    unfold findLodMatch at hfind
    obtain ⟨h1, _, h3⟩ := findLodMatch_inv vertices bucket v
    obtain ⟨hm, he, hn⟩ := h1 ivl hfind
    have he2 : (List.foldl (lodFoldStep vertices v) (none, none) bucket).1
        = lodError (vertices.getD ivl default) v := he
    refine ⟨hm, hn, fun j hj => ?_⟩
    rw [← he2]
    exact h3 j hj
  · intro vertices bucket v hall
    unfold findLodMatch
    obtain ⟨h1, h2, _⟩ := findLodMatch_inv vertices bucket v
    cases hr : (bucket.foldl (lodFoldStep vertices v) (none, none)).2 with
    | none => rfl
    | some ivl =>
      obtain ⟨hm, _, hn⟩ := h1 ivl hr
      exact absurd (hall ivl hm) hn

/-- C1 witness: concrete instances of every conjunct — a position mismatch and
a far normal give infinite error, the passing candidate's error follows the
formula, the search picks the minimizing candidate, an all-infinite bucket
yields no match, and the dedup step then appends the new vertex. -/
theorem claim_C1_relaxed_lod_matching_witness :
    lodError c1Cand1 c1New = none ∧
    lodError c1CandFar c1New = none ∧
    lodError c1Cand0 c1New = optAddErr (floatListEqualError c1Cand0.uv c1New.uv)
      (some (1 - vectorDotProduct c1Cand0.normal c1New.normal)) ∧
    (0 ∈ [0, 1, 2] ∧
      lodError ([c1Cand0, c1Cand1, c1CandFar].getD 0 default) c1New ≠ none ∧
      ∀ j ∈ [0, 1, 2], optLeErr (lodError ([c1Cand0, c1Cand1, c1CandFar].getD 0 default) c1New)
        (lodError ([c1Cand0, c1Cand1, c1CandFar].getD j default) c1New) = true) ∧
    findLodMatch [c1CandFar] [0] c1New = none ∧
    (dedupStep false c1Verts c1Acc 0).vb.vertices = c1Acc.vb.vertices ++ [c1New] :=
  ⟨claim_C1_relaxed_lod_matching.1 c1Cand1 c1New (by decide),
   claim_C1_relaxed_lod_matching.2.1 c1CandFar c1New (by decide),
   claim_C1_relaxed_lod_matching.2.2.1 c1Cand0 c1New (by decide) (by decide),
   claim_C1_relaxed_lod_matching.2.2.2.1 [c1Cand0, c1Cand1, c1CandFar] [0, 1, 2] c1New 0
     (by decide),
   claim_C1_relaxed_lod_matching.2.2.2.2.1 [c1CandFar] [0] c1New (by decide),
   claim_C1_relaxed_lod_matching.2.2.2.2.2 c1Verts 0 c1Acc (by decide) (by decide)⟩

/-- C5 (amended): a source vertex with a present weights list stores exactly 4
`(bone index, weight)` pairs — the 4 highest-weight pairs (stable order)
normalized by their total, padded with `(0, 0.0)` — and, **provided that
top-4 total is nonzero**, the stored weights sum to exactly 1 (hence within
epsilon of 1.0).  When the total is zero (such as a present but all-zero
weight list) nothing can be normalized and the stored sum is 0, which is the
counterexample to the unconditional claim. -/
theorem claim_C5_blend_weights (t : TVertex) (ws : List (ℕ × ℚ))
    (hw : t.weights = some ws)
    (hT : (((sortBy (fun a b => decide (b.2 ≤ a.2)) ws).take 4).map (fun p => p.2)).sum ≠ 0) :
    (mkUrhoVertex t).weights.length = 4 ∧
    (mkUrhoVertex t).weights =
      ((sortBy (fun a b => decide (b.2 ≤ a.2)) ws).take 4).map
        (fun p => (p.1,
          p.2 / (((sortBy (fun a b => decide (b.2 ≤ a.2)) ws).take 4).map (fun q => q.2)).sum)) ++
      List.replicate (4 - (sortBy (fun a b => decide (b.2 ≤ a.2)) ws).length)
        ((0 : ℕ), (0 : ℚ)) ∧
    ((mkUrhoVertex t).weights.map (fun p => p.2)).sum = 1 ∧
    |((mkUrhoVertex t).weights.map (fun p => p.2)).sum - 1| ≤ EPSILON := by
  have hwv : (mkUrhoVertex t).weights = mkWeights ws := by
    have hm : (mkUrhoVertex t).weights =
        (match t.weights with | none => [] | some l => mkWeights l) := rfl
    rw [hm, hw]
  have hlen : (mkUrhoVertex t).weights.length = 4 := by
    rw [hwv]
    unfold mkWeights
    rw [List.length_map, List.length_range]
  have hsum : ((mkUrhoVertex t).weights.map (fun p => p.2)).sum = 1 := by
    rw [hwv, mkWeights_eq ws hT, List.map_append, List.sum_append, List.map_map]
    have hz : (List.replicate (4 - (sortBy (fun a b => decide (b.2 ≤ a.2)) ws).length)
        ((0 : ℕ), (0 : ℚ))).map (fun p => p.2) =
        List.replicate (4 - (sortBy (fun a b => decide (b.2 ≤ a.2)) ws).length) (0 : ℚ) := by
      rw [List.map_replicate]
    rw [hz, List.sum_replicate, smul_zero, add_zero]
    have hc : ((fun p : ℕ × ℚ => p.2) ∘ (fun p : ℕ × ℚ => (p.1,
        p.2 / (((sortBy (fun a b => decide (b.2 ≤ a.2)) ws).take 4).map (fun q => q.2)).sum)))
        = fun p : ℕ × ℚ =>
          p.2 / (((sortBy (fun a b => decide (b.2 ≤ a.2)) ws).take 4).map (fun q => q.2)).sum := by
      funext p
      rfl
    rw [hc, sum_map_snd_div]
    have hqq : ((sortBy (fun a b => decide (b.2 ≤ a.2)) ws).take 4).map (fun q : ℕ × ℚ => q.2)
        = ((sortBy (fun a b => decide (b.2 ≤ a.2)) ws).take 4).map (fun t : ℕ × ℚ => t.2) := rfl
    rw [hqq] at hT ⊢
    exact div_self hT
  refine ⟨hlen, by rw [hwv]; exact mkWeights_eq ws hT, hsum, ?_⟩
  rw [hsum]
  norm_num [EPSILON]

/-- C5 counterexample: a blend-enabled vertex whose only influence has weight
0 still stores 4 pairs, but their weights sum to 0, not to 1 within epsilon. -/
theorem claim_C5_counterexample :
    (mkUrhoVertex c5ZeroVertex).weights.length = 4 ∧
    ((mkUrhoVertex c5ZeroVertex).weights.map (fun p => p.2)).sum = 0 ∧
    ¬ |((mkUrhoVertex c5ZeroVertex).weights.map (fun p => p.2)).sum - 1| ≤ EPSILON :=
  ⟨by decide, by decide, by decide⟩

/-- C5 witness: the amended statement applied to a vertex with six weighted
bone influences. -/
theorem claim_C5_blend_weights_witness :
    c5Vertex.weights = some c5SixWeights ∧
    (((sortBy (fun a b => decide (b.2 ≤ a.2)) c5SixWeights).take 4).map (fun p => p.2)).sum ≠ 0 ∧
    (mkUrhoVertex c5Vertex).weights.length = 4 ∧
    ((mkUrhoVertex c5Vertex).weights.map (fun p => p.2)).sum = 1 :=
  ⟨rfl, by decide,
   (claim_C5_blend_weights c5Vertex c5SixWeights rfl (by decide)).1,
   (claim_C5_blend_weights c5Vertex c5SixWeights rfl (by decide)).2.2.1⟩

/-- C6: the bone-remap pass (run when the skeleton exceeds the 64-bone
skinning limit on a buffer with both blend channels, source lines 1066-1088)
produces a local bone map that is exactly the first-use-order list of the
buffer's global bone indices truncated to 64 entries — so it has at most 64
entries, each drawn from the vertices' bone indices — and a pair whose bone
does not fit is remapped to local index 0 with its weight zeroed. -/
theorem claim_C6_bone_remap (vs : List UrhoVertex) :
    (boneRemapPass [] vs).1 = firstUse64 [] (boneStream vs) ∧
    (boneRemapPass [] vs).1.length ≤ MAX_SKIN_MATRICES ∧
    (∀ x ∈ (boneRemapPass [] vs).1, x ∈ boneStream vs) ∧
    (∀ (bm : List ℕ) (p : ℕ × ℚ), p.1 ∉ bm → MAX_SKIN_MATRICES ≤ bm.length →
      remapPair bm p = (bm, (0, 0))) := by
  refine ⟨boneRemapPass_fst [] vs, ?_, ?_, ?_⟩
  · rw [boneRemapPass_fst]
    exact firstUse64_length _ _ (by simp)
  · intro x hx
    rw [boneRemapPass_fst] at hx
    rcases firstUse64_mem _ _ _ hx with h | h
    · exact absurd h (List.not_mem_nil x)
    · exact h
  · intro bm p hmem hlen
    unfold remapPair
    cases hf : bm.findIdx? (fun b => decide (b = p.1)) with
    | some j =>
      exfalso
      have hn := (findIdx?_beq_none_iff bm p.1).mpr hmem
      rw [hf] at hn
      exact Option.noConfusion hn
    | none =>
      rw [if_neg (by omega)]

/-- C6 witness: a buffer with bones 70, 3, 9 maps them in first-use order, and
a pair for bone 99 against a full 64-entry map becomes `(0, 0)`. -/
theorem claim_C6_bone_remap_witness :
    (boneRemapPass [] [c6Vertex [(70, 1/2), (3, 1/4), (70, 1/8), (9, 1/8)]]).1 = [70, 3, 9] ∧
    ((99 : ℕ) ∉ List.range 64) ∧
    MAX_SKIN_MATRICES ≤ (List.range 64).length ∧
    remapPair (List.range 64) (99, 1/2) = (List.range 64, (0, 0)) :=
  ⟨by decide, by decide, by decide,
   (claim_C6_bone_remap []).2.2.2 (List.range 64) (99, 1/2) (by decide) (by decide)⟩

/-- C10: in the model binary writer, a vertex buffer's serialized morph-range
count is 0 whenever `morphMaxIndex = 0` and `morphMaxIndex - morphMinIndex + 1`
otherwise; consequently a buffer whose only morph-affected vertex is vertex 0
(real morph range [0,0]) is written with morph-range count 0, identical in
that field to a buffer no morph touches (whose defaulted range is also
[0,0]). -/
theorem claim_C10_morph_range_count :
    (∀ mn mx : ℕ,
      (mx = 0 → morphRangeCount mn mx = 0) ∧
      (mx ≠ 0 → morphRangeCount mn mx = mx - mn + 1)) ∧
    finalizeMorphRange (updateMorphRange none 0) = (0, 0) ∧
    finalizeMorphRange none = (0, 0) ∧
    morphRangeCount 0 0 = 0 := by
  refine ⟨fun mn mx => ⟨fun h => ?_, fun h => ?_⟩, by decide, by decide, by decide⟩
  · simp [morphRangeCount, h]
  · simp [morphRangeCount, h]

/-- C10 witness: the general conjunct applied at the concrete range
`[2, 5]`. -/
theorem claim_C10_morph_range_count_witness :
    morphRangeCount 2 5 = 4 ∧ morphRangeCount 2 0 = 0 :=
  ⟨((claim_C10_morph_range_count.1 2 5).2 (by decide)).trans (by decide),
   (claim_C10_morph_range_count.1 2 0).1 rfl⟩

/-- C7: in every successfully exported animation list, each surviving track
has a non-empty, time-sorted keyframe list and a truthy (non-empty) mask, the
animation kept at least one track (those with zero surviving tracks are
dropped), and the animation length is the maximum final-keyframe time over
its surviving tracks; in particular one track with keyframes at times
[0.5, 0.0, 1.2] comes out ordered [0.0, 0.5, 1.2] with animation length
1.2. -/
theorem claim_C7_animation_consolidation :
    (∀ (animList : List TAnimation) (out : List UrhoAnimation),
      processAnimations animList = Except.ok out →
      ∀ anim ∈ out,
        anim.tracks ≠ [] ∧
        (∀ tr ∈ anim.tracks, tr.keyframes ≠ [] ∧ maskTruthy tr.mask = true ∧
          tr.keyframes.Pairwise (fun a b => a.time ≤ b.time)) ∧
        (∃ L, anim.length = some L ∧ (∃ tr ∈ anim.tracks, lastTime tr = some L) ∧
          ∀ tr ∈ anim.tracks, ∀ tl, lastTime tr = some tl → tl ≤ L)) ∧
    processAnimations c7Input = Except.ok [c7Expected] := by
  constructor
  · intro animList out h anim hm
    have hg : GoodAnim anim := processAnimations_good animList [] out h
      (fun x hx => absurd hx (List.not_mem_nil x)) anim hm
    exact hg
  · rfl

/-- C7 witness: the general statement applied to the scenario input, whose
sole animation survives with track keyframes reordered to [0, 0.5, 1.2] and
length 1.2. -/
theorem claim_C7_animation_consolidation_witness :
    processAnimations c7Input = Except.ok [c7Expected] ∧
    (c7Expected.tracks ≠ [] ∧
      (∀ tr ∈ c7Expected.tracks, tr.keyframes ≠ [] ∧ maskTruthy tr.mask = true ∧
        tr.keyframes.Pairwise (fun a b => a.time ≤ b.time)) ∧
      (∃ L, c7Expected.length = some L ∧
        (∃ tr ∈ c7Expected.tracks, lastTime tr = some L) ∧
        ∀ tr ∈ c7Expected.tracks, ∀ tl, lastTime tr = some tl → tl ≤ L)) :=
  ⟨claim_C7_animation_consolidation.2,
   claim_C7_animation_consolidation.1 c7Input [c7Expected]
     claim_C7_animation_consolidation.2 c7Expected (List.mem_singleton.mpr rfl)⟩

/-- C8 (code bug): converting a keyframe whose channels differ from the
track's established element mask does not recoverably narrow the mask and
append the keyframe — the source reads the non-existent attribute
`uTrack.elementMask` (line 361), raising an `AttributeError` that the
`except MaskError` handler (line 1201) does not catch, so the track mask stays
un-narrowed, the keyframe is not appended, and the whole export aborts. -/
theorem claim_C8_keyframe_mask_mismatch_aborts :
    processTrack c8Track = Except.error AnimFailure.attributeError := by
  rfl

/-- C4 (amended): an index buffer of the exported model uses 2-byte indices
iff its own index count is at most 65535 (and 4-byte indices iff the count
exceeds 65535) — the source decides by index count, not by the referenced
vertex buffer's vertex count. -/
theorem claim_C4_index_size (opts : UrhoExportOptions) (d : TData) :
    ∀ ib ∈ (urhoExport opts d).model.indexBuffers,
      (ib.indexSize = 2 ↔ ib.indexes.length ≤ 65535) ∧
      (ib.indexSize = 4 ↔ ib.indexes.length > 65535) := by
  intro ib hib
  have hmap : (urhoExport opts d).model.indexBuffers =
      ((d.geometriesList.foldl
        (fun (p : BufState × List UrhoGeometry) g =>
          let q := processGeometry opts d.bonesCount d.verticesList (useOneBuffer opts d) p.1 g
          (q.1, p.2 ++ [q.2]))
        (initialBufState, [])).1.ibs.map setIndexSize) := rfl
  rw [hmap] at hib
  obtain ⟨ib0, _, rfl⟩ := List.mem_map.mp hib
  rw [setIndexSize_size, setIndexSize_indexes]
  constructor
  · constructor
    · intro h
      by_contra hlen
      simp only [not_le] at hlen
      simp [hlen] at h
    · intro h
      have : ¬ ib0.indexes.length > 65535 := by omega
      simp [this]
  · constructor
    · intro h
      by_contra hlen
      simp [hlen] at h
    · intro h
      simp [h]

/-- C4 counterexample: in the `c4Data` export the sole geometry references
vertex buffer 0 and index buffer 0; that vertex buffer holds 3 ≤ 65535
vertices, yet the index buffer (65538 indices) is given 4-byte indices — the
claim's "2 bytes iff the referenced vertex buffer's vertex count ≤ 65535"
fails because the source tests the index count instead. -/
theorem claim_C4_counterexample :
    (∃ lvl : UrhoLodLevel,
      ((urhoExport optsDefault c4Data).model.geometries.getD 0 default).lodLevels = [lvl] ∧
      lvl.vertexBuffer = 0 ∧ lvl.indexBuffer = 0) ∧
    ((urhoExport optsDefault c4Data).model.vertexBuffers.getD 0 emptyVB).vertices.length ≤ 65535 ∧
    ((urhoExport optsDefault c4Data).model.indexBuffers.getD 0 emptyIB).indexSize ≠ 2 := by
  obtain ⟨hv, hi, hgeo⟩ :=
    export_single optsDefault c4Data ⟨[c4Lod]⟩ c4Lod rfl rfl (by decide)
  have hlen : (singleEmit c4Data c4Lod).length = 65538 := by
    unfold singleEmit
    rw [lodEmit_length]
    have h21846 : c4Lod.triangleList.length = 21846 := by
      unfold c4Lod
      exact List.length_replicate 21846 _
    rw [h21846]
  refine ⟨?_, ?_, ?_⟩
  · rw [hgeo]
    exact ⟨_, rfl, rfl, rfl⟩
  · rw [hv]
    have h3 : (singleAcc c4Data c4Lod).vb.vertices.length = 3 := by decide
    rw [List.getD_cons_zero, setMorphDefault_vertices, h3]
    norm_num
  · rw [hi]
    rw [List.getD_cons_zero, setIndexSize_size]
    have hx : ({ indexSize := 0, indexes := singleEmit c4Data c4Lod } : UrhoIndexBuffer).indexes
        = singleEmit c4Data c4Lod := rfl
    rw [hx, hlen]
    norm_num

/-- C9 counterexample: in the `c9Data` export (positions (0,0,0), (6,0,0),
(0,6,0), (0,0,6); triangles (0,1,2) and (0,1,3)) the geometry center is
(2,1,1) — the average over the six triangle corners — while the centroid of
the four LOD0 buffer vertex positions is (1.5,1.5,1.5). -/
theorem claim_C9_counterexample :
    ((urhoExport optsDefault c9Data).model.geometries.getD 0 default).center = [2, 1, 1] ∧
    vecAverage (((urhoExport optsDefault c9Data).model.vertexBuffers.getD 0 emptyVB).vertices.map
      (fun v => v.pos.getD [0, 0, 0])) = [3/2, 3/2, 3/2] ∧
    ([2, 1, 1] : List ℚ) ≠ [3/2, 3/2, 3/2] :=
  ⟨by decide, by decide, by decide⟩

/-- C9 (amended): for every geometry of every exported model (any number of
geometries, LOD levels and bones), provided every triangle corner names a
vertex of its LOD's vertex set (otherwise the source raises `KeyError` at
line 1055), if the geometry's first LOD has a non-empty index slice and its
vertex buffer has a position channel, the geometry's derived center equals the
average **counted with multiplicity** of the positions referenced by that
LOD's slice of the exported index buffer (the source accumulates one term per
emitted corner, lines 1052-1064) — not, in general, the centroid of the
buffer's distinct vertex positions. -/
theorem claim_C9_center :
    ∀ (opts : UrhoExportOptions) (d : TData),
      (∀ g ∈ d.geometriesList, ∀ lod ∈ g.lodLevels,
        ∀ t ∈ cornersOf lod.triangleList, t ∈ lod.indexSet) →
      ∀ k, k < (urhoExport opts d).model.geometries.length →
      ∀ l0, ((urhoExport opts d).model.geometries.getD k default).lodLevels.head?
          = some l0 →
      l0.countIndex ≠ 0 →
      ((urhoExport opts d).model.vertexBuffers.getD l0.vertexBuffer
        emptyVB).elementMask.getD 0 &&& ELEMENT_POSITION ≠ 0 →
      ((urhoExport opts d).model.geometries.getD k default).center
        = vecAverage (((((urhoExport opts d).model.indexBuffers.getD l0.indexBuffer
            emptyIB).indexes.drop l0.startIndex).take l0.countIndex).map
          (posAt ((urhoExport opts d).model.vertexBuffers.getD l0.vertexBuffer
            emptyVB))) := by
  intro opts d hwf k hk l0 hl0 hcnt hpos
  have hall : ∀ geom ∈ (urhoExport opts d).model.geometries,
      GeomCenterOK ((d.geometriesList.foldl (fun (q : BufState × List UrhoGeometry) g =>
        ((processGeometry opts d.bonesCount d.verticesList (useOneBuffer opts d) q.1 g).1,
         q.2 ++ [(processGeometry opts d.bonesCount d.verticesList
           (useOneBuffer opts d) q.1 g).2]))
        (initialBufState, []))).1 geom :=
    exportFold_centerOK opts d.bonesCount d.verticesList (useOneBuffer opts d)
      d.geometriesList (initialBufState, [])
      (by intro p hp; exact absurd hp (List.not_mem_nil p)) hwf
      (by intro geom hgeom; exact absurd hgeom (List.not_mem_nil geom))
  have hk2 : k < ((d.geometriesList.foldl (fun (q : BufState × List UrhoGeometry) g =>
      ((processGeometry opts d.bonesCount d.verticesList (useOneBuffer opts d) q.1 g).1,
       q.2 ++ [(processGeometry opts d.bonesCount d.verticesList
         (useOneBuffer opts d) q.1 g).2]))
      (initialBufState, []))).2.length := hk
  have hmem : (urhoExport opts d).model.geometries.getD k default
      ∈ (urhoExport opts d).model.geometries := by
    show (urhoExport opts d).model.geometries.getD k default
      ∈ (urhoExport opts d).model.geometries
    rw [List.getD_eq_getElem _ _ hk]
    exact List.getElem_mem _
  obtain ⟨b1, b2, b3, b4, b5⟩ := hall _ hmem l0 hl0
  have hvbk : (urhoExport opts d).model.vertexBuffers.getD l0.vertexBuffer emptyVB
      = setMorphDefault (((d.geometriesList.foldl
        (fun (q : BufState × List UrhoGeometry) g =>
        ((processGeometry opts d.bonesCount d.verticesList (useOneBuffer opts d) q.1 g).1,
         q.2 ++ [(processGeometry opts d.bonesCount d.verticesList
           (useOneBuffer opts d) q.1 g).2]))
        (initialBufState, []))).1.vbs.getD l0.vertexBuffer emptyVB) :=
    getD_map_of_lt setMorphDefault _ b1 emptyVB emptyVB
  have hibk : (urhoExport opts d).model.indexBuffers.getD l0.indexBuffer emptyIB
      = setIndexSize (((d.geometriesList.foldl
        (fun (q : BufState × List UrhoGeometry) g =>
        ((processGeometry opts d.bonesCount d.verticesList (useOneBuffer opts d) q.1 g).1,
         q.2 ++ [(processGeometry opts d.bonesCount d.verticesList
           (useOneBuffer opts d) q.1 g).2]))
        (initialBufState, []))).1.ibs.getD l0.indexBuffer emptyIB) :=
    getD_map_of_lt setIndexSize _ b2 emptyIB emptyIB
  rw [hvbk, setMorphDefault_mask] at hpos
  obtain ⟨hsome, hcen⟩ := b5 hcnt
  have hseq : ((urhoExport opts d).model.indexBuffers.getD l0.indexBuffer emptyIB).indexes
      = (((d.geometriesList.foldl (fun (q : BufState × List UrhoGeometry) g =>
        ((processGeometry opts d.bonesCount d.verticesList (useOneBuffer opts d) q.1 g).1,
         q.2 ++ [(processGeometry opts d.bonesCount d.verticesList
           (useOneBuffer opts d) q.1 g).2]))
        (initialBufState, []))).1.ibs.getD l0.indexBuffer emptyIB).indexes := by
    rw [hibk, setIndexSize_indexes]
  have hpasq : posAt ((urhoExport opts d).model.vertexBuffers.getD l0.vertexBuffer emptyVB)
      = posAt (((d.geometriesList.foldl (fun (q : BufState × List UrhoGeometry) g =>
        ((processGeometry opts d.bonesCount d.verticesList (useOneBuffer opts d) q.1 g).1,
         q.2 ++ [(processGeometry opts d.bonesCount d.verticesList
           (useOneBuffer opts d) q.1 g).2]))
        (initialBufState, []))).1.vbs.getD l0.vertexBuffer emptyVB) := by
    funext ix
    unfold posAt
    rw [hvbk, setMorphDefault_vertices]
  rw [hseq, hpasq]
  exact hcen hpos

/-- C9 witness: the amended average-with-multiplicity statement applied to the
sole geometry of the `c9Data` export (first LOD owning indices 0..5 of buffer
0). -/
theorem claim_C9_center_witness :
    ((urhoExport optsDefault c9Data).model.geometries.getD 0 default).lodLevels.head?
      = some { distance := 0, primitiveType := TRIANGLE_LIST, vertexBuffer := 0,
               indexBuffer := 0, startIndex := 0, countIndex := 6 } ∧
    ((urhoExport optsDefault c9Data).model.geometries.getD 0 default).center
      = vecAverage (((((urhoExport optsDefault c9Data).model.indexBuffers.getD 0
          emptyIB).indexes.drop 0).take 6).map
        (posAt ((urhoExport optsDefault c9Data).model.vertexBuffers.getD 0 emptyVB))) :=
  ⟨by decide,
   claim_C9_center optsDefault c9Data (by decide) 0 (by decide)
     { distance := 0, primitiveType := TRIANGLE_LIST, vertexBuffer := 0,
       indexBuffer := 0, startIndex := 0, countIndex := 6 } (by decide) (by decide)
     (by decide)⟩

/-- C4 witness: the amended biconditional applied to the sole index buffer of
the `c9Data` export (6 indices, size 2). -/
theorem claim_C4_index_size_witness :
    { indexSize := 2, indexes := [0, 1, 2, 0, 1, 3] } ∈
      (urhoExport optsDefault c9Data).model.indexBuffers ∧
    (({ indexSize := 2, indexes := [0, 1, 2, 0, 1, 3] } : UrhoIndexBuffer).indexSize = 2 ↔
      ([0, 1, 2, 0, 1, 3] : List ℕ).length ≤ 65535) :=
  ⟨by decide,
   (claim_C4_index_size optsDefault c9Data _ (by decide)).1⟩

/-- C2: one shared vertex buffer (and index buffer) serves the whole model
unless submesh splitting is requested or a 32-bit index would be needed
globally but not per LOD; in the split case each geometry opens its own
vertex and index buffer at its first LOD (every LOD of geometry `k`
references buffer `k`, the first starting at index 0). -/
theorem claim_C2_buffer_splitting :
    (∀ (opts : UrhoExportOptions) (d : TData),
      useOneBuffer opts d = false ↔
        (opts.splitSubMeshes = true ∨
          (totalVertices d > 65535 ∧ maxLodVertices d ≤ 65535))) ∧
    (∀ (opts : UrhoExportOptions) (d : TData),
      useOneBuffer opts d = true → d.geometriesList ≠ [] →
      (∀ g ∈ d.geometriesList, g.lodLevels ≠ []) →
      (urhoExport opts d).model.vertexBuffers.length = 1 ∧
      (urhoExport opts d).model.indexBuffers.length = 1 ∧
      ∀ geom ∈ (urhoExport opts d).model.geometries,
        ∀ l ∈ geom.lodLevels, l.vertexBuffer = 0 ∧ l.indexBuffer = 0) ∧
    (∀ (opts : UrhoExportOptions) (d : TData),
      useOneBuffer opts d = false →
      (∀ g ∈ d.geometriesList, g.lodLevels ≠ []) →
      (urhoExport opts d).model.vertexBuffers.length = d.geometriesList.length ∧
      (urhoExport opts d).model.indexBuffers.length = d.geometriesList.length ∧
      ∀ k, k < (urhoExport opts d).model.geometries.length →
        GeomRefs k ((urhoExport opts d).model.geometries.getD k default)) := by
  refine ⟨?_, ?_, ?_⟩
  · intro opts d
    unfold useOneBuffer
    cases hsm : opts.splitSubMeshes <;>
      simp [hsm, totalVertices, maxLodVertices]
  · intro opts d hone hnil hall
    have hvbs : (urhoExport opts d).model.vertexBuffers
        = ((d.geometriesList.foldl (fun (q : BufState × List UrhoGeometry) g =>
            ((processGeometry opts d.bonesCount d.verticesList (useOneBuffer opts d) q.1 g).1,
             q.2 ++ [(processGeometry opts d.bonesCount d.verticesList
               (useOneBuffer opts d) q.1 g).2]))
          (initialBufState, [])).1.vbs.map setMorphDefault) := rfl
    have hibs : (urhoExport opts d).model.indexBuffers
        = ((d.geometriesList.foldl (fun (q : BufState × List UrhoGeometry) g =>
            ((processGeometry opts d.bonesCount d.verticesList (useOneBuffer opts d) q.1 g).1,
             q.2 ++ [(processGeometry opts d.bonesCount d.verticesList
               (useOneBuffer opts d) q.1 g).2]))
          (initialBufState, [])).1.ibs.map setIndexSize) := rfl
    have hgeos : (urhoExport opts d).model.geometries
        = (d.geometriesList.foldl (fun (q : BufState × List UrhoGeometry) g =>
            ((processGeometry opts d.bonesCount d.verticesList (useOneBuffer opts d) q.1 g).1,
             q.2 ++ [(processGeometry opts d.bonesCount d.verticesList
               (useOneBuffer opts d) q.1 g).2]))
          (initialBufState, [])).2 := rfl
    rw [hone] at hvbs hibs hgeos
    obtain ⟨g, gs, hgl⟩ : ∃ a t, d.geometriesList = a :: t := by
      cases hl : d.geometriesList with
      | nil => exact absurd hl hnil
      | cons a t => exact ⟨a, t, rfl⟩
    rw [hgl, List.foldl_cons] at hvbs hibs hgeos
    obtain ⟨hv1, hi1, hm1⟩ := processGeometry_one opts d.bonesCount d.verticesList
      initialBufState g (Nat.zero_le 1) rfl (hall g (by rw [hgl]; exact List.mem_cons_self g gs))
    have hm' : ∀ geom ∈ [(processGeometry opts d.bonesCount d.verticesList true
        initialBufState g).2], ∀ l ∈ geom.lodLevels,
        l.vertexBuffer = 0 ∧ l.indexBuffer = 0 := by
      intro geom hgeom
      rw [List.mem_singleton.mp hgeom]
      exact hm1
    obtain ⟨q1, q2, q3⟩ := exportFoldOne opts d.bonesCount d.verticesList gs
      ((processGeometry opts d.bonesCount d.verticesList true initialBufState g).1,
       [(processGeometry opts d.bonesCount d.verticesList true initialBufState g).2])
      (fun g' h' => hall g' (by rw [hgl]; exact List.mem_cons_of_mem g h')) hv1 hi1 hm'
    refine ⟨?_, ?_, ?_⟩
    · rw [hvbs, List.length_map]
      exact q1
    · rw [hibs, List.length_map]
      exact q2
    · intro geom hgeom
      rw [hgeos] at hgeom
      exact q3 geom hgeom
  · intro opts d hone hall
    have hvbs : (urhoExport opts d).model.vertexBuffers
        = ((d.geometriesList.foldl (fun (q : BufState × List UrhoGeometry) g =>
            ((processGeometry opts d.bonesCount d.verticesList (useOneBuffer opts d) q.1 g).1,
             q.2 ++ [(processGeometry opts d.bonesCount d.verticesList
               (useOneBuffer opts d) q.1 g).2]))
          (initialBufState, [])).1.vbs.map setMorphDefault) := rfl
    have hibs : (urhoExport opts d).model.indexBuffers
        = ((d.geometriesList.foldl (fun (q : BufState × List UrhoGeometry) g =>
            ((processGeometry opts d.bonesCount d.verticesList (useOneBuffer opts d) q.1 g).1,
             q.2 ++ [(processGeometry opts d.bonesCount d.verticesList
               (useOneBuffer opts d) q.1 g).2]))
          (initialBufState, [])).1.ibs.map setIndexSize) := rfl
    have hgeos : (urhoExport opts d).model.geometries
        = (d.geometriesList.foldl (fun (q : BufState × List UrhoGeometry) g =>
            ((processGeometry opts d.bonesCount d.verticesList (useOneBuffer opts d) q.1 g).1,
             q.2 ++ [(processGeometry opts d.bonesCount d.verticesList
               (useOneBuffer opts d) q.1 g).2]))
          (initialBufState, [])).2 := rfl
    rw [hone] at hvbs hibs hgeos
    obtain ⟨q1, q2, q3, q4⟩ := exportFold_split opts d.bonesCount d.verticesList
      d.geometriesList (initialBufState, []) hall rfl rfl
      (fun k hk => absurd hk (Nat.not_lt_zero k))
    refine ⟨?_, ?_, ?_⟩
    · rw [hvbs, List.length_map]
      refine q1.trans ?_
      show 0 + d.geometriesList.length = d.geometriesList.length
      omega
    · rw [hibs, List.length_map]
      refine q2.trans ?_
      show 0 + d.geometriesList.length = d.geometriesList.length
      omega
    · intro k hk
      rw [hgeos] at hk ⊢
      exact q4 k hk

/-- C2 witness: the split option forces splitting; the two-geometry `c2Data`
exports with one shared buffer pair by default and with one buffer pair per
geometry (first LOD referencing its own buffer from index 0) when split. -/
theorem claim_C2_buffer_splitting_witness :
    useOneBuffer optsSplit c2Data = false ∧
    (urhoExport optsDefault c2Data).model.vertexBuffers.length = 1 ∧
    (urhoExport optsDefault c2Data).model.indexBuffers.length = 1 ∧
    (urhoExport optsSplit c2Data).model.vertexBuffers.length
      = c2Data.geometriesList.length ∧
    (urhoExport optsSplit c2Data).model.indexBuffers.length
      = c2Data.geometriesList.length ∧
    GeomRefs 1 ((urhoExport optsSplit c2Data).model.geometries.getD 1 default) :=
  ⟨(claim_C2_buffer_splitting.1 optsSplit c2Data).mpr (Or.inl rfl),
   (claim_C2_buffer_splitting.2.1 optsDefault c2Data (by decide) (by decide) (by decide)).1,
   (claim_C2_buffer_splitting.2.1 optsDefault c2Data (by decide) (by decide) (by decide)).2.1,
   (claim_C2_buffer_splitting.2.2 optsSplit c2Data (by decide) (by decide)).1,
   (claim_C2_buffer_splitting.2.2 optsSplit c2Data (by decide) (by decide)).2.1,
   (claim_C2_buffer_splitting.2.2 optsSplit c2Data (by decide) (by decide)).2.2 1 (by decide)⟩

/-- C3: every vertex buffer of the exported model stores only vertices whose
element mask equals the buffer's element mask, provided the export reported no
mask errors; and when a vertex whose mask differs from the buffer's mask is
added, the mask update narrows the buffer's mask to the bitwise AND of the two
masks and flags the recoverable `MaskError` (second component `true`, which the
dedup loop turns into a logged error with the source index recorded). -/
theorem claim_C3_buffer_mask_invariant :
    (∀ bm m : ℕ, bm ≠ m → updateBufferMask (some bm) m = (some (bm &&& m), true)) ∧
    (∀ (opts : UrhoExportOptions) (d : TData),
      (urhoExport opts d).maskErrors = 0 →
      ∀ vb ∈ (urhoExport opts d).model.vertexBuffers,
        ∀ v ∈ vb.vertices, vb.elementMask = some (uVertexMask v)) := by
  constructor
  · intro bm m hne
    simp only [updateBufferMask]
    rw [if_neg hne]
  · intro opts d hme vb hvb v hv
    have hme2 : (d.geometriesList.foldl
        (fun (p : BufState × List UrhoGeometry) g =>
          ((processGeometry opts d.bonesCount d.verticesList (useOneBuffer opts d) p.1 g).1,
           p.2 ++ [(processGeometry opts d.bonesCount d.verticesList
             (useOneBuffer opts d) p.1 g).2]))
        (initialBufState, [])).1.maskErrors
        = (initialBufState, ([] : List UrhoGeometry)).1.maskErrors := hme
    have hinv := exportFold_mask_inv opts d.bonesCount d.verticesList (useOneBuffer opts d)
      d.geometriesList (initialBufState, []) hme2
      (by intro x hx; exact absurd hx (List.not_mem_nil x))
    have hvb2 : vb ∈ ((d.geometriesList.foldl
        (fun (p : BufState × List UrhoGeometry) g =>
          ((processGeometry opts d.bonesCount d.verticesList (useOneBuffer opts d) p.1 g).1,
           p.2 ++ [(processGeometry opts d.bonesCount d.verticesList
             (useOneBuffer opts d) p.1 g).2]))
        (initialBufState, [])).1.vbs.map setMorphDefault) := hvb
    obtain ⟨vb0, hvb0, rfl⟩ := List.mem_map.mp hvb2
    exact (setMorphDefault_mask_inv (hinv vb0 hvb0)).2 v hv

/-- C3 witness: a mismatching mask is narrowed by AND and flagged, and the
error-free `c9Data` export applied at its sole buffer and first vertex. -/
theorem claim_C3_buffer_mask_invariant_witness :
    updateBufferMask (some (ELEMENT_POSITION ||| ELEMENT_NORMAL)) ELEMENT_POSITION
      = (some ELEMENT_POSITION, true) ∧
    ((urhoExport optsDefault c9Data).model.vertexBuffers.getD 0 emptyVB).elementMask
      = some (uVertexMask
        (((urhoExport optsDefault c9Data).model.vertexBuffers.getD 0
          emptyVB).vertices.getD 0 default)) :=
  ⟨claim_C3_buffer_mask_invariant.1 (ELEMENT_POSITION ||| ELEMENT_NORMAL) ELEMENT_POSITION
     (by decide),
   claim_C3_buffer_mask_invariant.2 optsDefault c9Data (by decide) _ (by decide) _ (by decide)⟩

end Urho
